import Mathlib

/-!
Verification model of the btree-db storage engine.

Pages are modelled as total functions from byte offsets to byte values
(`Page`), machine integers as `Nat` with explicit wrapping (`sub64`) where
the Rust `u64` arithmetic can wrap, and fallible or panicking paths as
`Option` / `Except` values.  Definitions are transliterated from the Rust
sources in `src/storage`; field and function names follow the source.
-/

namespace Db

/-- Model of `u64::MAX + 1`.  Bytes are modelled as plain naturals;
well-formed pages keep them below 256. -/
def U64 : Nat := 2 ^ 64

/-- Model of `u64::MAX`, the sentinel used for leaf pointers. -/
def U64MAX : Nat := U64 - 1

/-- Wrapping subtraction on `u64` values (the Rust `-=` on release builds). -/
def sub64 (a b : Nat) : Nat := (a + U64 - b % U64) % U64

/-- A page is a total map from byte offset to byte value; the program only
ever touches offsets below `PAGE_SIZE`. -/
def Page : Type := Nat → Nat

/-- Model of `clone_from_slice` at offset `s`: the bytes `bs` overwrite the
range `[s, s + bs.length)`. -/
def wb (p : Page) (s : Nat) (bs : List Nat) : Page :=
  fun i => if s ≤ i ∧ i < s + bs.length then bs.getD (i - s) 0 else p i

/-- Model of reading `n` bytes starting at offset `s`. -/
def rB (p : Page) (s n : Nat) : List Nat :=
  (List.range n).map (fun j => p (s + j))

/-- Big-endian bytes of a machine integer, least significant last:
`toBEn k v` produces the `k` low-order bytes of `v`. -/
def toBEn : Nat → Nat → List Nat
  | 0, _ => []
  | k + 1, v => toBEn k (v / 256) ++ [v % 256]

/-- Model of `u64::to_be_bytes` / `usize::to_be_bytes` (8 bytes). -/
def toBE (v : Nat) : List Nat := toBEn 8 v

/-- Model of `u64::from_be_bytes` / `usize::from_be_bytes`. -/
def fromBE (bs : List Nat) : Nat := bs.foldl (fun a b => a * 256 + b) 0

/-- Read a big-endian `u64` (ok `usize`, both 8 bytes) at offset `s`. -/
def rU64 (p : Page) (s : Nat) : Nat := fromBE (rB p s 8)

/-! Layout constants, from `src/storage/layout.rs`.  `size_of::<usize>()` and
`size_of::<u64>()` are both 8 on the target platform. -/

def PAGE_SIZE : Nat := 4096
def PAGE_MAGIC : Nat := 0xFEBA
def PAGE_MAGIC_SIZE : Nat := 8
def PAGE_MAGIC_OFFSET : Nat := 0
def PAGE_TYPE_SIZE : Nat := 1
def PAGE_TYPE_OFFSET : Nat := PAGE_MAGIC_OFFSET + PAGE_MAGIC_SIZE
def PAGE_IS_ROOT_SIZE : Nat := 1
def PAGE_IS_ROOT_OFFSET : Nat := PAGE_TYPE_OFFSET + PAGE_TYPE_SIZE
def PAGE_HEADERS_SIZE : Nat := PAGE_MAGIC_SIZE + PAGE_TYPE_SIZE + PAGE_IS_ROOT_SIZE

def INTERNAL_NUM_KEYS_SIZE : Nat := 8
def INTERNAL_NUM_KEYS_OFFSET : Nat := PAGE_HEADERS_SIZE
def INTERNAL_RIGHT_MOST_CHILD_SIZE : Nat := 8
def INTERNAL_RIGHT_MOST_CHILD_OFFSET : Nat :=
  INTERNAL_NUM_KEYS_OFFSET + INTERNAL_NUM_KEYS_SIZE
def INTERNAL_HEADER_SIZE : Nat :=
  PAGE_HEADERS_SIZE + INTERNAL_NUM_KEYS_SIZE + INTERNAL_RIGHT_MOST_CHILD_SIZE
def INTERNAL_KEY_SIZE : Nat := 8
def INTERNAL_KEY_OFFSET : Nat := 0
def INTERNAL_KEY_POINTER_SIZE : Nat := 8
def INTERNAL_KEY_POINTER_OFFSET : Nat := INTERNAL_KEY_OFFSET + INTERNAL_KEY_SIZE
def INTERNAL_CELL_SIZE : Nat := INTERNAL_NUM_KEYS_SIZE + INTERNAL_KEY_POINTER_SIZE
def INTERNAL_SPACE_FOR_CELLS : Nat := PAGE_SIZE - INTERNAL_HEADER_SIZE
def INTERNAL_MAX_KEYS : Nat := INTERNAL_SPACE_FOR_CELLS / INTERNAL_CELL_SIZE

def LEAF_OVERFLOW_POINTER_SIZE : Nat := 8
def LEAF_OVERFLOW_POINTER_OFFSET : Nat := PAGE_HEADERS_SIZE
def LEAF_OVERFLOW_POINTER_DEFAULT : Nat := U64MAX
def LEAF_NEXT_SIBLING_POINTER_SIZE : Nat := 8
def LEAF_NEXT_SIBLING_POINTER_OFFSET : Nat :=
  LEAF_OVERFLOW_POINTER_OFFSET + LEAF_OVERFLOW_POINTER_SIZE
def LEAF_NUM_KEYS_SIZE : Nat := 8
def LEAF_NUM_KEYS_OFFSET : Nat :=
  LEAF_NEXT_SIBLING_POINTER_OFFSET + LEAF_NEXT_SIBLING_POINTER_SIZE
def LEAF_FREE_SPACE_START_SIZE : Nat := 8
def LEAF_FREE_SPACE_START_OFFSET : Nat := LEAF_NUM_KEYS_SIZE + LEAF_NUM_KEYS_OFFSET
def LEAF_FREE_SPACE_END_SIZE : Nat := 8
def LEAF_FREE_SPACE_END_OFFSET : Nat :=
  LEAF_FREE_SPACE_START_OFFSET + LEAF_FREE_SPACE_START_SIZE
def LEAF_HEADER_SIZE : Nat := PAGE_HEADERS_SIZE + LEAF_OVERFLOW_POINTER_SIZE
  + LEAF_NEXT_SIBLING_POINTER_SIZE + LEAF_NUM_KEYS_SIZE
  + LEAF_FREE_SPACE_START_SIZE + LEAF_FREE_SPACE_END_SIZE
def LEAF_NEXT_SIBLING_POINTER_DEFAULT : Nat := U64MAX
def LEAF_CELL_HAS_OVERFLOW_FLAG_SIZE : Nat := 1
def LEAF_CELL_HAS_OVERFLOW_FLAG_OFFSET : Nat := 0
def LEAF_KEY_IDENTIFIER_SIZE : Nat := 8
def LEAF_KEY_INDENTIFIER_OFFSET : Nat :=
  LEAF_CELL_HAS_OVERFLOW_FLAG_OFFSET + LEAF_CELL_HAS_OVERFLOW_FLAG_SIZE
def LEAF_KEY_POINTER_SIZE : Nat := 8
def LEAF_KEY_POINTER_OFFSET : Nat :=
  LEAF_KEY_INDENTIFIER_OFFSET + LEAF_KEY_IDENTIFIER_SIZE
def LEAF_KEY_CELL_SIZE : Nat := LEAF_CELL_HAS_OVERFLOW_FLAG_SIZE
  + LEAF_KEY_IDENTIFIER_SIZE + LEAF_KEY_POINTER_SIZE
def LEAF_CONTENT_LEN_SIZE : Nat := 8
def LEAF_SPACE_FOR_DATA : Nat := PAGE_SIZE - LEAF_HEADER_SIZE

/-! Page kinds and the boolean encoding, from `src/storage/page.rs`. -/

/-- The two page kinds, `PageType` in `src/storage/page.rs`. -/
inductive PageType where
  | Internal
  | Leaf
deriving DecidableEq, Repr

/-- The `Into<u8>` impl: Leaf is 0x0A, Internal is 0x0B. -/
def PageType.toU8 : PageType → Nat
  | .Leaf => 0xA
  | .Internal => 0xB

/-- The `TryFrom<u8>` impl: only 0x0A and 0x0B decode. -/
def pageTypeFromU8 (v : Nat) : Option PageType :=
  if v = 0xA then some PageType.Leaf
  else if v = 0xB then some PageType.Internal
  else none

/-- Source `bool_to_u8` in `src/storage/page.rs`: note that it maps
`true` to 0x0 and `false` to 0x1. -/
def bool_to_u8 (v : Bool) : Nat := if v then 0x0 else 0x1

/-- Source `u8_to_bool`: inverse of `bool_to_u8`; other bytes fail. -/
def u8_to_bool (v : Nat) : Option Bool :=
  if v = 0x0 then some true else if v = 0x1 then some false else none

/-! Cells, from `src/storage/cell.rs`.  The `Cell` trait interface is the
one the spec gives in section 4.2 (`get_key`, `get_key_bytes`, `get_content`,
`from_bytes`); `src/storage/cell.rs` is mid-refactor and only carries part
of it, while `src/storage/btree.rs` and `src/storage/cursor.rs` call all
four. -/

/-- Leaf cell: overflow flag, key (`identifier`) and value bytes. -/
structure LeafCell where
  overflow : Bool
  identifier : Nat
  content : List Nat
deriving DecidableEq, Repr

/-- Internal cell: separator key and child page pointer. -/
structure InternalCell where
  key : Nat
  pointer : Nat
deriving DecidableEq, Repr

/-- The `Cell` trait operations used by `Node` (spec section 4.2). -/
class Cell (α : Type) where
  get_key : α → Nat
  get_key_bytes : α → List Nat
  get_content : α → List Nat

def LeafCell.new (id : Nat) (content : List Nat) (overflow : Bool) : LeafCell :=
  { identifier := id, content := content, overflow := overflow }

instance : Cell LeafCell where
  get_key c := c.identifier
  get_key_bytes c := [bool_to_u8 c.overflow] ++ toBE c.identifier
  get_content c := c.content

def InternalCell.new (key pointer : Nat) : InternalCell := { key, pointer }

instance : Cell InternalCell where
  get_key c := c.key
  get_key_bytes c := toBE c.key
  get_content c := toBE c.key ++ toBE c.pointer

/-- Modelled from the spec: `from_bytes(raw)` reconstructs a leaf cell from
its key bytes followed by the value bytes (spec section 4.2); the method is
called from `split_leaf_node` in `src/storage/btree.rs` but is absent from
the mid-refactor `src/storage/cell.rs`. -/
def LeafCell.from_bytes (bs : List Nat) : LeafCell :=
  { overflow := false, identifier := fromBE (bs.take 8), content := bs.drop 8 }

/-- Modelled from the spec: `from_bytes(raw)` for an internal cell reads the
8-byte key then the 8-byte pointer, exactly as the source `set_content` in
`src/storage/cell.rs` does. -/
def InternalCell.from_bytes (bs : List Nat) : InternalCell :=
  { key := fromBE (bs.take 8), pointer := fromBE ((bs.drop 8).take 8) }

/-! Page builder, from `src/storage/page.rs`. -/

/-- The `PageBuilder` struct; `ptype` is the source field `_type`. -/
structure PageBuilder where
  inner : Page
  ptype : PageType
  content_set : Bool

/-- `PageBuilder::kind`: writes the kind byte and records the kind. -/
def PageBuilder.kind (b : PageBuilder) (t : PageType) : PageBuilder :=
  { b with inner := wb b.inner PAGE_TYPE_OFFSET [t.toU8], ptype := t }

/-- `PageBuilder::is_root`: writes `bool_to_u8 is_root` at offset 9. -/
def PageBuilder.is_root (b : PageBuilder) (flag : Bool) : PageBuilder :=
  { b with inner := wb b.inner PAGE_IS_ROOT_OFFSET [bool_to_u8 flag] }

/-- `PageBuilder::content`: validates the magic then replaces the whole
buffer with the given `PAGE_SIZE`-byte array `c`. -/
def PageBuilder.content (b : PageBuilder) (c : Page) :
    Except String PageBuilder :=
  let magic := rU64 c PAGE_MAGIC_OFFSET
  if magic ≠ PAGE_MAGIC then Except.error "content is not a valid page"
  else Except.ok { b with inner := c, content_set := true }

/-- `PageBuilder::build`: writes the magic and, for a fresh leaf, the
default leaf header fields. -/
def PageBuilder.build (b : PageBuilder) : Page :=
  let inner := wb b.inner PAGE_MAGIC_OFFSET (toBE PAGE_MAGIC)
  if b.ptype = PageType.Leaf ∧ b.content_set = false then
    let inner := wb inner LEAF_FREE_SPACE_START_OFFSET (toBE LEAF_HEADER_SIZE)
    let inner := wb inner LEAF_FREE_SPACE_END_OFFSET (toBE PAGE_SIZE)
    let inner := wb inner LEAF_NEXT_SIBLING_POINTER_OFFSET
      (toBE LEAF_NEXT_SIBLING_POINTER_DEFAULT)
    let inner := wb inner LEAF_OVERFLOW_POINTER_OFFSET
      (toBE LEAF_OVERFLOW_POINTER_DEFAULT)
    inner
  else
    inner

/-- `PageBuilder::default`: zeroed buffer, kind Internal, not root. -/
def PageBuilder.default : PageBuilder :=
  ((PageBuilder.mk (fun _ => 0) PageType.Leaf false).kind
    PageType.Internal).is_root false

/-! Nodes, from `src/storage/btree.rs`. -/

/-- Result type of node operations, `NodeResult` in `src/storage/btree.rs`. -/
inductive NodeResult where
  | IsFull
  | HasOverflow (rest : List Nat)
  | InvalidPage (desc : String)
  | DuplicateKey
  | KeyDoesNotExist
deriving DecidableEq, Repr

instance {ε α : Type} [DecidableEq ε] [DecidableEq α] : DecidableEq (Except ε α) :=
  fun a b =>
    match a, b with
    | .error e, .error f =>
      if h : e = f then .isTrue (by rw [h]) else .isFalse (fun hh => h (Except.error.inj hh))
    | .error _, .ok _ => .isFalse (fun hh => Except.noConfusion hh)
    | .ok _, .error _ => .isFalse (fun hh => Except.noConfusion hh)
    | .ok a, .ok b =>
      if h : a = b then .isTrue (by rw [h]) else .isFalse (fun hh => h (Except.ok.inj hh))

/-- The `Display` impl for `NodeResult`. -/
def NodeResult.message : NodeResult → String
  | .IsFull => "node is currently full"
  | .HasOverflow _ => "node has overflow"
  | .InvalidPage desc => "invalid page; " ++ desc
  | .DuplicateKey => "duplicate key"
  | .KeyDoesNotExist => "key does not exist"

/-- In-memory view of a page (`Node` in `src/storage/btree.rs`).
`ntype` is the source field `_type` captured at load time; the source also
caches the cell count in a `keys` field, which is never read back and is
omitted here.  In the source the node aliases a cached page through
`Arc<RwLock<..>>`; the world model below writes the `page` component back
into the pager cache at each point the source mutates it. -/
structure Node where
  page : Page
  buffer : Option Page
  ntype : PageType

/-- `read_u64_data`: reads from the buffer when `buffered` is set and a
buffer exists, else from the page. -/
def Node.read_u64_data (n : Node) (start : Nat) (buffered : Bool) : Nat :=
  match n.buffer, buffered with
  | some buf, true => rU64 buf start
  | _, _ => rU64 n.page start

/-- `read_variable_data`: same dispatch as `read_u64_data`. -/
def Node.read_variable_data (n : Node) (start size : Nat) (buffered : Bool) :
    List Nat :=
  match n.buffer, buffered with
  | some buf, true => rB buf start size
  | _, _ => rB n.page start size

/-- `write_all_bytes`: writes to the buffer when one is set, else to the
page. -/
def Node.write_all_bytes (n : Node) (bytes : List Nat) (start : Nat) : Node :=
  match n.buffer with
  | some buf => { n with buffer := some (wb buf start bytes) }
  | none => { n with page := wb n.page start bytes }

/-- `Node::load`: decodes the kind byte (unbuffered read) or fails with
`InvalidPage`. -/
def Node.load (page : Page) : Except NodeResult Node :=
  match pageTypeFromU8 (page PAGE_TYPE_OFFSET) with
  | some t => Except.ok { page := page, buffer := none, ntype := t }
  | none => Except.error (NodeResult.InvalidPage "error while reading page type")

/-- `num_cells`: cell count for the node kind. -/
def Node.num_cells (n : Node) : Nat :=
  match n.ntype with
  | .Leaf => n.read_u64_data LEAF_NUM_KEYS_OFFSET true
  | .Internal => n.read_u64_data INTERNAL_NUM_KEYS_OFFSET true

/-- `calculate_cell_position`: byte offset of cell `num`. -/
def Node.calculate_cell_position (n : Node) (num : Nat) : Nat :=
  match n.ntype with
  | .Leaf => LEAF_HEADER_SIZE + num * LEAF_KEY_CELL_SIZE
  | .Internal => INTERNAL_HEADER_SIZE + num * INTERNAL_CELL_SIZE

/-- `get_cell_key`: key stored at cell position `pos`. -/
def Node.get_cell_key (n : Node) (pos : Nat) (buffered : Bool) : Nat :=
  match n.ntype with
  | .Leaf => n.read_u64_data (LEAF_KEY_INDENTIFIER_OFFSET + pos) buffered
  | .Internal => n.read_u64_data (INTERNAL_KEY_OFFSET + pos) buffered

/-- `get_cell_key_pointer`: pointer stored at cell position `pos`. -/
def Node.get_cell_key_pointer (n : Node) (pos : Nat) (buffered : Bool) : Nat :=
  match n.ntype with
  | .Leaf => n.read_u64_data (LEAF_KEY_POINTER_OFFSET + pos) buffered
  | .Internal => n.read_u64_data (INTERNAL_KEY_POINTER_OFFSET + pos) buffered

/-- The leaf branch of the `find_cell_num` binary-search loop, with an
explicit iteration bound.  The source loop `while min_idx != max_idx`
shrinks `max_idx - min_idx` on every iteration, so any `fuel` larger than
the initial `max_idx` reproduces it exactly; on fuel exhaustion we return
`min_idx`, which the source cannot reach. -/
def Node.leafSearchLoop (n : Node) (key : Nat) :
    Nat → Nat → Nat → Nat
  | 0, min_idx, _ => min_idx
  | fuel + 1, min_idx, max_idx =>
    if min_idx = max_idx then min_idx
    else
      let index := (min_idx + max_idx) / 2
      let key_at_index := n.get_cell_key (n.calculate_cell_position index) true
      if key = key_at_index then index
      else if key < key_at_index then n.leafSearchLoop key fuel min_idx index
      else n.leafSearchLoop key fuel (index + 1) max_idx

/-- The internal branch of the `find_cell_num` loop, bounded like
`leafSearchLoop`. -/
def Node.internalSearchLoop (n : Node) (key : Nat) :
    Nat → Nat → Nat → Nat
  | 0, min_idx, _ => min_idx
  | fuel + 1, min_idx, max_idx =>
    if min_idx = max_idx then min_idx
    else
      let index := (min_idx + max_idx) / 2
      let key_at_right := n.get_cell_key (n.calculate_cell_position index) true
      if key_at_right ≥ key then n.internalSearchLoop key fuel min_idx index
      else n.internalSearchLoop key fuel (index + 1) max_idx

/-- `find_cell_num`: binary search for `key`. -/
def Node.find_cell_num (n : Node) (key : Nat) : Nat :=
  let num_cells := n.num_cells
  match n.ntype with
  | .Leaf => n.leafSearchLoop key (num_cells + 1) 0 num_cells
  | .Internal =>
    let min_idx := n.internalSearchLoop key (num_cells + 1) 0 num_cells
    if min_idx ≥ num_cells then num_cells else min_idx

/-- `node_high_key`: key of the last cell.  The source computes
`num_cells() - 1` in `u64`; on an empty node that subtraction underflows
and the read is out of range, here `Nat` subtraction reads cell 0. -/
def Node.node_high_key (n : Node) : Nat :=
  let cell_num := n.num_cells - 1
  n.get_cell_key (n.calculate_cell_position cell_num) false

/-- `node_type`: re-reads and decodes the kind byte from the page; the
source panics (`expect`) when it does not decode, modelled as `none`. -/
def Node.node_type (n : Node) : Option PageType :=
  pageTypeFromU8 (n.read_variable_data PAGE_TYPE_OFFSET PAGE_TYPE_SIZE false
    |>.getD 0 0)

/-- `is_root`: decodes the is-root byte; `unwrap` panics on other bytes,
modelled as `none`. -/
def Node.is_root (n : Node) : Option Bool :=
  u8_to_bool (n.read_variable_data PAGE_IS_ROOT_OFFSET PAGE_IS_ROOT_SIZE true
    |>.getD 0 0)

/-- `set_is_root`: writes `bool_to_u8` of the node's current `is_root`
value; the `val` argument is unused in the source.  `none` models the
panic when the current byte does not decode. -/
def Node.set_is_root (n : Node) (_val : Bool) : Option Node :=
  match n.is_root with
  | some b => some (n.write_all_bytes [bool_to_u8 b] PAGE_IS_ROOT_OFFSET)
  | none => none

/-- `overflow_pointer`: sentinel-decoded leaf overflow pointer; panics on
internal nodes (modelled as `none` wrapped in the outer `Option`). -/
def Node.overflow_pointer (n : Node) : Option (Option Nat) :=
  match n.ntype with
  | .Internal => none
  | .Leaf =>
    let v := n.read_u64_data LEAF_OVERFLOW_POINTER_OFFSET true
    if v = LEAF_OVERFLOW_POINTER_DEFAULT then some none else some (some v)

/-- `next_sibling`: sentinel-decoded leaf next-sibling pointer; `None` on
internal nodes. -/
def Node.next_sibling (n : Node) : Option Nat :=
  match n.ntype with
  | .Internal => none
  | .Leaf =>
    let v := n.read_u64_data LEAF_NEXT_SIBLING_POINTER_OFFSET true
    if v = LEAF_NEXT_SIBLING_POINTER_DEFAULT then none else some v

/-- `set_next_sibling`: writes the pointer bytes. -/
def Node.set_next_sibling (n : Node) (pointer : Nat) : Node :=
  n.write_all_bytes (toBE pointer) LEAF_NEXT_SIBLING_POINTER_OFFSET

/-- `right_child`: right-most-child pointer of an internal node. -/
def Node.right_child (n : Node) : Option Nat :=
  match n.ntype with
  | .Leaf => none
  | .Internal => some (n.read_u64_data INTERNAL_RIGHT_MOST_CHILD_OFFSET true)

/-- `check_key_exists`: reads the key slot at `find_cell_num key` — note
the unbuffered read, and that the slot index may be at or beyond
`num_cells`, in which case stale bytes are compared. -/
def Node.check_key_exists (n : Node) (key : Nat) : Bool :=
  let pos := n.calculate_cell_position (n.find_cell_num key)
  n.get_cell_key pos false = key

/-- `check_has_space`: fullness rules for both node kinds.  The leaf rule
computes `free_space_end - free_space_start` in `u64`. -/
def Node.check_has_space (n : Node) (_key : Nat) : Except NodeResult Unit :=
  match n.ntype with
  | .Leaf =>
    let free_space := sub64 (n.read_u64_data LEAF_FREE_SPACE_END_OFFSET true)
      (n.read_u64_data LEAF_FREE_SPACE_START_OFFSET true)
    if free_space ≤ LEAF_KEY_CELL_SIZE
        ∨ free_space - LEAF_KEY_CELL_SIZE ≤ LEAF_KEY_CELL_SIZE then
      Except.error NodeResult.IsFull
    else Except.ok ()
  | .Internal =>
    if n.num_cells + 1 > INTERNAL_MAX_KEYS then Except.error NodeResult.IsFull
    else Except.ok ()

/-- `read_cell_bytes`: raw bytes of cell `num` — the 16-byte cell (or the
synthesized high-key/right-child pair) on internal nodes, the value blob on
leaves. -/
def Node.read_cell_bytes (n : Node) (num : Nat) : List Nat :=
  let cell_pos := n.calculate_cell_position num
  match n.ntype with
  | .Internal =>
    if num < n.num_cells then n.read_variable_data cell_pos INTERNAL_CELL_SIZE true
    else
      toBE n.node_high_key
        ++ n.read_variable_data INTERNAL_RIGHT_MOST_CHILD_OFFSET
          INTERNAL_RIGHT_MOST_CHILD_SIZE true
  | .Leaf =>
    let pointer := n.get_cell_key_pointer cell_pos false
    let content_size := n.read_u64_data pointer true
    n.read_variable_data (pointer + LEAF_CONTENT_LEN_SIZE) content_size true

/-- Common tail of `insert_internal_cell`: shifts the cells after the
insertion point, writes the cell bytes and bumps the count. -/
def Node.insertInternalTail (n : Node) (cell_num : Nat) (bytes : List Nat) :
    (Except NodeResult Unit) × Node :=
  let pos := n.calculate_cell_position cell_num
  let free_space_start :=
    if n.num_cells > 0 then
      n.num_cells * INTERNAL_CELL_SIZE + INTERNAL_HEADER_SIZE
    else INTERNAL_HEADER_SIZE
  let n :=
    if free_space_start ≠ pos then
      let keys_after_pos := n.read_variable_data pos (free_space_start - pos) true
      n.write_all_bytes keys_after_pos (pos + INTERNAL_CELL_SIZE)
    else n
  let n := n.write_all_bytes bytes pos
  let num_cells := n.num_cells + 1
  let n := n.write_all_bytes (toBE num_cells) INTERNAL_NUM_KEYS_OFFSET
  (Except.ok (), n)

/-- `insert_internal_cell`: inserts a separator cell, or updates the
right-most-child pointer when the insertion point is at or past
`num_cells` (pulling the previous right child down into a cell unless it
is 0). -/
def Node.insert_internal_cell [Cell α] (n : Node) (cell : α) :
    (Except NodeResult Unit) × Node :=
  let key := Cell.get_key cell
  let cell_num := n.find_cell_num key
  if cell_num ≥ n.num_cells then
    let right_child := n.read_u64_data INTERNAL_RIGHT_MOST_CHILD_OFFSET true
    let n := n.write_all_bytes
      (((Cell.get_content cell).drop INTERNAL_KEY_POINTER_OFFSET).take
        INTERNAL_KEY_POINTER_SIZE)
      INTERNAL_RIGHT_MOST_CHILD_OFFSET
    if right_child = 0 then (Except.ok (), n)
    else
      let bytes := toBE key ++ toBE right_child
      n.insertInternalTail cell_num bytes
  else
    n.insertInternalTail cell_num (Cell.get_content cell)

/-- `insert_leaf_cell`: appends the value blob below `free_space_end`,
shifts key slots right of the insertion point, writes the new slot and the
updated header fields.  The `free_space_end -= blob` subtraction is the
source `u64` wrapping subtraction. -/
def Node.insert_leaf_cell [Cell α] (n : Node) (cell : α) :
    (Except NodeResult Unit) × Node :=
  let free_space_start := n.read_u64_data LEAF_FREE_SPACE_START_OFFSET true
  let free_space_end0 := n.read_u64_data LEAF_FREE_SPACE_END_OFFSET true
  let key_pos := n.calculate_cell_position (n.find_cell_num (Cell.get_key cell))
  let content := Cell.get_content cell
  let content_bytes := toBE content.length ++ content
  let free_space_end := sub64 free_space_end0 content_bytes.length
  if free_space_start + LEAF_KEY_CELL_SIZE ≥ free_space_end then
    (Except.error (NodeResult.HasOverflow []), n)
  else
    let key_bytes := Cell.get_key_bytes cell ++ toBE free_space_end
    let n :=
      if key_pos < free_space_start then
        let keys_after_cell :=
          n.read_variable_data key_pos (free_space_start - key_pos) true
        n.write_all_bytes keys_after_cell (key_pos + LEAF_KEY_CELL_SIZE)
      else n
    let free_space_start := free_space_start + LEAF_KEY_CELL_SIZE
    let n := n.write_all_bytes key_bytes key_pos
    let n := n.write_all_bytes content_bytes free_space_end
    let n := n.write_all_bytes (toBE free_space_start) LEAF_FREE_SPACE_START_OFFSET
    let n := n.write_all_bytes (toBE free_space_end) LEAF_FREE_SPACE_END_OFFSET
    let num_cells := n.num_cells + 1
    let n := n.write_all_bytes (toBE num_cells) LEAF_NUM_KEYS_OFFSET
    (Except.ok (), n)

/-- `insert_cell`: duplicate check, space check, then kind dispatch.  Both
checks precede every write, so the error cases return the node unchanged
exactly as the source leaves the page untouched. -/
def Node.insert_cell [Cell α] (n : Node) (cell : α) :
    (Except NodeResult Unit) × Node :=
  if n.check_key_exists (Cell.get_key cell) then
    (Except.error NodeResult.DuplicateKey, n)
  else
    match n.check_has_space (Cell.get_key cell) with
    | Except.error e => (Except.error e, n)
    | Except.ok () =>
      match n.ntype with
      | .Internal => n.insert_internal_cell cell
      | .Leaf => n.insert_leaf_cell cell

/-- `update`: rewrites a separator key and/or pointer on internal nodes;
the leaf arm is `todo!()` in the source, modelled as the outer `none`. -/
def Node.update [Cell α] (n : Node) (identifier : Nat) (cell : α) :
    Option ((Except NodeResult Unit) × Node) :=
  if ¬ n.check_key_exists identifier then
    some (Except.error NodeResult.KeyDoesNotExist, n)
  else
    let cell_num := n.find_cell_num identifier
    match n.ntype with
    | .Internal =>
      let pointer_bytes := ((Cell.get_content cell).drop
        INTERNAL_KEY_POINTER_OFFSET).take INTERNAL_KEY_POINTER_SIZE
      if cell_num ≥ n.num_cells then
        some (Except.ok (),
          n.write_all_bytes pointer_bytes INTERNAL_RIGHT_MOST_CHILD_OFFSET)
      else
        let pos := n.calculate_cell_position cell_num
        let n := n.write_all_bytes (toBE (Cell.get_key cell))
          (pos + INTERNAL_KEY_OFFSET)
        let n := n.write_all_bytes pointer_bytes (pos + INTERNAL_KEY_POINTER_OFFSET)
        some (Except.ok (), n)
    | .Leaf => none

/-- A byte copy of the `PAGE_SIZE`-byte array behind a page (the source
`[u8; PAGE_SIZE]` clone obtained through `read_variable_data(0, PAGE_SIZE)`;
see `pageCopy_eq_rB`). -/
def pageCopy (p : Page) : Page :=
  fun i => if i < PAGE_SIZE then p i else 0

/-- Overwriting a full page with another page's `PAGE_SIZE` bytes (the
source `write_all_bytes(buf[..].to_vec(), 0)`; see `writePageBytes_eq_wb`). -/
def writePageBytes (dst src : Page) : Page :=
  fun i => if i < PAGE_SIZE then src i else dst i

/-- `set_buffer`: snapshots the page bytes into the shadow buffer. -/
def Node.set_buffer (n : Node) : Node :=
  { n with buffer := some (pageCopy n.page) }

/-- `flush_buffer`: takes the buffer and writes its bytes over the page. -/
def Node.flush_buffer (n : Node) : Node :=
  match n.buffer with
  | some buf => { n with buffer := none, page := writePageBytes n.page buf }
  | none => n

/-- Extraction step of the `split_leaf_node` loop: cell `i` of the combined
sequence (the node's cells with the incoming cell at `new_cell_num`).
All reads are unbuffered, i.e. from the pristine page, as in the source. -/
def Node.splitExtract [Cell α] (self : Node) (new_cell : α)
    (new_cell_num i : Nat) : LeafCell :=
  if i = new_cell_num then
    LeafCell.from_bytes (toBE (Cell.get_key new_cell) ++ Cell.get_content new_cell)
  else
    let j := if i > new_cell_num then i - 1 else i
    let pos := self.calculate_cell_position j
    let key := self.get_cell_key pos false
    let pointer := self.get_cell_key_pointer pos false
    let content_size := self.read_u64_data pointer false
    let content_bytes :=
      self.read_variable_data (pointer + LEAF_CONTENT_LEN_SIZE) content_size false
    LeafCell.from_bytes (toBE key ++ content_bytes)

/-- The `for i in (0..cells).rev()` loop of `split_leaf_node`:
`splitLoop k` handles indices `k-1` down to `0`; an insertion error aborts
the loop (the source `?`). -/
def Node.splitLoop [Cell α] (new_cell : α) (new_cell_num left_split_count : Nat) :
    Nat → Node → Node → (Except NodeResult Unit) × Node × Node
  | 0, selfN, nodeN => (Except.ok (), selfN, nodeN)
  | k + 1, selfN, nodeN =>
    let cell := selfN.splitExtract new_cell new_cell_num k
    if k ≥ left_split_count then
      match nodeN.insert_leaf_cell cell with
      | (Except.error e, nodeN) => (Except.error e, selfN, nodeN)
      | (Except.ok (), nodeN) =>
        Node.splitLoop new_cell new_cell_num left_split_count k selfN nodeN
    else
      match selfN.insert_leaf_cell cell with
      | (Except.error e, selfN) => (Except.error e, selfN, nodeN)
      | (Except.ok (), selfN) =>
        Node.splitLoop new_cell new_cell_num left_split_count k selfN nodeN

/-- `split_leaf_node`: resets the left node's leaf header, redistributes
the `num_cells + 1` cells (right node takes the top `cells / 2`), then
writes both counts. -/
def Node.split_leaf_node [Cell α] (self node : Node) (new_cell : α) :
    (Except NodeResult Unit) × Node × Node :=
  let cells := self.num_cells + 1
  let new_cell_num := self.find_cell_num (Cell.get_key new_cell)
  let right_split_count := cells / 2
  let left_split_count := cells - right_split_count
  let self := self.write_all_bytes (toBE LEAF_HEADER_SIZE) LEAF_FREE_SPACE_START_OFFSET
  let self := self.write_all_bytes (toBE PAGE_SIZE) LEAF_FREE_SPACE_END_OFFSET
  let self := self.write_all_bytes (toBE 0) LEAF_NUM_KEYS_OFFSET
  match Node.splitLoop new_cell new_cell_num left_split_count cells self node with
  | (Except.error e, s, nn) => (Except.error e, s, nn)
  | (Except.ok (), s, nn) =>
    let s := s.write_all_bytes (toBE left_split_count) LEAF_NUM_KEYS_OFFSET
    let nn := nn.write_all_bytes (toBE right_split_count) LEAF_NUM_KEYS_OFFSET
    (Except.ok (), s, nn)

/-- `split`: shadow-buffers both nodes, dispatches on the (re-read) node
type, and on success flushes both buffers and propagates the left node's
next-sibling pointer to the new node.  The outer `none` models the panics:
an undecodable kind byte, or the `todo!()` internal-node split. -/
def Node.split [Cell α] (self node : Node) (cell : α) :
    Option ((Except NodeResult Unit) × Node × Node) :=
  let self := self.set_buffer
  let node := node.set_buffer
  match self.node_type with
  | none => none
  | some PageType.Internal => none
  | some PageType.Leaf =>
    match self.split_leaf_node node cell with
    | (Except.error e, s, nn) =>
      some (Except.error e, { s with buffer := none }, { nn with buffer := none })
    | (Except.ok (), s, nn) =>
      let s := s.flush_buffer
      let nn := nn.flush_buffer
      match s.next_sibling with
      | some sibling => some (Except.ok (), s, nn.set_next_sibling sibling)
      | none => some (Except.ok (), s, nn)

/-! Pager and table, from `src/storage/pager.rs` and `src/storage/table.rs`. -/

/-- Computation that either produces a value or terminates the process
(a Rust `panic` / `expect` / `unwrap` failure / `todo!`). -/
inductive Exec (α : Type) where
  | fatal
  | ok (a : α)

instance : Monad Exec where
  pure := Exec.ok
  bind m f := match m with | .fatal => .fatal | .ok a => f a

/-- The backing file: its current length and its bytes (fresh bytes are
zero). -/
structure DbFile where
  len : Nat
  data : Page

/-- A zero-length file, as created for a fresh database. -/
def DbFile.fresh : DbFile := { len := 0, data := fun _ => 0 }

/-- Seek to `offset` and write the `PAGE_SIZE` bytes of page `p` (extends
the length when writing at or past the end). -/
def DbFile.writePage (f : DbFile) (offset : Nat) (p : Page) : DbFile :=
  { len := max f.len (offset + PAGE_SIZE),
    data := fun i =>
      if offset ≤ i ∧ i < offset + PAGE_SIZE then p (i - offset) else f.data i }

/-- Lookup in the page cache (models `HashMap::get`). -/
def cacheLookup (c : List (Nat × Page)) (num : Nat) : Option Page :=
  (c.find? (fun e => e.1 = num)).map (fun e => e.2)

/-- Insert into the page cache, replacing any entry for the same number
(models `HashMap::insert`). -/
def cacheInsert (c : List (Nat × Page)) (num : Nat) (p : Page) :
    List (Nat × Page) :=
  (num, p) :: c.filter (fun e => e.1 ≠ num)

/-- The `Pager` struct: page count, root page number, cache and file. -/
structure Pager where
  num_pages : Nat
  root_page : Nat
  cache : List (Nat × Page)
  file : DbFile

/-- `Pager::file_len`. -/
def Pager.file_len (pg : Pager) : Nat := pg.file.len

/-- `Pager::read_page`: `read_exact` of a full page at `offset` into a
fresh `[u8; PAGE_SIZE]` buffer; a short read panics (`none`). -/
def Pager.read_page (pg : Pager) (offset : Nat) : Option Page :=
  if offset + PAGE_SIZE ≤ pg.file.len then
    some (fun i => if i < PAGE_SIZE then pg.file.data (offset + i) else 0)
  else none

/-- `Pager::cache_page`: caches the page and hands back the shared
handle. -/
def Pager.cache_page (pg : Pager) (index : Nat) (page : Page) : Pager :=
  { pg with cache := cacheInsert pg.cache index page }

/-- `Pager::new_page`: builds a fresh page of the given kind, assigns the
next page number and caches it. -/
def Pager.new_page (pg : Pager) (kind : PageType) (is_root : Bool) :
    (Nat × Page) × Pager :=
  let builder := (PageBuilder.default.kind kind).is_root is_root
  let num := pg.num_pages
  let pg := { pg with num_pages := pg.num_pages + 1 }
  let page := builder.build
  ((num, page), pg.cache_page num page)

/-- `Pager::new`: derives `num_pages` from the file length and allocates
the root leaf when the file is empty. -/
def Pager.new (file : DbFile) : Pager :=
  let num_pages := file.len / PAGE_SIZE
  let obj : Pager := { num_pages := num_pages, root_page := 0, cache := [], file := file }
  if num_pages = 0 then
    let ((root_page, _), obj) := obj.new_page PageType.Leaf true
    { obj with root_page := root_page }
  else obj

/-- `Pager::get_page`: `None` when `offset > file_len`; otherwise the
cached entry, or a read-through that caches the page read from the file.
The read panics (`fatal`) when fewer than `PAGE_SIZE` bytes remain. -/
def Pager.get_page (pg : Pager) (num : Nat) : Exec (Option (Page × Pager)) :=
  let offset := num * PAGE_SIZE
  if offset > pg.file_len then Exec.ok none
  else
    match cacheLookup pg.cache num with
    | some cached_page => Exec.ok (some (cached_page, pg))
    | none =>
      match pg.read_page offset with
      | some page => Exec.ok (some (page, pg.cache_page num page))
      | none => Exec.fatal

/-- `Pager::new_root`: copies the current root into a newly allocated page
(is-root cleared, kind preserved) and overwrites the root page with a
fresh internal root.  Writing through the root handle is modelled by
replacing the cache entry for the root page. -/
def Pager.new_root (pg : Pager) : Exec ((Nat × Page) × Pager) := do
  let rootRes ← pg.get_page pg.root_page
  match rootRes with
  | none => Exec.fatal
  | some (root_handle, pg) =>
    match pageTypeFromU8 (root_handle PAGE_TYPE_OFFSET) with
    | none => Exec.fatal
    | some kind =>
      let new_root := ((PageBuilder.default.is_root true).kind PageType.Internal).build
      let num := pg.num_pages
      let pg := { pg with num_pages := pg.num_pages + 1 }
      match PageBuilder.default.content root_handle with
      | Except.error _ => Exec.fatal
      | Except.ok b =>
        let left_node := ((b.is_root false).kind kind).build
        let pg := pg.cache_page pg.root_page new_root
        Exec.ok ((num, left_node), pg.cache_page num left_node)

/-- `Pager::flush_cache`: writes every cached page at its offset. -/
def Pager.flush_cache (pg : Pager) : Pager :=
  { pg with
    file := pg.cache.foldl
      (fun f e => f.writePage (e.1 * PAGE_SIZE) e.2) pg.file }

/-- The `Table` facade over the pager. -/
structure Table where
  pager : Pager
  root : Nat

/-- `Table::new`. -/
def Table.new (file : DbFile) : Table :=
  let pager := Pager.new file
  { root := pager.root_page, pager := pager }

/-- `Table::create_page`: forwards to `new_page` with `is_root = false`. -/
def Table.create_page (t : Table) (kind : PageType) : (Nat × Page) × Table :=
  let (r, pager) := t.pager.new_page kind false
  (r, { t with pager := pager })

/-- `Table::create_new_root`. -/
def Table.create_new_root (t : Table) : Exec ((Nat × Page) × Table) := do
  let (r, pager) ← t.pager.new_root
  Exec.ok (r, { t with pager := pager })

/-- `Table::get_page`. -/
def Table.get_page (t : Table) (num : Nat) : Exec (Option (Page × Table)) := do
  let r ← t.pager.get_page num
  match r with
  | none => Exec.ok none
  | some (p, pager) => Exec.ok (some (p, { t with pager := pager }))

/-- `Table::root_page`: `get_page(root)` with an `expect`. -/
def Table.root_page (t : Table) : Exec (Page × Table) := do
  let r ← t.get_page t.root
  match r with
  | none => Exec.fatal
  | some pr => Exec.ok pr

/-- `Table::flush_contents`. -/
def Table.flush_contents (t : Table) : Table :=
  { t with pager := t.pager.flush_cache }

/-! Cursor, from `src/storage/cursor.rs`. -/

/-- Cursor traversal state. -/
inductive CursorState where
  | AtEnd
  | AtStart
  | InProgress
deriving DecidableEq, Repr

/-- The `Cursor` struct.  `nodePage` is the page number the current node
aliases (in the source this is implicit in the shared `Arc`; it always
equals the page component of the most recent breadcrumb entry).  The
breadcrumb list is kept newest-first, so `push`/`pop`/`last` act on the
head. -/
structure CursorSt where
  cell_num : Nat
  node : Node
  nodePage : Nat
  cstate : CursorState
  page_breadcrumb : List (Nat × Nat)

/-- Writing the current node's page back into the pager cache: in the
source node and cache share the page buffer, so every node mutation is
immediately visible through the table; the model commits it explicitly. -/
def syncNode (t : Table) (c : CursorSt) : Table :=
  { t with pager := t.pager.cache_page c.nodePage c.node.page }

/-- `Cursor::new`: loads the root node and seeds the breadcrumb. -/
def Cursor.new (t : Table) : Exec (CursorSt × Table) := do
  let (rootp, t) ← t.root_page
  match Node.load rootp with
  | Except.error _ => Exec.fatal
  | Except.ok node =>
    let st := if node.num_cells = 0 then CursorState.AtEnd else CursorState.AtStart
    Exec.ok ({ cell_num := 0, node := node, nodePage := t.root, cstate := st,
               page_breadcrumb := [(0, t.root)] }, t)

/-- `Cursor::find_node`: descends into the child chosen by
`find_cell_num`, pushing a breadcrumb entry. -/
def Cursor.find_node (t : Table) (c : CursorSt) (identifier : Nat) :
    Exec (CursorSt × Table) := do
  let cell_num := c.node.find_cell_num identifier
  let key_data := c.node.read_cell_bytes cell_num
  let cell := InternalCell.from_bytes key_data
  let r ← t.get_page cell.pointer
  match r with
  | none => Exec.fatal
  | some (page, t) =>
    match Node.load page with
    | Except.error _ => Exec.fatal
    | Except.ok node =>
      Exec.ok ({ c with node := node, nodePage := cell.pointer,
                        page_breadcrumb := (cell_num, cell.pointer) :: c.page_breadcrumb },
        t)

mutual

/-- `Cursor::insert`: on a leaf builds the cell and inserts it, recovering
from `IsFull` through the split procedure; on an internal node descends
first.  `fuel` bounds the descent/split recursion depth (the source
recursion is bounded by the tree height); exhaustion is modelled as
`fatal` and never occurs in the runs proved about. -/
def Cursor.insert (fuel : Nat) (t : Table) (c : CursorSt) (identifier : Nat)
    (content : List Nat) : Exec (Table × CursorSt × Except String Unit) :=
  match fuel with
  | 0 => Exec.fatal
  | fuel + 1 => do
    match c.node.node_type with
    | none => Exec.fatal
    | some PageType.Leaf =>
      let cell := LeafCell.new identifier content false
      let (res, node) := c.node.insert_cell cell
      let c := { c with node := node }
      let t := syncNode t c
      match res with
      | Except.ok () => Exec.ok (t, c, Except.ok ())
      | Except.error NodeResult.IsFull => Cursor.splitStep fuel t c identifier content
      | Except.error e => Exec.ok (t, c, Except.error e.message)
    | some PageType.Internal => do
      let (c, t) ← Cursor.find_node t c identifier
      Cursor.insert fuel t c identifier content

/-- `Cursor::split`: allocates a sibling, splits the current node into it,
links the sibling, then installs the new separator — creating a new root
when the split node was the root, otherwise updating the parent found
through the breadcrumb (recursing when the parent is itself full). -/
def Cursor.splitStep (fuel : Nat) (t : Table) (c : CursorSt) (identifier : Nat)
    (content : List Nat) : Exec (Table × CursorSt × Except String Unit) :=
  match fuel with
  | 0 => Exec.fatal
  | fuel + 1 => do
    match c.node.node_type with
    | none => Exec.fatal
    | some kind =>
      let ((new_page, page), t) := t.create_page kind
      match Node.load page with
      | Except.error e =>
        Exec.ok (t, c, Except.error ("failed to split node: " ++ e.message))
      | Except.ok new_node =>
        let old_max := c.node.node_high_key
        let splitRes :=
          match kind with
          | PageType.Leaf =>
            c.node.split new_node (LeafCell.new identifier content false)
          | PageType.Internal =>
            c.node.split new_node
              (InternalCell.new identifier (fromBE (content.take LEAF_KEY_POINTER_SIZE)))
        match splitRes with
        | none => Exec.fatal
        | some (Except.error e, s, nn) =>
          let c := { c with node := s }
          let t := syncNode t c
          let t := { t with pager := t.pager.cache_page new_page nn.page }
          Exec.ok (t, c, Except.error ("failed to split node; " ++ e.message))
        | some (Except.ok (), s, nn) =>
          let c := { c with node := s }
          let t := syncNode t c
          let t := { t with pager := t.pager.cache_page new_page nn.page }
          let c := { c with node := c.node.set_next_sibling new_page }
          let t := syncNode t c
          match c.node.is_root with
          | none => Exec.fatal
          | some true => do
            let ((old_num, _), t) ← t.create_new_root
            let (rootp, t) ← t.root_page
            match Node.load rootp with
            | Except.error _ => Exec.fatal
            | Except.ok node => do
              let c := { c with node := node, nodePage := t.root }
              let (res1, node1) := c.node.insert_cell (InternalCell.new 1 old_num)
              let c := { c with node := node1 }
              let t := syncNode t c
              match res1 with
              | Except.error _ => Exec.fatal
              | Except.ok () =>
                let (res2, node2) :=
                  c.node.insert_cell (InternalCell.new old_max new_page)
                let c := { c with node := node2 }
                let t := syncNode t c
                match res2 with
                | Except.error _ => Exec.fatal
                | Except.ok () => Exec.ok (t, c, Except.ok ())
          | some false =>
            match c.page_breadcrumb with
            | [] => Exec.fatal
            | (cell_num, cur_page) :: rest =>
              match rest with
              | [] => Exec.fatal
              | (_, parent_page) :: _ => do
                let max_key := c.node.node_high_key
                let new_page_max := nn.node_high_key
                let r ← t.get_page parent_page
                match r with
                | none => Exec.fatal
                | some (page, t) =>
                  match Node.load page with
                  | Except.error _ => Exec.fatal
                  | Except.ok parent => do
                    let c := { c with node := parent, nodePage := parent_page,
                                      page_breadcrumb := rest }
                    let key_data := c.node.read_cell_bytes cell_num
                    let cell := InternalCell.from_bytes key_data
                    match c.node.right_child with
                    | none => Exec.fatal
                    | some rc => do
                      let afterUpdate :
                          Exec (Table × CursorSt × Except String Unit) :=
                        if cur_page ≠ rc then
                          match c.node.update cell.key
                            (InternalCell.new max_key cur_page) with
                          | none => Exec.fatal
                          | some (Except.error e, node) =>
                            let c := { c with node := node }
                            let t := syncNode t c
                            Exec.ok (t, c, Except.error
                              ("failed to update parent node pointer; " ++ e.message))
                          | some (Except.ok (), node) =>
                            let c := { c with node := node }
                            let t := syncNode t c
                            Exec.ok (t, c, Except.ok ())
                        else Exec.ok (t, c, Except.ok ())
                      let (t, c, upRes) ← afterUpdate
                      match upRes with
                      | Except.error msg => Exec.ok (t, c, Except.error msg)
                      | Except.ok () =>
                        let cellNew := InternalCell.new new_page_max new_page
                        let (res, node) := c.node.insert_cell cellNew
                        let c := { c with node := node }
                        let t := syncNode t c
                        match res with
                        | Except.ok () => Exec.ok (t, c, Except.ok ())
                        | Except.error NodeResult.IsFull =>
                          Cursor.splitStep fuel t c new_page_max (toBE new_page)
                        | Except.error e =>
                          Exec.ok (t, c, Except.error
                            ("failed to split parent node: " ++ e.message))

end

/-- The descent loop at the top of `Cursor::select`: follow child 0 until
the current node is a leaf. -/
def Cursor.descendLoop (fuel : Nat) (t : Table) (c : CursorSt) :
    Exec (Table × CursorSt) :=
  match fuel with
  | 0 => Exec.fatal
  | fuel + 1 =>
    match c.node.node_type with
    | none => Exec.fatal
    | some PageType.Leaf => Exec.ok (t, c)
    | some PageType.Internal => do
      let (c, t) ← Cursor.find_node t c 0
      Cursor.descendLoop fuel t c

/-- `Cursor::advance`: bump the cell index, follow the next-sibling link
when the leaf is exhausted, flag `AtEnd` at the last leaf. -/
def Cursor.advance (t : Table) (c : CursorSt) : Exec (Table × CursorSt) := do
  let c := { c with cell_num := c.cell_num + 1 }
  if c.node.num_cells ≤ c.cell_num then
    match c.node.next_sibling with
    | some sibling => do
      let r ← t.get_page sibling
      match r with
      | none => Exec.fatal
      | some (page, t) =>
        match Node.load page with
        | Except.error _ => Exec.fatal
        | Except.ok node =>
          Exec.ok (t, { c with node := node, nodePage := sibling, cell_num := 0 })
    | none => Exec.ok (t, { c with cstate := CursorState.AtEnd })
  else Exec.ok (t, c)

/-- The emit loop of `Cursor::select`.  The source pushes only the decoded
value blob (`read_cell_bytes`); for the ordering statements each emitted
value is paired here with the key of the very cell it was read from, so an
output pair is (key slot, value blob) of one visited cell. -/
def Cursor.scanLoop (fuel : Nat) (t : Table) (c : CursorSt)
    (acc : List (Nat × List Nat)) :
    Exec (Table × CursorSt × List (Nat × List Nat)) :=
  match fuel with
  | 0 => Exec.fatal
  | fuel + 1 =>
    if c.cstate = CursorState.AtEnd then Exec.ok (t, c, acc)
    else do
      let c := { c with cstate := CursorState.InProgress }
      let pair := (c.node.get_cell_key (c.node.calculate_cell_position c.cell_num) false,
        c.node.read_cell_bytes c.cell_num)
      let (t, c) ← Cursor.advance t c
      Cursor.scanLoop fuel t c (acc ++ [pair])

/-- `Cursor::select`: descend to the left-most leaf, then emit every cell
along the sibling chain.  The list of second components is exactly the
source's output. -/
def Cursor.select (fuel : Nat) (t : Table) (c : CursorSt) :
    Exec (Table × CursorSt × List (Nat × List Nat)) := do
  let (t, c) ← Cursor.descendLoop fuel t c
  Cursor.scanLoop fuel t c []

/-! The REPL driver, from `src/repl/mod.rs` and `src/storage/statement.rs`:
the loop flushes the table, then runs each statement on a fresh cursor. -/

/-- A parsed statement. -/
inductive Stmt where
  | select
  | insert (id : Nat) (content : List Nat)

/-- Recursion/iteration budget for cursor loops in whole-run executions;
large enough for every run considered here (the loops are bounded by the
tree height resp. the total cell count). -/
def REPL_FUEL : Nat := 1000

/-- One REPL iteration: flush, fresh cursor, execute the statement.
Select output is the list of scanned (key, value) pairs. -/
def replStep (t : Table) (s : Stmt) : Exec (Table × List (Nat × List Nat)) := do
  let t := t.flush_contents
  let (c, t) ← Cursor.new t
  match s with
  | Stmt.insert id content => do
    let (t, _, _) ← Cursor.insert REPL_FUEL t c id content
    Exec.ok (t, [])
  | Stmt.select => do
    let (t, _, pairs) ← Cursor.select REPL_FUEL t c
    Exec.ok (t, pairs)

/-- Run a statement list against a table, concatenating select outputs. -/
def runRepl (t : Table) : List Stmt → Exec (Table × List (Nat × List Nat))
  | [] => Exec.ok (t, [])
  | s :: rest => do
    let (t, out) ← replStep t s
    let (t, outs) ← runRepl t rest
    Exec.ok (t, out ++ outs)

/-- Fresh database, run the given inserts in order, then one select; the
result is the scan output. -/
def runInsertsThenScan (inserts : List (Nat × List Nat)) :
    Exec (List (Nat × List Nat)) := do
  let t := Table.new DbFile.fresh
  let stmts := inserts.map (fun r => Stmt.insert r.1 r.2) ++ [Stmt.select]
  let (_, outs) ← runRepl t stmts
  Exec.ok outs

/-! Derived definitions used by the specification statements: abstraction
functions over leaf pages, well-formedness predicates, and the concrete
objects appearing in counterexamples and witnesses. -/

/-- The page produced for a fresh page of the given kind: the builder
invocation `PageBuilder::default().kind(&kind).is_root(is_root).build()`
used by `Pager::new_page` (the spec's `build_page`). -/
def build_page (kind : PageType) (flag : Bool) : Page :=
  ((PageBuilder.default.kind kind).is_root flag).build

/-- The key `find_cell_num` compares at index `i` (a buffered read, as in
the search loop). -/
def cellKeyB (n : Node) (i : Nat) : Nat :=
  n.get_cell_key (n.calculate_cell_position i) true

/-- The key `check_key_exists` reads at index `i` (an unbuffered read). -/
def cellKeyU (n : Node) (i : Nat) : Nat :=
  n.get_cell_key (n.calculate_cell_position i) false

/-- Cell count field of a leaf page. -/
def leafNumCells (p : Page) : Nat := rU64 p LEAF_NUM_KEYS_OFFSET

/-- Free-space-start field of a leaf page. -/
def leafFreeStart (p : Page) : Nat := rU64 p LEAF_FREE_SPACE_START_OFFSET

/-- Free-space-end field of a leaf page. -/
def leafFreeEnd (p : Page) : Nat := rU64 p LEAF_FREE_SPACE_END_OFFSET

/-- Byte offset of leaf key slot `i`. -/
def leafSlotPos (i : Nat) : Nat := LEAF_HEADER_SIZE + i * LEAF_KEY_CELL_SIZE

/-- Key stored in leaf slot `i`. -/
def leafKeyAt (p : Page) (i : Nat) : Nat :=
  rU64 p (leafSlotPos i + LEAF_KEY_INDENTIFIER_OFFSET)

/-- Value pointer stored in leaf slot `i`. -/
def leafPtrAt (p : Page) (i : Nat) : Nat :=
  rU64 p (leafSlotPos i + LEAF_KEY_POINTER_OFFSET)

/-- Overflow flag byte of leaf slot `i`. -/
def leafFlagAt (p : Page) (i : Nat) : Nat := p (leafSlotPos i)

/-- Length prefix of the value blob of leaf cell `i`. -/
def leafContentLenAt (p : Page) (i : Nat) : Nat := rU64 p (leafPtrAt p i)

/-- Value bytes of leaf cell `i`. -/
def leafContentAt (p : Page) (i : Nat) : List Nat :=
  rB p (leafPtrAt p i + LEAF_CONTENT_LEN_SIZE) (leafContentLenAt p i)

/-- The keys of a leaf page in slot order. -/
def leafKeys (p : Page) : List Nat :=
  (List.range (leafNumCells p)).map (leafKeyAt p)

/-- The leaf-page well-formedness predicate of claim C7 / spec P5:
free-space-start at most free-space-end, the cell count determined by
free-space-start, and every value pointer inside
`[free-space-end, PAGE_SIZE)`. -/
structure LeafP (p : Page) : Prop where
  fs_le : leafFreeStart p ≤ leafFreeEnd p
  count_eq : leafNumCells p
    = (leafFreeStart p - LEAF_HEADER_SIZE) / LEAF_KEY_CELL_SIZE
  ptr_in : ∀ i, i < leafNumCells p →
    leafFreeEnd p ≤ leafPtrAt p i ∧ leafPtrAt p i < PAGE_SIZE

/-- Auxiliary well-formedness every real leaf page satisfies, used as the
working invariant: bounded bytes, the exact free-space-start equation, and
the bounds the byte-level proofs need.  `LeafWF` implies `LeafP`. -/
structure LeafWF (p : Page) : Prop where
  bytes_lt : ∀ i, i < PAGE_SIZE → p i < 256
  fss_eq : leafFreeStart p
    = LEAF_HEADER_SIZE + leafNumCells p * LEAF_KEY_CELL_SIZE
  fs_le : leafFreeStart p ≤ leafFreeEnd p
  fse_le : leafFreeEnd p ≤ PAGE_SIZE
  ptr_lo : ∀ i, i < leafNumCells p → leafFreeEnd p ≤ leafPtrAt p i
  ptr_hi : ∀ i, i < leafNumCells p →
    leafPtrAt p i + LEAF_CONTENT_LEN_SIZE + leafContentLenAt p i ≤ PAGE_SIZE

/-- Strictly ascending keys on a leaf page. -/
def leafSorted (p : Page) : Prop :=
  ∀ i j, i < j → j < leafNumCells p → leafKeyAt p i < leafKeyAt p j

/-- Insert `x` at position `i` of `l`. -/
def insertAt (l : List Nat) (i : Nat) (x : Nat) : List Nat :=
  l.take i ++ [x] ++ l.drop i

/-- A node viewing a page as a leaf with no shadow buffer (the state of
every node the cursor creates via `Node::load`). -/
def mkLeafNode (p : Page) : Node :=
  { page := p, buffer := none, ntype := PageType.Leaf }

/-- A node viewing a page as an internal node with no shadow buffer. -/
def mkInternalNode (p : Page) : Node :=
  { page := p, buffer := none, ntype := PageType.Internal }

/-- The root leaf node of a freshly created database (page 0 right after
`Pager::new` on an empty file). -/
def freshLeafNode : Node := mkLeafNode (build_page PageType.Leaf true)

/-- The fresh internal root page written by `Pager::new_root`. -/
def freshInternalRootPage : Page :=
  ((PageBuilder.default.is_root true).kind PageType.Internal).build

/-- The fresh internal root node right after root promotion. -/
def freshInternalNode : Node := mkInternalNode freshInternalRootPage

/-- Keys of a scan result (the first components of the emitted pairs);
`none` when the run aborted. -/
def scanKeys : Exec (List (Nat × List Nat)) → Option (List Nat)
  | Exec.fatal => none
  | Exec.ok pairs => some (pairs.map Prod.fst)

/-- The insert sequence of the C1 counterexample: five 778-byte records
fill the root leaf, inserting key 35 splits it into {10,20,30} and
{35,40,50} with separator key 50 pointing at the left leaf, and key 45 is
then routed into the left leaf. -/
def c1Inserts : List (Nat × List Nat) :=
  [(10, List.replicate 778 1), (20, List.replicate 778 2),
   (30, List.replicate 778 3), (40, List.replicate 778 4),
   (50, List.replicate 778 5), (35, List.replicate 778 6),
   (45, List.replicate 778 7)]

/-- Per-record leaf space cost: one key slot plus the length-prefixed
value blob. -/
def recordCost (r : Nat × List Nat) : Nat :=
  LEAF_KEY_CELL_SIZE + LEAF_CONTENT_LEN_SIZE + r.2.length

/-- Total leaf space cost of an insert sequence. -/
def totalCost (inserts : List (Nat × List Nat)) : Nat :=
  (inserts.map recordCost).sum

/-- A small single-leaf insert sequence used as witness data. -/
def smallInserts : List (Nat × List Nat) := [(2, [9]), (1, [8]), (3, [7])]

/-- The pager state of the C4 counterexample: a fresh database after one
`new_page` and no flush — page 1 is cached but the file is still empty. -/
def c4Pager : Pager :=
  ((Pager.new DbFile.fresh).new_page PageType.Leaf false).2

/-- A two-cell leaf page used as witness data: keys 3 and 7 with one-byte
values stored compactly at the top of the page. -/
def twoCellLeafPage : Page :=
  let p := build_page PageType.Leaf true
  let p := wb p LEAF_NUM_KEYS_OFFSET (toBE 2)
  let p := wb p LEAF_FREE_SPACE_START_OFFSET (toBE (LEAF_HEADER_SIZE + 2 * LEAF_KEY_CELL_SIZE))
  let p := wb p LEAF_FREE_SPACE_END_OFFSET (toBE (PAGE_SIZE - 18))
  let p := wb p (leafSlotPos 0) ([bool_to_u8 false] ++ toBE 3 ++ toBE (PAGE_SIZE - 9))
  let p := wb p (leafSlotPos 1) ([bool_to_u8 false] ++ toBE 7 ++ toBE (PAGE_SIZE - 18))
  let p := wb p (PAGE_SIZE - 9) (toBE 1 ++ [30])
  let p := wb p (PAGE_SIZE - 18) (toBE 1 ++ [40])
  p

/-- The two-cell witness page viewed as a cursor leaf node. -/
def twoCellLeafNode : Node := mkLeafNode twoCellLeafPage

/-- Write ranges `(start, length)` of the writes the `Ok` path of
`insert_leaf_cell` performs, in source order: the slot move (when the
insertion point is below free-space-start), the key slot, the value blob,
and the three header fields. -/
def leafInsertWriteRanges [Cell α] (n : Node) (cell : α) : List (Nat × Nat) :=
  let free_space_start := n.read_u64_data LEAF_FREE_SPACE_START_OFFSET true
  let free_space_end0 := n.read_u64_data LEAF_FREE_SPACE_END_OFFSET true
  let key_pos := n.calculate_cell_position (n.find_cell_num (Cell.get_key cell))
  let content := Cell.get_content cell
  let content_len := LEAF_CONTENT_LEN_SIZE + content.length
  let free_space_end := sub64 free_space_end0 content_len
  (if key_pos < free_space_start then
    [(key_pos + LEAF_KEY_CELL_SIZE, free_space_start - key_pos)]
  else [])
  ++ [(key_pos, LEAF_KEY_CELL_SIZE), (free_space_end, content_len),
      (LEAF_FREE_SPACE_START_OFFSET, 8), (LEAF_FREE_SPACE_END_OFFSET, 8),
      (LEAF_NUM_KEYS_OFFSET, 8)]

/-- The `free_space_end -= blob` subtraction in `insert_leaf_cell`
underflows exactly when the encoded blob is larger than the current
free-space-end. -/
def leafInsertUnderflows [Cell α] (n : Node) (cell : α) : Prop :=
  n.read_u64_data LEAF_FREE_SPACE_END_OFFSET true
    < LEAF_CONTENT_LEN_SIZE + (Cell.get_content cell).length

/-- The bytes a node operation acts on: the shadow buffer when one is set
(all reads inside the mutating operations pass `buffered = true`), else
the page. -/
def activeP (n : Node) : Page :=
  match n.buffer with
  | some b => b
  | none => n.page

/-- Replace a node's active bytes (the effect of `write_all_bytes`). -/
def setA (n : Node) (q : Page) : Node :=
  match n.buffer with
  | some _ => { n with buffer := some q }
  | none => { n with page := q }

/-- The page after the `Ok` path of `insert_leaf_cell` acting on active
bytes `p`, spelled as the write sequence of the source: the conditional
slot move, the 17-byte key slot, the value blob, and the three header
fields (the cell count is re-read after the writes, as in the source). -/
def leafInsertResultP (p : Page) (c : LeafCell) : Page :=
  let fss := leafFreeStart p
  let idx := (mkLeafNode p).find_cell_num c.identifier
  let key_pos := leafSlotPos idx
  let content_bytes := toBE c.content.length ++ c.content
  let fse := sub64 (leafFreeEnd p) content_bytes.length
  let p1 := if key_pos < fss then
      wb p (key_pos + LEAF_KEY_CELL_SIZE) (rB p key_pos (fss - key_pos))
    else p
  let p2 := wb p1 key_pos
    (([bool_to_u8 c.overflow] ++ toBE c.identifier) ++ toBE fse)
  let p3 := wb p2 fse content_bytes
  let p4 := wb p3 LEAF_FREE_SPACE_START_OFFSET (toBE (fss + LEAF_KEY_CELL_SIZE))
  let p5 := wb p4 LEAF_FREE_SPACE_END_OFFSET (toBE fse)
  wb p5 LEAF_NUM_KEYS_OFFSET (toBE (rU64 p5 LEAF_NUM_KEYS_OFFSET + 1))

/-- The page of `leafInsertResultP` just before its final cell-count
write, with the header fields it depends on abstracted into parameters
(`fss` = free-space-start, `idx` = insertion index, `fse1` = decremented
free-space-end); see `leafInsert_reads`. -/
def leafInsertP5 (p : Page) (c : LeafCell) (fss idx fse1 : Nat) : Page :=
  wb (wb (wb (wb (if 50 + idx * 17 < fss then
      wb p (50 + idx * 17 + 17) (rB p (50 + idx * 17) (fss - (50 + idx * 17)))
    else p)
    (50 + idx * 17) (([bool_to_u8 c.overflow] ++ toBE c.identifier) ++ toBE fse1))
    fse1 (toBE c.content.length ++ c.content))
    34 (toBE (fss + 17)))
    42 (toBE fse1)

/-- Cell `i` of the combined sequence `split_leaf_node` redistributes: the
incoming cell at index `ncn`, the node's existing cells (read from the
unbuffered page `p`) shifted around it.  Keys are reduced mod `2^64`
because the loop re-encodes each cell through `to_be_bytes` /
`from_bytes`. -/
def combinedCell (p : Page) (c : LeafCell) (ncn i : Nat) : LeafCell :=
  if i = ncn then
    { identifier := c.identifier % U64, content := c.content, overflow := false }
  else
    let j := if i > ncn then i - 1 else i
    { identifier := leafKeyAt p j % U64, content := leafContentAt p j,
      overflow := false }

/-- Key of combined cell `i`. -/
def combKey (p : Page) (c : LeafCell) (ncn i : Nat) : Nat :=
  (combinedCell p c ncn i).identifier

/-- Content length of combined cell `i`. -/
def combLen (p : Page) (c : LeafCell) (ncn i : Nat) : Nat :=
  (combinedCell p c ncn i).content.length

/-- Keys of the `m` combined cells starting at index `a`. -/
def combKeysN (p : Page) (c : LeafCell) (ncn a : Nat) : Nat → List Nat
  | 0 => []
  | m + 1 => combKey p c ncn a :: combKeysN p c ncn (a + 1) m

/-- Total encoded blob size (8-byte length prefix plus content) of the `m`
combined cells starting at index `a`. -/
def combBlobSumN (p : Page) (c : LeafCell) (ncn a : Nat) : Nat → Nat
  | 0 => 0
  | m + 1 => (8 + combLen p c ncn a) + combBlobSumN p c ncn (a + 1) m

/-- Post-state facts about a successful `insert_leaf_cell` on active bytes
`p`: well-formedness is preserved, the key list gains the new key at the
insertion index, the header fields move by one slot resp. one blob, and
the bytes below the cell-count field and in the free gap are untouched. -/
structure LeafInsertPost (p : Page) (c : LeafCell) : Prop where
  wf : LeafWF (leafInsertResultP p c)
  keys : leafKeys (leafInsertResultP p c)
    = insertAt (leafKeys p) ((mkLeafNode p).find_cell_num c.identifier)
        (c.identifier % U64)
  count : leafNumCells (leafInsertResultP p c) = leafNumCells p + 1
  fss : leafFreeStart (leafInsertResultP p c) = leafFreeStart p + 17
  fse : leafFreeEnd (leafInsertResultP p c)
    = leafFreeEnd p - (8 + c.content.length)
  low : ∀ i, i < 26 → leafInsertResultP p c i = p i
  gap : ∀ i, leafFreeStart p + 17 ≤ i →
    i < leafFreeEnd p - (8 + c.content.length) → leafInsertResultP p c i = p i

/-- Single-root-leaf database state: the cache holds exactly the root
leaf page, which is well formed, sorted, of leaf kind, unlinked, and has a
zeroed free-space gap.  This is the state every insert run below a leaf's
capacity stays in. -/
structure RootLeafSt (t : Table) (p : Page) : Prop where
  cache : t.pager.cache = [(0, p)]
  root0 : t.root = 0
  proot : t.pager.root_page = 0
  wf : LeafWF p
  sorted : leafSorted p
  kind : p PAGE_TYPE_OFFSET = 10
  sib : rU64 p LEAF_NEXT_SIBLING_POINTER_OFFSET
    = LEAF_NEXT_SIBLING_POINTER_DEFAULT
  gap : ∀ i, leafFreeStart p ≤ i → i < leafFreeEnd p → p i = 0

/-- A leaf page holding one cell whose value blob fills the entire free
space: key 100 in slot 0, value pointer 67, content length 4021, so the
blob spans `[67, 4096)` and both free-space fields are 67.  The header
below offset 26 is a fresh builder header. -/
def c5Page : Page := fun i =>
  if i < 26 then build_page PageType.Leaf true i
  else if i < 34 then (toBE 1).getD (i - 26) 0
  else if i < 42 then (toBE 67).getD (i - 34) 0
  else if i < 50 then (toBE 67).getD (i - 42) 0
  else if i < 67 then ([0] ++ toBE 100 ++ toBE 67).getD (i - 50) 0
  else if i < 75 then (toBE 4021).getD (i - 67) 0
  else 7

/-- The small cell whose insertion forces the split of `c5Page`. -/
def c5Cell : LeafCell := LeafCell.new 200 [1] false

/-! Basic lemmas about the byte-level primitives. -/

theorem toBEn_length (k v : Nat) : (toBEn k v).length = k := by
  induction k generalizing v with
  | zero => rfl
  | succ k ih => simp [toBEn, ih]

theorem toBE_length (v : Nat) : (toBE v).length = 8 := toBEn_length 8 v

theorem fromBE_append (bs : List Nat) (b : Nat) :
    fromBE (bs ++ [b]) = fromBE bs * 256 + b := by
  simp [fromBE, List.foldl_append]

theorem fromBE_toBEn (k v : Nat) : fromBE (toBEn k v) = v % 256 ^ k := by
  induction k generalizing v with
  | zero => simp [toBEn, fromBE, Nat.mod_one]
  | succ k ih =>
    rw [toBEn, fromBE_append, ih, pow_succ', Nat.mod_mul]
    ring

theorem fromBE_toBE (v : Nat) : fromBE (toBE v) = v % U64 := by
  have : (256 : Nat) ^ 8 = U64 := by norm_num [U64]
  rw [toBE, fromBE_toBEn, this]

theorem fromBE_toBE_of_lt {v : Nat} (h : v < U64) : fromBE (toBE v) = v := by
  rw [fromBE_toBE, Nat.mod_eq_of_lt h]

theorem toBEn_getD (k v : Nat) (j : Nat) (hj : j < k) :
    (toBEn k v).getD j 0 = v / 256 ^ (k - 1 - j) % 256 := by
  induction k generalizing v j with
  | zero => omega
  | succ k ih =>
    rw [toBEn]
    rcases Nat.lt_or_ge j k with h | h
    · rw [List.getD_append _ _ _ _ (by rw [toBEn_length]; exact h), ih _ _ h]
      have hk : k + 1 - 1 - j = (k - 1 - j) + 1 := by omega
      rw [hk, pow_succ, Nat.div_div_eq_div_mul]
      ring_nf
    · have hjk : j = k := by omega
      subst hjk
      rw [List.getD_append_right _ _ _ _ (by rw [toBEn_length])]
      simp [toBEn_length]

theorem toBEn_lt (k v : Nat) : ∀ b ∈ toBEn k v, b < 256 := by
  induction k generalizing v with
  | zero => simp [toBEn]
  | succ k ih =>
    intro b hb
    rw [toBEn] at hb
    rcases List.mem_append.mp hb with h | h
    · exact ih _ _ h
    · simp only [List.mem_singleton] at h
      subst h
      exact Nat.mod_lt _ (by norm_num)

theorem rB_length (p : Page) (s n : Nat) : (rB p s n).length = n := by
  simp [rB]

theorem rB_getD (p : Page) (s n j : Nat) (hj : j < n) :
    (rB p s n).getD j 0 = p (s + j) := by
  rw [rB, List.getD_eq_getElem?_getD, List.getElem?_map, List.getElem?_range hj]
  rfl

theorem wb_apply (p : Page) (s : Nat) (bs : List Nat) (i : Nat) :
    wb p s bs i = if s ≤ i ∧ i < s + bs.length then bs.getD (i - s) 0 else p i :=
  rfl

theorem wb_apply_out (p : Page) (s : Nat) (bs : List Nat) (i : Nat)
    (h : i < s ∨ s + bs.length ≤ i) : wb p s bs i = p i := by
  rw [wb_apply, if_neg]; omega

theorem wb_apply_in (p : Page) (s : Nat) (bs : List Nat) (i : Nat)
    (h1 : s ≤ i) (h2 : i < s + bs.length) : wb p s bs i = bs.getD (i - s) 0 := by
  rw [wb_apply, if_pos ⟨h1, h2⟩]

theorem rB_wb_disjoint (p : Page) (s : Nat) (bs : List Nat) (s' n : Nat)
    (h : s' + n ≤ s ∨ s + bs.length ≤ s') : rB (wb p s bs) s' n = rB p s' n := by
  unfold rB
  refine List.map_congr_left ?_
  intro j hj
  rw [List.mem_range] at hj
  exact wb_apply_out _ _ _ _ (by omega)

theorem rU64_wb_disjoint (p : Page) (s : Nat) (bs : List Nat) (s' : Nat)
    (h : s' + 8 ≤ s ∨ s + bs.length ≤ s') : rU64 (wb p s bs) s' = rU64 p s' := by
  unfold rU64
  rw [rB_wb_disjoint _ _ _ _ _ h]

theorem rB_wb_inside (p : Page) (s : Nat) (bs : List Nat) (s' n : Nat)
    (h1 : s ≤ s') (h2 : s' + n ≤ s + bs.length) :
    ∀ j < n, (rB (wb p s bs) s' n).getD j 0 = bs.getD (s' - s + j) 0 := by
  intro j hj
  rw [rB_getD _ _ _ _ hj, wb_apply_in _ _ _ _ (by omega) (by omega)]
  congr 1
  omega

theorem rB_wb_exact (p : Page) (s : Nat) (bs : List Nat) :
    rB (wb p s bs) s bs.length = bs := by
  apply List.ext_getElem
  · simp [rB_length]
  · intro j hj1 hj2
    have hj1l : j < (rB (wb p s bs) s bs.length).length := hj1
    rw [rB_length] at hj1
    have h1 := rB_getD (wb p s bs) s bs.length j hj1
    rw [wb_apply_in _ _ _ _ (by omega) (by omega)] at h1
    have h2 : s + j - s = j := by omega
    rw [h2] at h1
    calc (rB (wb p s bs) s bs.length)[j]
        = (rB (wb p s bs) s bs.length).getD j 0 := (List.getD_eq_getElem _ _ hj1l).symm
      _ = bs.getD j 0 := h1
      _ = bs[j] := List.getD_eq_getElem _ _ hj2

theorem rU64_wb_toBE (p : Page) (s v : Nat) :
    rU64 (wb p s (toBE v)) s = v % U64 := by
  unfold rU64
  have h := rB_wb_exact p s (toBE v)
  rw [toBE_length] at h
  rw [h, fromBE_toBE]

theorem rU64_wb_toBE_of_lt (p : Page) (s : Nat) {v : Nat} (h : v < U64) :
    rU64 (wb p s (toBE v)) s = v := by
  rw [rU64_wb_toBE, Nat.mod_eq_of_lt h]

theorem fromBE_lt (bs : List Nat) (h : ∀ b ∈ bs, b < 256) :
    fromBE bs < 256 ^ bs.length := by
  induction bs using List.reverseRecOn with
  | nil => simp [fromBE]
  | append_singleton xs x ih =>
    rw [fromBE_append]
    have hx : x < 256 := h x (by simp)
    have hxs : fromBE xs < 256 ^ xs.length := ih (fun b hb => h b (by simp [hb]))
    simp only [List.length_append, List.length_singleton]
    have hstep : (fromBE xs + 1) * 256 ≤ 256 ^ xs.length * 256 :=
      Nat.mul_le_mul_right 256 hxs
    calc fromBE xs * 256 + x < fromBE xs * 256 + 256 := by omega
      _ = (fromBE xs + 1) * 256 := by ring
      _ ≤ 256 ^ xs.length * 256 := hstep
      _ = 256 ^ (xs.length + 1) := by rw [pow_succ]

theorem rU64_lt (p : Page) (s : Nat) (h : ∀ i, i < 8 → p (s + i) < 256) :
    rU64 p s < U64 := by
  have : rU64 p s < 256 ^ (rB p s 8).length := by
    apply fromBE_lt
    intro b hb
    simp only [rB, List.mem_map, List.mem_range] at hb
    obtain ⟨j, hj, rfl⟩ := hb
    exact h j hj
  rw [rB_length] at this
  calc rU64 p s < 256 ^ 8 := this
  _ = U64 := by norm_num [U64]

/-- `pageCopy` agrees with reading all `PAGE_SIZE` bytes into a list. -/
theorem pageCopy_eq_rB (p : Page) (i : Nat) (h : i < PAGE_SIZE) :
    pageCopy p i = (rB p 0 PAGE_SIZE).getD i 0 := by
  rw [pageCopy, if_pos h, rB_getD _ _ _ _ h, Nat.zero_add]

/-- `writePageBytes` is exactly `wb` of the full byte list at offset 0. -/
theorem writePageBytes_eq_wb (dst src : Page) :
    writePageBytes dst src = wb dst 0 (rB src 0 PAGE_SIZE) := by
  funext i
  by_cases h : i < PAGE_SIZE
  · rw [writePageBytes, if_pos h,
      wb_apply_in _ _ _ _ (by omega) (by rw [rB_length]; omega)]
    rw [rB_getD _ _ _ _ (by omega), Nat.zero_add, Nat.sub_zero]
  · rw [writePageBytes, if_neg h, wb_apply_out]
    rw [rB_length]
    omega

/-- `DbFile.writePage` writes exactly the `wb` of the page's byte list. -/
theorem writePage_data_eq_wb (f : DbFile) (offset : Nat) (p : Page) :
    (f.writePage offset p).data = wb f.data offset (rB p 0 PAGE_SIZE) := by
  funext i
  by_cases h : offset ≤ i ∧ i < offset + PAGE_SIZE
  · rw [DbFile.writePage, wb_apply_in _ _ _ _ h.1 (by rw [rB_length]; omega)]
    simp only
    rw [if_pos h, rB_getD _ _ _ _ (by omega), Nat.zero_add]
  · rw [DbFile.writePage, wb_apply_out]
    · simp only
      rw [if_neg h]
    · rw [rB_length]
      omega

/-! Binary search: characterization of `find_cell_num`. -/

theorem leafSearchLoop_bounds (n : Node) (key : Nat) (fuel : Nat) :
    ∀ min_idx max_idx, min_idx ≤ max_idx →
      min_idx ≤ n.leafSearchLoop key fuel min_idx max_idx ∧
      n.leafSearchLoop key fuel min_idx max_idx ≤ max_idx := by
  induction fuel with
  | zero => intro mi ma h; exact ⟨le_refl _, h⟩
  | succ fuel ih =>
    intro mi ma h
    rw [Node.leafSearchLoop]
    by_cases he : mi = ma
    · rw [if_pos he]; exact ⟨le_refl _, h⟩
    · rw [if_neg he]
      simp only
      have hlt : mi < ma := by omega
      by_cases h1 : key = n.get_cell_key (n.calculate_cell_position ((mi + ma) / 2)) true
      · rw [if_pos h1]; omega
      · rw [if_neg h1]
        by_cases h2 : key < n.get_cell_key (n.calculate_cell_position ((mi + ma) / 2)) true
        · rw [if_pos h2]
          have := ih mi ((mi + ma) / 2) (by omega)
          omega
        · rw [if_neg h2]
          have := ih ((mi + ma) / 2 + 1) ma (by omega)
          omega

theorem leafSearchLoop_spec (n : Node) (key : Nat)
    (hs : ∀ i j, i < j → j < n.num_cells → cellKeyB n i < cellKeyB n j)
    (fuel : Nat) :
    ∀ min_idx max_idx, min_idx ≤ max_idx → max_idx ≤ n.num_cells →
      max_idx - min_idx < fuel →
      (∀ j, j < min_idx → cellKeyB n j < key) →
      (∀ j, max_idx ≤ j → j < n.num_cells → key < cellKeyB n j) →
      (n.leafSearchLoop key fuel min_idx max_idx < n.num_cells ∧
        cellKeyB n (n.leafSearchLoop key fuel min_idx max_idx) = key) ∨
      ((∀ j, j < n.leafSearchLoop key fuel min_idx max_idx → cellKeyB n j < key) ∧
       (∀ j, n.leafSearchLoop key fuel min_idx max_idx ≤ j → j < n.num_cells →
          key < cellKeyB n j)) := by
  induction fuel with
  | zero => intro mi ma _ _ hf _ _; omega
  | succ fuel ih =>
    intro mi ma h1 h2 hf hlow hhigh
    rw [Node.leafSearchLoop]
    by_cases he : mi = ma
    · rw [if_pos he]
      right
      subst he
      exact ⟨hlow, hhigh⟩
    · rw [if_neg he]
      simp only
      have hlt : mi < ma := by omega
      have hidx1 : mi ≤ (mi + ma) / 2 := by omega
      have hidx2 : (mi + ma) / 2 < ma := by omega
      by_cases hk1 : key = n.get_cell_key (n.calculate_cell_position ((mi + ma) / 2)) true
      · rw [if_pos hk1]
        left
        exact ⟨by omega, hk1.symm⟩
      · rw [if_neg hk1]
        by_cases hk2 : key < n.get_cell_key (n.calculate_cell_position ((mi + ma) / 2)) true
        · rw [if_pos hk2]
          refine ih mi ((mi + ma) / 2) (by omega) (by omega) (by omega) hlow ?_
          intro j hj1 hj2
          rcases Nat.eq_or_lt_of_le hj1 with hj | hj
          · subst hj; exact hk2
          · calc key < cellKeyB n ((mi + ma) / 2) := hk2
              _ < cellKeyB n j := hs _ _ hj hj2
        · rw [if_neg hk2]
          have hk3 : cellKeyB n ((mi + ma) / 2) < key := by
            have : ¬ key < cellKeyB n ((mi + ma) / 2) := hk2
            have : ¬ key = cellKeyB n ((mi + ma) / 2) := hk1
            omega
          refine ih ((mi + ma) / 2 + 1) ma (by omega) h2 (by omega) ?_ hhigh
          intro j hj
          rcases Nat.lt_or_ge j ((mi + ma) / 2) with hj2 | hj2
          · calc cellKeyB n j < cellKeyB n ((mi + ma) / 2) :=
                hs _ _ hj2 (by omega)
              _ < key := hk3
          · have : j = (mi + ma) / 2 := by omega
            subst this
            exact hk3

theorem internalSearchLoop_bounds (n : Node) (key : Nat) (fuel : Nat) :
    ∀ min_idx max_idx, min_idx ≤ max_idx →
      min_idx ≤ n.internalSearchLoop key fuel min_idx max_idx ∧
      n.internalSearchLoop key fuel min_idx max_idx ≤ max_idx := by
  induction fuel with
  | zero => intro mi ma h; exact ⟨le_refl _, h⟩
  | succ fuel ih =>
    intro mi ma h
    rw [Node.internalSearchLoop]
    by_cases he : mi = ma
    · rw [if_pos he]; exact ⟨le_refl _, h⟩
    · rw [if_neg he]
      simp only
      have hlt : mi < ma := by omega
      by_cases h2 : n.get_cell_key (n.calculate_cell_position ((mi + ma) / 2)) true ≥ key
      · rw [if_pos h2]
        have := ih mi ((mi + ma) / 2) (by omega)
        omega
      · rw [if_neg h2]
        have := ih ((mi + ma) / 2 + 1) ma (by omega)
        omega

theorem internalSearchLoop_spec (n : Node) (key : Nat)
    (hs : ∀ i j, i < j → j < n.num_cells → cellKeyB n i ≤ cellKeyB n j)
    (fuel : Nat) :
    ∀ min_idx max_idx, min_idx ≤ max_idx → max_idx ≤ n.num_cells →
      max_idx - min_idx < fuel →
      (∀ j, j < min_idx → cellKeyB n j < key) →
      (∀ j, max_idx ≤ j → j < n.num_cells → key ≤ cellKeyB n j) →
      (∀ j, j < n.internalSearchLoop key fuel min_idx max_idx →
        cellKeyB n j < key) ∧
      (∀ j, n.internalSearchLoop key fuel min_idx max_idx ≤ j →
        j < n.num_cells → key ≤ cellKeyB n j) := by
  induction fuel with
  | zero => intro mi ma _ _ hf _ _; omega
  | succ fuel ih =>
    intro mi ma h1 h2 hf hlow hhigh
    rw [Node.internalSearchLoop]
    by_cases he : mi = ma
    · rw [if_pos he]
      subst he
      exact ⟨hlow, hhigh⟩
    · rw [if_neg he]
      simp only
      have hlt : mi < ma := by omega
      by_cases hk : n.get_cell_key (n.calculate_cell_position ((mi + ma) / 2)) true ≥ key
      · rw [if_pos hk]
        refine ih mi ((mi + ma) / 2) (by omega) (by omega) (by omega) hlow ?_
        intro j hj1 hj2
        rcases Nat.eq_or_lt_of_le hj1 with hj | hj
        · subst hj; exact hk
        · calc key ≤ cellKeyB n ((mi + ma) / 2) := hk
            _ ≤ cellKeyB n j := hs _ _ hj hj2
      · rw [if_neg hk]
        have hk3 : cellKeyB n ((mi + ma) / 2) < key := by
          have : ¬ cellKeyB n ((mi + ma) / 2) ≥ key := hk
          omega
        refine ih ((mi + ma) / 2 + 1) ma (by omega) h2 (by omega) ?_ hhigh
        intro j hj
        rcases Nat.lt_or_ge j ((mi + ma) / 2) with hj2 | hj2
        · calc cellKeyB n j ≤ cellKeyB n ((mi + ma) / 2) :=
              hs _ _ hj2 (by omega)
            _ < key := hk3
        · have : j = (mi + ma) / 2 := by omega
          subst this
          exact hk3

/-- `find_cell_num` never exceeds `num_cells`, on either node kind. -/
theorem find_cell_num_le (n : Node) (key : Nat) :
    n.find_cell_num key ≤ n.num_cells := by
  rw [Node.find_cell_num]
  cases h : n.ntype
  · simp only
    split
    · exact le_refl _
    · exact le_of_lt (by omega)
  · simp only
    exact (leafSearchLoop_bounds n key (n.num_cells + 1) 0 n.num_cells
      (Nat.zero_le _)).2

/-- On a sorted leaf, `find_cell_num` of an absent key is the lower bound:
everything below it is smaller than the key and everything at or above it
(within the cells) is larger. -/
theorem find_cell_num_leaf_absent (n : Node) (key : Nat)
    (hleaf : n.ntype = PageType.Leaf)
    (hs : ∀ i j, i < j → j < n.num_cells → cellKeyB n i < cellKeyB n j)
    (habs : ∀ i, i < n.num_cells → cellKeyB n i ≠ key) :
    (∀ j, j < n.find_cell_num key → cellKeyB n j < key) ∧
    (∀ j, n.find_cell_num key ≤ j → j < n.num_cells → key < cellKeyB n j) := by
  have hspec := leafSearchLoop_spec n key hs (n.num_cells + 1) 0 n.num_cells
    (Nat.zero_le _) (le_refl _) (by omega) (by omega) (by omega)
  rw [Node.find_cell_num, hleaf]
  simp only
  rcases hspec with ⟨hlt, hkey⟩ | h
  · exact absurd hkey (habs _ hlt)
  · exact h

/-- On a sorted leaf holding the key, `find_cell_num` returns its index. -/
theorem find_cell_num_leaf_present (n : Node) (key : Nat)
    (hleaf : n.ntype = PageType.Leaf)
    (hs : ∀ i j, i < j → j < n.num_cells → cellKeyB n i < cellKeyB n j)
    (hpres : ∃ i, i < n.num_cells ∧ cellKeyB n i = key) :
    n.find_cell_num key < n.num_cells ∧
    cellKeyB n (n.find_cell_num key) = key := by
  have hspec := leafSearchLoop_spec n key hs (n.num_cells + 1) 0 n.num_cells
    (Nat.zero_le _) (le_refl _) (by omega) (by omega) (by omega)
  rw [Node.find_cell_num, hleaf]
  simp only
  rcases hspec with h | ⟨_, hhigh⟩
  · exact h
  · obtain ⟨i, hi, hik⟩ := hpres
    rcases Nat.lt_or_ge i (n.leafSearchLoop key (n.num_cells + 1) 0 n.num_cells)
      with hlt | hge
    · have := leafSearchLoop_spec n key hs (n.num_cells + 1) 0 n.num_cells
        (Nat.zero_le _) (le_refl _) (by omega) (by omega) (by omega)
      rcases this with h | ⟨hlow, _⟩
      · exact h
      · exact absurd hik (by have := hlow i hlt; omega)
    · exact absurd hik (by have := hhigh i hge hi; omega)

/-- On an internal node with monotone separators, `find_cell_num` is the
least index whose separator is at least the key (or `num_cells`). -/
theorem find_cell_num_internal_spec (n : Node) (key : Nat)
    (hint : n.ntype = PageType.Internal)
    (hs : ∀ i j, i < j → j < n.num_cells → cellKeyB n i ≤ cellKeyB n j) :
    n.find_cell_num key ≤ n.num_cells ∧
    (∀ j, j < n.find_cell_num key → cellKeyB n j < key) ∧
    (n.find_cell_num key < n.num_cells →
      key ≤ cellKeyB n (n.find_cell_num key)) := by
  have hspec := internalSearchLoop_spec n key hs (n.num_cells + 1) 0 n.num_cells
    (Nat.zero_le _) (le_refl _) (by omega) (by omega) (by omega)
  have hb := internalSearchLoop_bounds n key (n.num_cells + 1) 0 n.num_cells
    (Nat.zero_le _)
  rw [Node.find_cell_num, hint]
  simp only
  split
  · refine ⟨le_refl _, ?_, by omega⟩
    intro j hj
    exact hspec.1 j (by omega)
  · refine ⟨by omega, hspec.1, ?_⟩
    intro hlt
    exact hspec.2 _ (le_refl _) hlt

/-- C2: the page builder writes kind byte 0x0A at offset 8 and the magic
0xFEBA big-endian at offset 0 for a fresh leaf page, but the is-root byte
at offset 9 is 0x00 for a root and 0x01 for a non-root — `bool_to_u8`
inverts the claimed convention (claim and spec section 8 S6 / O1 expect
0x01 for a root). -/
theorem C2_is_root_byte_inverted :
    build_page PageType.Leaf true PAGE_IS_ROOT_OFFSET = 0x00 ∧
    build_page PageType.Leaf false PAGE_IS_ROOT_OFFSET = 0x01 ∧
    build_page PageType.Leaf true PAGE_TYPE_OFFSET = 0x0A ∧
    rU64 (build_page PageType.Leaf true) PAGE_MAGIC_OFFSET = 0xFEBA ∧
    bool_to_u8 true = 0x00 ∧ bool_to_u8 false = 0x01 := by
  decide

/-- C6: `find_cell_num` on a sorted leaf returns the index of the cell
holding the key when present, and otherwise the insertion index — the
position below which all keys are smaller and from which on all keys are
larger; on an internal node with monotone separators it returns the
smallest index whose separator is at least the key, and `num_cells` when
there is none. -/
theorem C6_find_cell_num (n : Node) (key : Nat) :
    (n.ntype = PageType.Leaf →
      (∀ i j, i < j → j < n.num_cells → cellKeyB n i < cellKeyB n j) →
      ((∃ i, i < n.num_cells ∧ cellKeyB n i = key) →
        n.find_cell_num key < n.num_cells ∧
        cellKeyB n (n.find_cell_num key) = key) ∧
      ((∀ i, i < n.num_cells → cellKeyB n i ≠ key) →
        n.find_cell_num key ≤ n.num_cells ∧
        (∀ j, j < n.find_cell_num key → cellKeyB n j < key) ∧
        (∀ j, n.find_cell_num key ≤ j → j < n.num_cells →
          key < cellKeyB n j))) ∧
    (n.ntype = PageType.Internal →
      (∀ i j, i < j → j < n.num_cells → cellKeyB n i ≤ cellKeyB n j) →
      n.find_cell_num key ≤ n.num_cells ∧
      (∀ j, j < n.find_cell_num key → cellKeyB n j < key) ∧
      (n.find_cell_num key < n.num_cells →
        key ≤ cellKeyB n (n.find_cell_num key))) := by
  constructor
  · intro hleaf hs
    constructor
    · intro hpres
      exact find_cell_num_leaf_present n key hleaf hs hpres
    · intro habs
      have h := find_cell_num_leaf_absent n key hleaf hs habs
      exact ⟨find_cell_num_le n key, h.1, h.2⟩
  · intro hint hs
    exact find_cell_num_internal_spec n key hint hs

/-- Witness for C6: on the two-cell leaf with keys 3 and 7, searching for
key 7 lands on an existing cell holding 7. -/
theorem C6_witness :
    twoCellLeafNode.find_cell_num 7 < twoCellLeafNode.num_cells ∧
    cellKeyB twoCellLeafNode (twoCellLeafNode.find_cell_num 7) = 7 := by
  have hN : twoCellLeafNode.num_cells = 2 := by decide
  have hs : ∀ i j, i < j → j < twoCellLeafNode.num_cells →
      cellKeyB twoCellLeafNode i < cellKeyB twoCellLeafNode j := by
    intro i j hij hj
    rw [hN] at hj
    have hj1 : j = 1 := by omega
    have hi0 : i = 0 := by omega
    subst hj1; subst hi0
    decide
  exact ((C6_find_cell_num twoCellLeafNode 7).1 rfl hs).1 ⟨1, by decide, by decide⟩

/-- C8: `set_is_root` re-encodes the node's current is-root value into the
is-root byte and ignores its argument, so (whenever the current byte
decodes at all, i.e. is 0 or 1) it leaves the node — in particular every
page byte — unchanged, and its result does not depend on the argument. -/
theorem C8_set_is_root_noop (n : Node) (v w : Bool)
    (hb : n.buffer = none)
    (hbyte : n.page PAGE_IS_ROOT_OFFSET = 0 ∨ n.page PAGE_IS_ROOT_OFFSET = 1) :
    n.set_is_root v = some n ∧ n.set_is_root v = n.set_is_root w := by
  obtain ⟨pg, bf, ty⟩ := n
  simp only at hb hbyte
  subst hb
  refine ⟨?_, rfl⟩
  have hread : (Node.mk pg none ty).is_root = u8_to_bool (pg PAGE_IS_ROOT_OFFSET) := by
    rw [Node.is_root]
    rfl
  have hpage : ∀ b : Nat, pg PAGE_IS_ROOT_OFFSET = b →
      wb pg PAGE_IS_ROOT_OFFSET [b] = pg := by
    intro b hbv
    funext i
    by_cases hi : i = PAGE_IS_ROOT_OFFSET
    · subst hi
      rw [wb_apply_in _ _ _ _ (le_refl _) (by simp)]
      simp [hbv]
    · rw [wb_apply_out]
      simp only [List.length_singleton]
      omega
  rw [Node.set_is_root, hread]
  rcases hbyte with h0 | h1
  · rw [h0]
    show some ((Node.mk pg none ty).write_all_bytes [bool_to_u8 true] PAGE_IS_ROOT_OFFSET) = _
    rw [Node.write_all_bytes]
    simp only
    rw [show bool_to_u8 true = 0 from rfl, hpage 0 h0]
  · rw [h1]
    show some ((Node.mk pg none ty).write_all_bytes [bool_to_u8 false] PAGE_IS_ROOT_OFFSET) = _
    rw [Node.write_all_bytes]
    simp only
    rw [show bool_to_u8 false = 1 from rfl, hpage 1 h1]

/-- Witness for C8: on the fresh root leaf (is-root byte 0x00),
`set_is_root` is an identity for either argument. -/
theorem C8_witness :
    freshLeafNode.set_is_root true = some freshLeafNode ∧
    freshLeafNode.set_is_root true = freshLeafNode.set_is_root false :=
  C8_set_is_root_noop freshLeafNode true false rfl (Or.inl (by decide))

/-! Lemmas about the error behaviour of the insert paths. -/

/-- `insert_internal_cell` always reports success. -/
theorem insert_internal_cell_fst [Cell α] (n : Node) (c : α) :
    (n.insert_internal_cell c).1 = Except.ok () := by
  rw [Node.insert_internal_cell]
  by_cases h1 : n.find_cell_num (Cell.get_key c) ≥ n.num_cells
  · simp only [if_pos h1]
    by_cases h2 : n.read_u64_data INTERNAL_RIGHT_MOST_CHILD_OFFSET true = 0
    · simp only [if_pos h2]
    · simp only [if_neg h2, Node.insertInternalTail]
  · simp only [if_neg h1, Node.insertInternalTail]

/-- `insert_leaf_cell` reports success or `HasOverflow`, never a duplicate
key. -/
theorem insert_leaf_cell_fst [Cell α] (n : Node) (c : α) :
    (n.insert_leaf_cell c).1 = Except.ok ()
    ∨ (n.insert_leaf_cell c).1 = Except.error (NodeResult.HasOverflow []) := by
  rw [Node.insert_leaf_cell]
  split
  · right; rfl
  · left; rfl

/-- `check_has_space` reports at most `IsFull`. -/
theorem check_has_space_fst (n : Node) (key : Nat) :
    n.check_has_space key = Except.ok ()
    ∨ n.check_has_space key = Except.error NodeResult.IsFull := by
  rw [Node.check_has_space]
  cases n.ntype
  · simp only
    split
    · right; rfl
    · left; rfl
  · simp only
    split
    · right; rfl
    · left; rfl

/-- Counterexample to C3: on the freshly created root leaf (which holds no
cells at all), inserting key 0 is rejected as a duplicate, because
`check_key_exists` compares against the zero bytes of the empty slot
region rather than against an existing cell. -/
theorem C3_counterexample :
    (freshLeafNode.insert_cell (LeafCell.new 0 [] false)).1
      = Except.error NodeResult.DuplicateKey ∧
    freshLeafNode.num_cells = 0 := by
  decide

/-- C3 (amended): `insert_cell` returns `DuplicateKey` exactly when the
key slot at index `find_cell_num key` — read whether or not that index is
below `num_cells`, so stale slot bytes count — holds the new key; and in
that case the node, in particular every page byte and the stored value for
the key, is unchanged. -/
theorem C3_duplicate_exact [Cell α] (n : Node) (c : α) :
    ((n.insert_cell c).1 = Except.error NodeResult.DuplicateKey ↔
      cellKeyU n (n.find_cell_num (Cell.get_key c)) = Cell.get_key c) ∧
    ((n.insert_cell c).1 = Except.error NodeResult.DuplicateKey →
      (n.insert_cell c).2 = n) := by
  have hkey : n.check_key_exists (Cell.get_key c) = true ↔
      cellKeyU n (n.find_cell_num (Cell.get_key c)) = Cell.get_key c := by
    rw [Node.check_key_exists]
    exact decide_eq_true_iff
  by_cases hc : n.check_key_exists (Cell.get_key c)
  · have hins : n.insert_cell c = (Except.error NodeResult.DuplicateKey, n) := by
      rw [Node.insert_cell, if_pos hc]
    rw [hins]
    exact ⟨by simp [hkey.mp hc], fun _ => rfl⟩
  · have hne : ¬ cellKeyU n (n.find_cell_num (Cell.get_key c)) = Cell.get_key c := by
      intro h
      exact hc (hkey.mpr h)
    have hfst : (n.insert_cell c).1 ≠ Except.error NodeResult.DuplicateKey := by
      rw [Node.insert_cell, if_neg hc]
      rcases check_has_space_fst n (Cell.get_key c) with hs | hs
      · rw [hs]
        cases hnt : n.ntype
        · simp only
          rw [insert_internal_cell_fst]
          intro h
          exact Except.noConfusion h
        · simp only
          rcases insert_leaf_cell_fst n c with hl | hl
          · rw [hl]; intro h; exact Except.noConfusion h
          · rw [hl]
            intro h
            have := Except.error.inj h
            exact NodeResult.noConfusion this
      · rw [hs]
        simp only
        intro h
        have := Except.error.inj h
        exact NodeResult.noConfusion this
    exact ⟨by simp [hfst, hne], fun h => absurd h hfst⟩

/-- Witness for C3 (amended): inserting the present key 3 into the
two-cell leaf reports `DuplicateKey` and leaves the node unchanged. -/
theorem C3_witness :
    (twoCellLeafNode.insert_cell (LeafCell.new 3 [9] false)).1
      = Except.error NodeResult.DuplicateKey ∧
    (twoCellLeafNode.insert_cell (LeafCell.new 3 [9] false)).2
      = twoCellLeafNode := by
  have h := C3_duplicate_exact twoCellLeafNode (LeafCell.new 3 [9] false)
  have hdup : (twoCellLeafNode.insert_cell (LeafCell.new 3 [9] false)).1
      = Except.error NodeResult.DuplicateKey := h.1.mpr (by decide)
  exact ⟨hdup, h.2 hdup⟩

/-- Counterexample to C9: on the fresh internal root (zero cells,
right-most-child 0), inserting an internal cell with key 0 does not return
`Ok` — the stale zero bytes at slot 0 make the duplicate check fire. -/
theorem C9_counterexample :
    (freshInternalNode.insert_cell (InternalCell.new 0 5)).1
      = Except.error NodeResult.DuplicateKey ∧
    freshInternalNode.num_cells = 0 ∧
    freshInternalNode.read_u64_data INTERNAL_RIGHT_MOST_CHILD_OFFSET true = 0 := by
  decide

/-- C9 (amended): on an internal node with zero cells and right-most-child
pointer 0, inserting an internal cell whose key survives the (stale-byte)
duplicate check returns `Ok`, writes exactly the cell's pointer into the
right-most-child field, and leaves the cell count at 0 — no separator cell
is stored and the cell's key is discarded. -/
theorem C9_empty_internal_insert (n : Node) (c : InternalCell)
    (hint : n.ntype = PageType.Internal) (hb : n.buffer = none)
    (hnum : n.num_cells = 0)
    (hrc : n.read_u64_data INTERNAL_RIGHT_MOST_CHILD_OFFSET true = 0)
    (hdup : n.check_key_exists c.key = false) :
    (n.insert_cell c).1 = Except.ok () ∧
    (n.insert_cell c).2
      = { n with page := wb n.page INTERNAL_RIGHT_MOST_CHILD_OFFSET (toBE c.pointer) } ∧
    (n.insert_cell c).2.num_cells = 0 := by
  obtain ⟨pg, bf, ty⟩ := n
  simp only at hint hb
  subst hint
  subst hb
  set n : Node := Node.mk pg none PageType.Internal with hn
  have hkey : Cell.get_key c = c.key := rfl
  have hspace : n.check_has_space (Cell.get_key c) = Except.ok () := by
    show (if n.num_cells + 1 > INTERNAL_MAX_KEYS then
      Except.error NodeResult.IsFull else Except.ok ()) = Except.ok ()
    rw [hnum]
    decide
  have hbytes : ((Cell.get_content c).drop INTERNAL_KEY_POINTER_OFFSET).take
      INTERNAL_KEY_POINTER_SIZE = toBE c.pointer := by
    show ((toBE c.key ++ toBE c.pointer).drop INTERNAL_KEY_POINTER_OFFSET).take
      INTERNAL_KEY_POINTER_SIZE = toBE c.pointer
    have h8 : INTERNAL_KEY_POINTER_OFFSET = (toBE c.key).length := by
      rw [toBE_length]; rfl
    rw [h8, List.drop_left, List.take_of_length_le (by rw [toBE_length]; norm_num [INTERNAL_KEY_POINTER_SIZE])]
  have hcond : ¬ (n.check_key_exists (Cell.get_key c) = true) := by
    rw [hkey, hdup]
    exact Bool.false_ne_true
  have hins : n.insert_cell c = n.insert_internal_cell c := by
    rw [Node.insert_cell, if_neg hcond, hspace]
  have hge : n.find_cell_num (Cell.get_key c) ≥ n.num_cells := by
    rw [hnum]
    exact Nat.zero_le _
  have hcell : n.insert_internal_cell c
      = (Except.ok (), n.write_all_bytes
          (((Cell.get_content c).drop INTERNAL_KEY_POINTER_OFFSET).take
            INTERNAL_KEY_POINTER_SIZE)
          INTERNAL_RIGHT_MOST_CHILD_OFFSET) := by
    rw [Node.insert_internal_cell, if_pos hge, hrc, if_pos rfl]
  have hwrite : n.write_all_bytes (toBE c.pointer) INTERNAL_RIGHT_MOST_CHILD_OFFSET
      = { n with page := wb n.page INTERNAL_RIGHT_MOST_CHILD_OFFSET (toBE c.pointer) } := rfl
  rw [hins, hcell, hbytes, hwrite]
  refine ⟨rfl, rfl, ?_⟩
  show rU64 (wb pg INTERNAL_RIGHT_MOST_CHILD_OFFSET (toBE c.pointer))
    INTERNAL_NUM_KEYS_OFFSET = 0
  rw [rU64_wb_disjoint]
  · exact hnum
  · left
    decide

/-- Witness for C9 (amended): inserting cell (7, 3) into the fresh
internal root succeeds, sets the right-most-child pointer and keeps the
cell count at 0. -/
theorem C9_witness :
    (freshInternalNode.insert_cell (InternalCell.new 7 3)).1 = Except.ok () ∧
    (freshInternalNode.insert_cell (InternalCell.new 7 3)).2
      = { freshInternalNode with
          page := wb freshInternalNode.page INTERNAL_RIGHT_MOST_CHILD_OFFSET (toBE 3) } ∧
    (freshInternalNode.insert_cell (InternalCell.new 7 3)).2.num_cells = 0 :=
  C9_empty_internal_insert freshInternalNode (InternalCell.new 7 3) rfl rfl
    (by decide) (by decide) (by decide)

/-- Counterexample to C4: after creating page 1 through `new_page` on a
fresh (never flushed) database, the cache holds an entry for page 1, yet
`get_page 1` returns `None` — the file-length test runs before the cache
lookup, contradicting the claim that a cached entry is always returned. -/
theorem C4_counterexample :
    c4Pager.get_page 1 = Exec.ok none ∧
    (cacheLookup c4Pager.cache 1).isSome = true := by
  constructor
  · rfl
  · rfl

/-- C4 (amended): `get_page(num)` returns `None` exactly when
`num * PAGE_SIZE` exceeds the file length — even when a cache entry
exists; below that bound it returns the cached entry when one exists,
otherwise reads the page at that offset, caches it and returns it
(aborting when fewer than `PAGE_SIZE` bytes remain). -/
theorem C4_get_page_spec (pg : Pager) (num : Nat) :
    (num * PAGE_SIZE > pg.file_len → pg.get_page num = Exec.ok none) ∧
    (num * PAGE_SIZE ≤ pg.file_len →
      ∀ p, cacheLookup pg.cache num = some p →
        pg.get_page num = Exec.ok (some (p, pg))) ∧
    (num * PAGE_SIZE ≤ pg.file_len → cacheLookup pg.cache num = none →
      num * PAGE_SIZE + PAGE_SIZE ≤ pg.file_len →
      pg.get_page num = Exec.ok (some
        ((fun i => if i < PAGE_SIZE then pg.file.data (num * PAGE_SIZE + i) else 0),
         pg.cache_page num
           (fun i => if i < PAGE_SIZE then pg.file.data (num * PAGE_SIZE + i) else 0)))) ∧
    (num * PAGE_SIZE ≤ pg.file_len → cacheLookup pg.cache num = none →
      pg.file_len < num * PAGE_SIZE + PAGE_SIZE →
      pg.get_page num = Exec.fatal) := by
  refine ⟨?_, ?_, ?_, ?_⟩
  · intro h
    rw [Pager.get_page, if_pos h]
  · intro h p hp
    rw [Pager.get_page, if_neg (by omega), hp]
  · intro h hp hr
    have hfl : Pager.file_len pg = pg.file.len := rfl
    rw [Pager.get_page, if_neg (by omega), hp]
    simp only
    have hr2 : num * PAGE_SIZE + PAGE_SIZE ≤ pg.file.len := by omega
    rw [Pager.read_page, if_pos hr2]
  · intro h hp hr
    have hfl : Pager.file_len pg = pg.file.len := rfl
    rw [Pager.get_page, if_neg (by omega), hp]
    simp only
    have hr2 : ¬ (num * PAGE_SIZE + PAGE_SIZE ≤ pg.file.len) := by omega
    rw [Pager.read_page, if_neg hr2]

/-- Witness for C4 (amended): on a fresh database, page 0 is served from
the cache. -/
theorem C4_witness :
    (Pager.new DbFile.fresh).get_page 0
      = Exec.ok (some (build_page PageType.Leaf true, Pager.new DbFile.fresh)) :=
  ((C4_get_page_spec (Pager.new DbFile.fresh) 0).2.1 (by decide)
    (build_page PageType.Leaf true) rfl)

/-! Plumbing: the mutating node operations read and write the active
bytes (`activeP`). -/

theorem read_u64_true (n : Node) (s : Nat) :
    n.read_u64_data s true = rU64 (activeP n) s := by
  cases hb : n.buffer <;> simp [Node.read_u64_data, activeP, hb]

theorem read_var_true (n : Node) (s z : Nat) :
    n.read_variable_data s z true = rB (activeP n) s z := by
  cases hb : n.buffer <;> simp [Node.read_variable_data, activeP, hb]

theorem write_all_bytes_eq (n : Node) (bs : List Nat) (s : Nat) :
    n.write_all_bytes bs s = setA n (wb (activeP n) s bs) := by
  cases hb : n.buffer <;> simp [Node.write_all_bytes, setA, activeP, hb]

theorem activeP_setA (n : Node) (q : Page) : activeP (setA n q) = q := by
  cases hb : n.buffer <;> simp [activeP, setA, hb]

theorem setA_setA (n : Node) (q q' : Page) : setA (setA n q) q' = setA n q' := by
  cases hb : n.buffer <;> simp [setA, hb]

theorem setA_ntype (n : Node) (q : Page) : (setA n q).ntype = n.ntype := by
  cases hb : n.buffer <;> simp [setA, hb]

theorem setA_buffer_none (n : Node) (q : Page) (hb : n.buffer = none) :
    setA n q = { n with page := q } := by
  simp [setA, hb]

theorem setA_of_buffer (n : Node) (q : Page) (b : Page) (hb : n.buffer = some b) :
    setA n q = { n with buffer := some q } := by
  simp [setA, hb]

theorem activeP_mk_leaf (p : Page) : activeP (mkLeafNode p) = p := rfl

theorem num_cells_leaf (n : Node) (hleaf : n.ntype = PageType.Leaf) :
    n.num_cells = leafNumCells (activeP n) := by
  rw [Node.num_cells, hleaf, read_u64_true]
  rfl

theorem calc_pos_leaf (n : Node) (hleaf : n.ntype = PageType.Leaf) (i : Nat) :
    n.calculate_cell_position i = leafSlotPos i := by
  rw [Node.calculate_cell_position, hleaf]
  rfl

theorem cellKeyB_leaf (n : Node) (hleaf : n.ntype = PageType.Leaf) (i : Nat) :
    cellKeyB n i = leafKeyAt (activeP n) i := by
  rw [cellKeyB, Node.get_cell_key, hleaf]
  simp only [calc_pos_leaf n hleaf, read_u64_true, leafKeyAt]
  congr 1
  simp [leafSlotPos, LEAF_KEY_INDENTIFIER_OFFSET, LEAF_CELL_HAS_OVERFLOW_FLAG_OFFSET,
    LEAF_CELL_HAS_OVERFLOW_FLAG_SIZE]
  omega

/-- Instance projections of the `Cell` class at `LeafCell`. -/
theorem leafCell_get_key (c : LeafCell) : Cell.get_key c = c.identifier := rfl

theorem leafCell_get_content (c : LeafCell) : Cell.get_content c = c.content := rfl

theorem leafCell_get_key_bytes (c : LeafCell) :
    Cell.get_key_bytes c = [bool_to_u8 c.overflow] ++ toBE c.identifier := rfl

/-- Instance projections of the `Cell` class at `InternalCell`. -/
theorem internalCell_get_key (c : InternalCell) : Cell.get_key c = c.key := rfl

theorem internalCell_get_content (c : InternalCell) :
    Cell.get_content c = toBE c.key ++ toBE c.pointer := rfl

/-- Searching on a leaf node only touches the active bytes. -/
theorem find_cell_num_leaf_transfer (n : Node) (hleaf : n.ntype = PageType.Leaf)
    (key : Nat) :
    n.find_cell_num key = (mkLeafNode (activeP n)).find_cell_num key := by
  have hread : ∀ i, n.get_cell_key (n.calculate_cell_position i) true
      = (mkLeafNode (activeP n)).get_cell_key
        ((mkLeafNode (activeP n)).calculate_cell_position i) true := by
    intro i
    show cellKeyB n i = cellKeyB (mkLeafNode (activeP n)) i
    rw [cellKeyB_leaf n hleaf, cellKeyB_leaf (mkLeafNode (activeP n)) rfl,
      activeP_mk_leaf]
  have hloop : ∀ fuel a b, n.leafSearchLoop key fuel a b
      = (mkLeafNode (activeP n)).leafSearchLoop key fuel a b := by
    intro fuel
    induction fuel with
    | zero => intro a b; rfl
    | succ fuel ih =>
      intro a b
      rw [Node.leafSearchLoop, Node.leafSearchLoop]
      by_cases he : a = b
      · rw [if_pos he, if_pos he]
      · rw [if_neg he, if_neg he]
        simp only
        rw [hread ((a + b) / 2)]
        by_cases h1 : key = (mkLeafNode (activeP n)).get_cell_key
            ((mkLeafNode (activeP n)).calculate_cell_position ((a + b) / 2)) true
        · rw [if_pos h1, if_pos h1]
        · rw [if_neg h1, if_neg h1]
          by_cases h2 : key < (mkLeafNode (activeP n)).get_cell_key
              ((mkLeafNode (activeP n)).calculate_cell_position ((a + b) / 2)) true
          · rw [if_pos h2, if_pos h2, ih]
          · rw [if_neg h2, if_neg h2, ih]
  have hnum : n.num_cells = (mkLeafNode (activeP n)).num_cells := by
    rw [num_cells_leaf n hleaf, num_cells_leaf (mkLeafNode (activeP n)) rfl,
      activeP_mk_leaf]
  rw [Node.find_cell_num, Node.find_cell_num, hleaf]
  show n.leafSearchLoop key (n.num_cells + 1) 0 n.num_cells = _
  rw [hnum, hloop]
  rfl

/-! Reduction lemmas for nodes given as structure literals; these let the
equation proofs normalize both sides to pure page terms. -/

theorem mk_read_u64 (pg : Page) (ty : PageType) (s : Nat) (b : Bool) :
    Node.read_u64_data (Node.mk pg none ty) s b = rU64 pg s := by
  cases b <;> rfl

theorem mk_read_var (pg : Page) (ty : PageType) (s z : Nat) (b : Bool) :
    Node.read_variable_data (Node.mk pg none ty) s z b = rB pg s z := by
  cases b <;> rfl

theorem mk_write (pg : Page) (ty : PageType) (bs : List Nat) (s : Nat) :
    Node.write_all_bytes (Node.mk pg none ty) bs s = Node.mk (wb pg s bs) none ty :=
  rfl

theorem mk_setA (pg : Page) (ty : PageType) (q : Page) :
    setA (Node.mk pg none ty) q = Node.mk q none ty := rfl

theorem activeP_mk_none (pg : Page) (ty : PageType) :
    activeP (Node.mk pg none ty) = pg := rfl

theorem activeP_mk_some (pg b : Page) (ty : PageType) :
    activeP (Node.mk pg (some b) ty) = b := rfl

theorem mk_calc_leaf (pg : Page) (bf : Option Page) (i : Nat) :
    Node.calculate_cell_position (Node.mk pg bf PageType.Leaf) i = leafSlotPos i :=
  rfl

theorem mk_num_cells_leaf (pg : Page) :
    Node.num_cells (Node.mk pg none PageType.Leaf) = rU64 pg LEAF_NUM_KEYS_OFFSET :=
  rfl

theorem mkb_read_u64 (pg b : Page) (ty : PageType) (s : Nat) :
    Node.read_u64_data (Node.mk pg (some b) ty) s true = rU64 b s := rfl

theorem mkb_read_var (pg b : Page) (ty : PageType) (s z : Nat) :
    Node.read_variable_data (Node.mk pg (some b) ty) s z true = rB b s z := rfl

theorem mkb_write (pg b : Page) (ty : PageType) (bs : List Nat) (s : Nat) :
    Node.write_all_bytes (Node.mk pg (some b) ty) bs s
      = Node.mk pg (some (wb b s bs)) ty := rfl

theorem mkb_setA (pg b : Page) (ty : PageType) (q : Page) :
    setA (Node.mk pg (some b) ty) q = Node.mk pg (some q) ty := rfl

theorem mkb_num_cells_leaf (pg b : Page) :
    Node.num_cells (Node.mk pg (some b) PageType.Leaf) = rU64 b LEAF_NUM_KEYS_OFFSET :=
  rfl

theorem mkb_find_leaf (pg b : Page) (key : Nat) :
    Node.find_cell_num (Node.mk pg (some b) PageType.Leaf) key
      = Node.find_cell_num (Node.mk b none PageType.Leaf) key :=
  find_cell_num_leaf_transfer (Node.mk pg (some b) PageType.Leaf) rfl key

theorem leafFreeStart_def (p : Page) :
    leafFreeStart p = rU64 p LEAF_FREE_SPACE_START_OFFSET := rfl

theorem leafFreeEnd_def (p : Page) :
    leafFreeEnd p = rU64 p LEAF_FREE_SPACE_END_OFFSET := rfl

theorem leafNumCells_def (p : Page) :
    leafNumCells p = rU64 p LEAF_NUM_KEYS_OFFSET := rfl

/-- `sub64` is plain subtraction in the non-wrapping range. -/
theorem sub64_of_le {a b : Nat} (hb : b ≤ a) (ha : a < U64) :
    sub64 a b = a - b := by
  have hbU : b % U64 = b := Nat.mod_eq_of_lt (by omega)
  rw [sub64, hbU]
  have h2 : a + U64 - b = (a - b) + U64 := by omega
  rw [h2, Nat.add_mod_right, Nat.mod_eq_of_lt (by omega)]

/-- The `Ok` path of `insert_leaf_cell`: when the overflow test passes the
result is exactly `leafInsertResultP` applied to the active bytes. -/
theorem insert_leaf_cell_ok_eq (n : Node) (c : LeafCell)
    (hleaf : n.ntype = PageType.Leaf)
    (hnf : ¬ (leafFreeStart (activeP n) + LEAF_KEY_CELL_SIZE ≥
      sub64 (leafFreeEnd (activeP n)) (toBE c.content.length ++ c.content).length)) :
    n.insert_leaf_cell c = (Except.ok (), setA n (leafInsertResultP (activeP n) c)) := by
  obtain ⟨pg, bf, ty⟩ := n
  simp only at hleaf
  subst hleaf
  cases bf with
  | none =>
    have hnf2 : ¬ (rU64 pg LEAF_FREE_SPACE_START_OFFSET + LEAF_KEY_CELL_SIZE ≥
        sub64 (rU64 pg LEAF_FREE_SPACE_END_OFFSET)
          (toBE c.content.length ++ c.content).length) := hnf
    simp only [Node.insert_leaf_cell, leafInsertResultP, mkLeafNode,
      leafCell_get_key, leafCell_get_content, leafCell_get_key_bytes,
      mk_read_u64, mk_read_var, mk_write, mk_setA, mk_calc_leaf,
      mk_num_cells_leaf, activeP_mk_none, leafFreeStart_def, leafFreeEnd_def,
      leafNumCells_def]
    rw [if_neg hnf2]
    by_cases hm : leafSlotPos (Node.find_cell_num (Node.mk pg none PageType.Leaf)
        c.identifier) < rU64 pg LEAF_FREE_SPACE_START_OFFSET
    · simp only [if_pos hm, mk_write, mk_num_cells_leaf]
    · simp only [if_neg hm, mk_write, mk_num_cells_leaf]
  | some b =>
    have hnf2 : ¬ (rU64 b LEAF_FREE_SPACE_START_OFFSET + LEAF_KEY_CELL_SIZE ≥
        sub64 (rU64 b LEAF_FREE_SPACE_END_OFFSET)
          (toBE c.content.length ++ c.content).length) := hnf
    simp only [Node.insert_leaf_cell, leafInsertResultP, mkLeafNode,
      leafCell_get_key, leafCell_get_content, leafCell_get_key_bytes,
      mkb_read_u64, mkb_read_var, mkb_write, mkb_setA, mk_calc_leaf,
      mkb_num_cells_leaf, mkb_find_leaf, activeP_mk_some, leafFreeStart_def,
      leafFreeEnd_def, leafNumCells_def]
    rw [if_neg hnf2]
    by_cases hm : leafSlotPos (Node.find_cell_num (Node.mk b none PageType.Leaf)
        c.identifier) < rU64 b LEAF_FREE_SPACE_START_OFFSET
    · simp only [if_pos hm, mkb_write, mkb_num_cells_leaf]
    · simp only [if_neg hm, mkb_write, mkb_num_cells_leaf]

/-- The overflow path of `insert_leaf_cell`: the node is unchanged. -/
theorem insert_leaf_cell_overflow_eq (n : Node) (c : LeafCell)
    (hleaf : n.ntype = PageType.Leaf)
    (hov : leafFreeStart (activeP n) + LEAF_KEY_CELL_SIZE ≥
      sub64 (leafFreeEnd (activeP n)) (toBE c.content.length ++ c.content).length) :
    n.insert_leaf_cell c = (Except.error (NodeResult.HasOverflow []), n) := by
  obtain ⟨pg, bf, ty⟩ := n
  simp only at hleaf
  subst hleaf
  cases bf with
  | none =>
    have hov2 : rU64 pg LEAF_FREE_SPACE_START_OFFSET + LEAF_KEY_CELL_SIZE ≥
        sub64 (rU64 pg LEAF_FREE_SPACE_END_OFFSET)
          (toBE c.content.length ++ c.content).length := hov
    simp only [Node.insert_leaf_cell, leafCell_get_key, leafCell_get_content,
      leafCell_get_key_bytes, mk_read_u64, mk_read_var, mk_calc_leaf]
    rw [if_pos hov2]
  | some b =>
    have hov2 : rU64 b LEAF_FREE_SPACE_START_OFFSET + LEAF_KEY_CELL_SIZE ≥
        sub64 (rU64 b LEAF_FREE_SPACE_END_OFFSET)
          (toBE c.content.length ++ c.content).length := hov
    simp only [Node.insert_leaf_cell, leafCell_get_key, leafCell_get_content,
      leafCell_get_key_bytes, mkb_read_u64, mkb_read_var, mk_calc_leaf]
    rw [if_pos hov2]

/-! Generic helpers for reading through writes. -/

theorem rB_wb_sub (p : Page) (s : Nat) (bs : List Nat) (s' n : Nat)
    (target : List Nat) (h1 : s ≤ s') (h2 : s' + n ≤ s + bs.length)
    (hlen : target.length = n)
    (hbytes : ∀ j, j < n → bs.getD (s' - s + j) 0 = target.getD j 0) :
    rB (wb p s bs) s' n = target := by
  apply List.ext_getElem
  · rw [rB_length, hlen]
  · intro j hj1 hj2
    rw [rB_length] at hj1
    have e1 : (rB (wb p s bs) s' n).getD j 0 = target.getD j 0 := by
      rw [rB_wb_inside p s bs s' n h1 h2 j hj1, hbytes j hj1]
    calc (rB (wb p s bs) s' n)[j]
        = (rB (wb p s bs) s' n).getD j 0 := (List.getD_eq_getElem _ _ _).symm
      _ = target.getD j 0 := e1
      _ = target[j] := List.getD_eq_getElem _ _ hj2

theorem rU64_wb_sub (p : Page) (s : Nat) (bs : List Nat) (s' v : Nat)
    (h1 : s ≤ s') (h2 : s' + 8 ≤ s + bs.length)
    (hbytes : ∀ j, j < 8 → bs.getD (s' - s + j) 0 = (toBE v).getD j 0) :
    rU64 (wb p s bs) s' = v % U64 := by
  rw [rU64, rB_wb_sub p s bs s' 8 (toBE v) h1 h2 (toBE_length v) hbytes,
    fromBE_toBE]

theorem getD_lt_of_all (bs : List Nat) (j : Nat)
    (h : ∀ b ∈ bs, b < 256) : bs.getD j 0 < 256 := by
  by_cases hj : j < bs.length
  · rw [List.getD_eq_getElem _ _ hj]
    exact h _ (List.getElem_mem _)
  · rw [List.getD_eq_default _ _ (by omega)]
    norm_num

theorem wb_bytes_lt (p : Page) (s : Nat) (bs : List Nat)
    (hbs : ∀ b ∈ bs, b < 256) (hp : ∀ i, i < PAGE_SIZE → p i < 256) :
    ∀ i, i < PAGE_SIZE → wb p s bs i < 256 := by
  intro i hi
  rw [wb_apply]
  split
  · exact getD_lt_of_all _ _ hbs
  · exact hp i hi

theorem blob_length (c : LeafCell) :
    (toBE c.content.length ++ c.content).length
      = LEAF_CONTENT_LEN_SIZE + c.content.length := by
  simp [toBE_length]
  rfl

theorem key_bytes_length (c : LeafCell) (v : Nat) :
    ((([bool_to_u8 c.overflow] ++ toBE c.identifier) ++ toBE v)).length
      = LEAF_KEY_CELL_SIZE := by
  simp [toBE_length]
  rfl

theorem toBE_all_lt (v : Nat) : ∀ b ∈ toBE v, b < 256 := toBEn_lt 8 v

/-- Bytes of the page produced by the `Ok` path of `insert_leaf_cell` stay
below 256 when the starting page's bytes and the cell's content bytes do. -/
theorem leafInsert_bytes_lt (p : Page) (c : LeafCell)
    (hp : ∀ i, i < PAGE_SIZE → p i < 256)
    (hc : ∀ b ∈ c.content, b < 256) :
    ∀ i, i < PAGE_SIZE → leafInsertResultP p c i < 256 := by
  intro i hi
  simp only [leafInsertResultP]
  refine wb_bytes_lt _ _ _ (toBE_all_lt _) ?_ i hi
  refine wb_bytes_lt _ _ _ (toBE_all_lt _) ?_
  refine wb_bytes_lt _ _ _ (toBE_all_lt _) ?_
  refine wb_bytes_lt _ _ _ ?_ ?_
  · intro b hb
    rcases List.mem_append.mp hb with h | h
    · exact toBE_all_lt _ _ h
    · exact hc _ h
  refine wb_bytes_lt _ _ _ ?_ ?_
  · intro b hb
    rcases List.mem_append.mp hb with h | h
    · rcases List.mem_append.mp h with h2 | h2
      · simp only [List.mem_singleton] at h2
        subst h2
        cases c.overflow <;> simp [bool_to_u8]
      · exact toBE_all_lt _ _ h2
    · exact toBE_all_lt _ _ h
  by_cases hmv : leafSlotPos ((mkLeafNode p).find_cell_num c.identifier)
      < leafFreeStart p
  · rw [if_pos hmv]
    intro j hj
    rw [wb_apply]
    split
    · next hin =>
      rw [rB_length] at hin
      have hb1 : j - (leafSlotPos ((mkLeafNode p).find_cell_num c.identifier)
          + LEAF_KEY_CELL_SIZE) < leafFreeStart p
          - leafSlotPos ((mkLeafNode p).find_cell_num c.identifier) := by
        have h17 : LEAF_KEY_CELL_SIZE = 17 := rfl
        omega
      rw [rB_getD _ _ _ _ hb1]
      have he : leafSlotPos ((mkLeafNode p).find_cell_num c.identifier)
          + (j - (leafSlotPos ((mkLeafNode p).find_cell_num c.identifier)
            + LEAF_KEY_CELL_SIZE)) = j - 17 := by
        have h17 : LEAF_KEY_CELL_SIZE = 17 := rfl
        omega
      rw [he]
      exact hp _ (by omega)
    · exact hp j hj
  · rw [if_neg hmv]
    exact hp

/-- Field-level characterization of the page the `Ok` path of
`insert_leaf_cell` produces (`leafInsertResultP`): the three header
updates, the new key slot at the insertion index, preserved slots below it
and shifted slots above it, the new value blob below the old free-space
end, the untouched old blob region, the untouched bytes below the cell
count field, and the untouched free gap. -/
theorem leafInsert_reads (p : Page) (c : LeafCell)
    (cnt fss fse0 idx fse1 : Nat)
    (hcnt : leafNumCells p = cnt)
    (hfss : leafFreeStart p = fss)
    (hfse : leafFreeEnd p = fse0)
    (hidx : (mkLeafNode p).find_cell_num c.identifier = idx)
    (hfss_eq : fss = 50 + cnt * 17)
    (hfse_le : fse0 ≤ 4096)
    (hidx_le : idx ≤ cnt)
    (hunder : 8 + c.content.length ≤ fse0)
    (hfse1 : fse1 = fse0 - (8 + c.content.length))
    (hfit : fss + 17 < fse1) :
    leafNumCells (leafInsertResultP p c) = cnt + 1 ∧
    leafFreeStart (leafInsertResultP p c) = fss + 17 ∧
    leafFreeEnd (leafInsertResultP p c) = fse1 ∧
    (∀ i, i < idx →
      leafKeyAt (leafInsertResultP p c) i = leafKeyAt p i ∧
      leafPtrAt (leafInsertResultP p c) i = leafPtrAt p i) ∧
    leafKeyAt (leafInsertResultP p c) idx = c.identifier % U64 ∧
    leafPtrAt (leafInsertResultP p c) idx = fse1 ∧
    (∀ i, idx < i → i ≤ cnt →
      leafKeyAt (leafInsertResultP p c) i = leafKeyAt p (i - 1) ∧
      leafPtrAt (leafInsertResultP p c) i = leafPtrAt p (i - 1)) ∧
    (∀ a, fse0 ≤ a → rU64 (leafInsertResultP p c) a = rU64 p a) ∧
    (∀ a m, fse0 ≤ a → rB (leafInsertResultP p c) a m = rB p a m) ∧
    rU64 (leafInsertResultP p c) fse1 = c.content.length ∧
    rB (leafInsertResultP p c) (fse1 + 8) c.content.length = c.content ∧
    (∀ i, i < 26 → leafInsertResultP p c i = p i) ∧
    (∀ i, fss + 17 ≤ i → i < fse1 → leafInsertResultP p c i = p i) := by
  have h4096 : (4096 : Nat) < U64 := by norm_num [U64]
  have hCBlen : (toBE c.content.length ++ c.content).length
      = 8 + c.content.length := by
    rw [List.length_append, toBE_length]
  have hKBlen : ((([bool_to_u8 c.overflow] ++ toBE c.identifier)
      ++ toBE fse1)).length = 17 := by
    rw [List.length_append, List.length_append, List.length_singleton,
      toBE_length, toBE_length]
  have hsub : sub64 (leafFreeEnd p) (toBE c.content.length ++ c.content).length
      = fse1 := by
    rw [hfse, hCBlen, sub64_of_le hunder (by omega), hfse1]
  have hkpv : ∀ i : Nat, leafSlotPos i = 50 + i * 17 := fun _ => rfl
  have h26 : LEAF_NUM_KEYS_OFFSET = 26 := rfl
  have h34 : LEAF_FREE_SPACE_START_OFFSET = 34 := rfl
  have h42 : LEAF_FREE_SPACE_END_OFFSET = 42 := rfl
  have h17 : LEAF_KEY_CELL_SIZE = 17 := rfl
  have hq : leafInsertResultP p c
      = wb (leafInsertP5 p c fss idx fse1) 26
          (toBE (rU64 (leafInsertP5 p c fss idx fse1) 26 + 1)) := by
    simp only [leafInsertResultP, leafInsertP5, hidx, hfss, hsub, hkpv,
      h26, h34, h42, h17]
  have hP1rB : ∀ s' m, s' + m ≤ 50 + idx * 17 ∨ fss + 17 ≤ s' →
      rB (if 50 + idx * 17 < fss then
          wb p (50 + idx * 17 + 17) (rB p (50 + idx * 17) (fss - (50 + idx * 17)))
        else p) s' m = rB p s' m := by
    intro s' m h
    by_cases hmv : 50 + idx * 17 < fss
    · rw [if_pos hmv]
      refine rB_wb_disjoint _ _ _ _ _ ?_
      rw [rB_length]
      omega
    · rw [if_neg hmv]
  have hP1pt : ∀ i, i < 50 + idx * 17 ∨ fss + 17 ≤ i →
      (if 50 + idx * 17 < fss then
          wb p (50 + idx * 17 + 17) (rB p (50 + idx * 17) (fss - (50 + idx * 17)))
        else p) i = p i := by
    intro i h
    by_cases hmv : 50 + idx * 17 < fss
    · rw [if_pos hmv]
      refine wb_apply_out _ _ _ _ ?_
      rw [rB_length]
      omega
    · rw [if_neg hmv]
  have hP5low : ∀ s' m, s' + m ≤ 34 →
      rB (leafInsertP5 p c fss idx fse1) s' m = rB p s' m := by
    intro s' m h
    unfold leafInsertP5
    refine Eq.trans (rB_wb_disjoint _ _ _ _ _ ?_) ?_
    · left; omega
    refine Eq.trans (rB_wb_disjoint _ _ _ _ _ ?_) ?_
    · left; omega
    refine Eq.trans (rB_wb_disjoint _ _ _ _ _ ?_) ?_
    · left; omega
    refine Eq.trans (rB_wb_disjoint _ _ _ _ _ ?_) ?_
    · left; omega
    exact hP1rB s' m (Or.inl (by omega))
  have hP5slots : ∀ s' m, 50 ≤ s' → s' + m ≤ 50 + idx * 17 →
      rB (leafInsertP5 p c fss idx fse1) s' m = rB p s' m := by
    intro s' m h1 h2
    unfold leafInsertP5
    refine Eq.trans (rB_wb_disjoint _ _ _ _ _ ?_) ?_
    · right; rw [toBE_length]; omega
    refine Eq.trans (rB_wb_disjoint _ _ _ _ _ ?_) ?_
    · right; rw [toBE_length]; omega
    refine Eq.trans (rB_wb_disjoint _ _ _ _ _ ?_) ?_
    · left; omega
    refine Eq.trans (rB_wb_disjoint _ _ _ _ _ ?_) ?_
    · left; omega
    exact hP1rB s' m (Or.inl (by omega))
  have hP5high : ∀ s' m, fse0 ≤ s' →
      rB (leafInsertP5 p c fss idx fse1) s' m = rB p s' m := by
    intro s' m ha
    unfold leafInsertP5
    refine Eq.trans (rB_wb_disjoint _ _ _ _ _ ?_) ?_
    · right; rw [toBE_length]; omega
    refine Eq.trans (rB_wb_disjoint _ _ _ _ _ ?_) ?_
    · right; rw [toBE_length]; omega
    refine Eq.trans (rB_wb_disjoint _ _ _ _ _ ?_) ?_
    · right; rw [hCBlen]; omega
    refine Eq.trans (rB_wb_disjoint _ _ _ _ _ ?_) ?_
    · right; rw [hKBlen]; omega
    exact hP1rB s' m (Or.inr (by omega))
  have hP5shift : ∀ s' m, 0 < m → 50 + idx * 17 + 17 ≤ s' → s' + m ≤ fss + 17 →
      rB (leafInsertP5 p c fss idx fse1) s' m = rB p (s' - 17) m := by
    intro s' m hm h1 h2
    unfold leafInsertP5
    refine Eq.trans (rB_wb_disjoint _ _ _ _ _ ?_) ?_
    · right; rw [toBE_length]; omega
    refine Eq.trans (rB_wb_disjoint _ _ _ _ _ ?_) ?_
    · right; rw [toBE_length]; omega
    refine Eq.trans (rB_wb_disjoint _ _ _ _ _ ?_) ?_
    · left; omega
    refine Eq.trans (rB_wb_disjoint _ _ _ _ _ ?_) ?_
    · right; rw [hKBlen]; omega
    have hmv : 50 + idx * 17 < fss := by omega
    rw [if_pos hmv]
    refine rB_wb_sub _ _ _ _ _ _ ?_ ?_ ?_ ?_
    · omega
    · rw [rB_length]; omega
    · exact rB_length _ _ _
    · intro j hj
      have hb1 : s' - (50 + idx * 17 + 17) + j < fss - (50 + idx * 17) := by
        omega
      rw [rB_getD _ _ _ _ hb1, rB_getD _ _ _ _ hj]
      congr 1
      omega
  have hP5pt : ∀ i, i < 26 ∨ (fss + 17 ≤ i ∧ i < fse1) →
      leafInsertP5 p c fss idx fse1 i = p i := by
    intro i h
    unfold leafInsertP5
    refine Eq.trans (wb_apply_out _ _ _ _ ?_) ?_
    · rw [toBE_length]; omega
    refine Eq.trans (wb_apply_out _ _ _ _ ?_) ?_
    · rw [toBE_length]; omega
    refine Eq.trans (wb_apply_out _ _ _ _ ?_) ?_
    · rw [hCBlen]; omega
    refine Eq.trans (wb_apply_out _ _ _ _ ?_) ?_
    · rw [hKBlen]; omega
    exact hP1pt i (by omega)
  have hP5slotsU : ∀ s', 50 ≤ s' → s' + 8 ≤ 50 + idx * 17 →
      rU64 (leafInsertP5 p c fss idx fse1) s' = rU64 p s' := by
    intro s' h1 h2
    rw [rU64, rU64, hP5slots s' 8 h1 h2]
  have hP5highU : ∀ a, fse0 ≤ a →
      rU64 (leafInsertP5 p c fss idx fse1) a = rU64 p a := by
    intro a ha
    rw [rU64, rU64, hP5high a 8 ha]
  have hP5shiftU : ∀ s', 50 + idx * 17 + 17 ≤ s' → s' + 8 ≤ fss + 17 →
      rU64 (leafInsertP5 p c fss idx fse1) s' = rU64 p (s' - 17) := by
    intro s' h1 h2
    rw [rU64, rU64, hP5shift s' 8 (by omega) h1 h2]
  have hcnt5 : rU64 (leafInsertP5 p c fss idx fse1) 26 = cnt := by
    rw [rU64, hP5low 26 8 (by omega)]
    exact hcnt
  refine ⟨?_, ?_, ?_, ?_, ?_, ?_, ?_, ?_, ?_, ?_, ?_, ?_, ?_⟩
  · show rU64 (leafInsertResultP p c) 26 = cnt + 1
    rw [hq, hcnt5]
    exact rU64_wb_toBE_of_lt _ _ (by omega)
  · show rU64 (leafInsertResultP p c) 34 = fss + 17
    rw [hq]
    refine Eq.trans (rU64_wb_disjoint _ _ _ _ ?_) ?_
    · right; rw [toBE_length]
    unfold leafInsertP5
    refine Eq.trans (rU64_wb_disjoint _ _ _ _ ?_) ?_
    · left; omega
    exact rU64_wb_toBE_of_lt _ _ (by omega)
  · show rU64 (leafInsertResultP p c) 42 = fse1
    rw [hq]
    refine Eq.trans (rU64_wb_disjoint _ _ _ _ ?_) ?_
    · right; rw [toBE_length]; omega
    unfold leafInsertP5
    exact rU64_wb_toBE_of_lt _ _ (by omega)
  · intro i hi
    refine ⟨?_, ?_⟩
    · show rU64 (leafInsertResultP p c) (50 + i * 17 + 1)
          = rU64 p (50 + i * 17 + 1)
      rw [hq]
      refine Eq.trans (rU64_wb_disjoint _ _ _ _ ?_) ?_
      · right; rw [toBE_length]; omega
      exact hP5slotsU _ (by omega) (by omega)
    · show rU64 (leafInsertResultP p c) (50 + i * 17 + 9)
          = rU64 p (50 + i * 17 + 9)
      rw [hq]
      refine Eq.trans (rU64_wb_disjoint _ _ _ _ ?_) ?_
      · right; rw [toBE_length]; omega
      exact hP5slotsU _ (by omega) (by omega)
  · show rU64 (leafInsertResultP p c) (50 + idx * 17 + 1) = c.identifier % U64
    rw [hq]
    refine Eq.trans (rU64_wb_disjoint _ _ _ _ ?_) ?_
    · right; rw [toBE_length]; omega
    unfold leafInsertP5
    refine Eq.trans (rU64_wb_disjoint _ _ _ _ ?_) ?_
    · right; rw [toBE_length]; omega
    refine Eq.trans (rU64_wb_disjoint _ _ _ _ ?_) ?_
    · right; rw [toBE_length]; omega
    refine Eq.trans (rU64_wb_disjoint _ _ _ _ ?_) ?_
    · left; omega
    refine rU64_wb_sub _ _ _ _ _ ?_ ?_ ?_
    · omega
    · rw [hKBlen]; omega
    · intro j hj
      simp only [Nat.add_sub_cancel_left]
      have hjl : 1 + j < ([bool_to_u8 c.overflow] ++ toBE c.identifier).length := by
        rw [List.length_append, List.length_singleton, toBE_length]; omega
      rw [List.getD_append _ _ _ _ hjl]
      have hge : ([bool_to_u8 c.overflow] : List Nat).length ≤ 1 + j := by
        rw [List.length_singleton]; omega
      rw [List.getD_append_right _ _ _ _ hge, List.length_singleton]
      congr 1
      omega
  · show rU64 (leafInsertResultP p c) (50 + idx * 17 + 9) = fse1
    rw [hq]
    refine Eq.trans (rU64_wb_disjoint _ _ _ _ ?_) ?_
    · right; rw [toBE_length]; omega
    unfold leafInsertP5
    refine Eq.trans (rU64_wb_disjoint _ _ _ _ ?_) ?_
    · right; rw [toBE_length]; omega
    refine Eq.trans (rU64_wb_disjoint _ _ _ _ ?_) ?_
    · right; rw [toBE_length]; omega
    refine Eq.trans (rU64_wb_disjoint _ _ _ _ ?_) ?_
    · left; omega
    refine Eq.trans (rU64_wb_sub _ _ _ _ fse1 ?_ ?_ ?_) (Nat.mod_eq_of_lt ?_)
    · omega
    · rw [hKBlen]
    · intro j hj
      simp only [Nat.add_sub_cancel_left]
      have hge : ([bool_to_u8 c.overflow] ++ toBE c.identifier).length ≤ 9 + j := by
        rw [List.length_append, List.length_singleton, toBE_length]; omega
      rw [List.getD_append_right _ _ _ _ hge, List.length_append,
        List.length_singleton, toBE_length]
      congr 1
      omega
    · omega
  · intro i hi1 hi2
    refine ⟨?_, ?_⟩
    · show rU64 (leafInsertResultP p c) (50 + i * 17 + 1)
          = rU64 p (50 + (i - 1) * 17 + 1)
      rw [hq]
      refine Eq.trans (rU64_wb_disjoint _ _ _ _ ?_) ?_
      · right; rw [toBE_length]; omega
      refine Eq.trans (hP5shiftU _ (by omega) (by omega)) ?_
      congr 1
      omega
    · show rU64 (leafInsertResultP p c) (50 + i * 17 + 9)
          = rU64 p (50 + (i - 1) * 17 + 9)
      rw [hq]
      refine Eq.trans (rU64_wb_disjoint _ _ _ _ ?_) ?_
      · right; rw [toBE_length]; omega
      refine Eq.trans (hP5shiftU _ (by omega) (by omega)) ?_
      congr 1
      omega
  · intro a ha
    rw [hq]
    refine Eq.trans (rU64_wb_disjoint _ _ _ _ ?_) ?_
    · right; rw [toBE_length]; omega
    exact hP5highU a ha
  · intro a m ha
    rw [hq]
    refine Eq.trans (rB_wb_disjoint _ _ _ _ _ ?_) ?_
    · right; rw [toBE_length]; omega
    exact hP5high a m ha
  · show rU64 (leafInsertResultP p c) fse1 = c.content.length
    rw [hq]
    refine Eq.trans (rU64_wb_disjoint _ _ _ _ ?_) ?_
    · right; rw [toBE_length]; omega
    unfold leafInsertP5
    refine Eq.trans (rU64_wb_disjoint _ _ _ _ ?_) ?_
    · right; rw [toBE_length]; omega
    refine Eq.trans (rU64_wb_disjoint _ _ _ _ ?_) ?_
    · right; rw [toBE_length]; omega
    refine Eq.trans (rU64_wb_sub _ _ _ _ c.content.length ?_ ?_ ?_)
      (Nat.mod_eq_of_lt ?_)
    · exact le_refl _
    · rw [hCBlen]; omega
    · intro j hj
      simp only [Nat.sub_self, Nat.zero_add]
      have hjl : j < (toBE c.content.length).length := by
        rw [toBE_length]; omega
      exact List.getD_append _ _ _ _ hjl
    · omega
  · show rB (leafInsertResultP p c) (fse1 + 8) c.content.length = c.content
    rw [hq]
    refine Eq.trans (rB_wb_disjoint _ _ _ _ _ ?_) ?_
    · right; rw [toBE_length]; omega
    unfold leafInsertP5
    refine Eq.trans (rB_wb_disjoint _ _ _ _ _ ?_) ?_
    · right; rw [toBE_length]; omega
    refine Eq.trans (rB_wb_disjoint _ _ _ _ _ ?_) ?_
    · right; rw [toBE_length]; omega
    refine rB_wb_sub _ _ _ _ _ _ ?_ ?_ ?_ ?_
    · omega
    · rw [hCBlen]; omega
    · rfl
    · intro j hj
      have hidx8 : fse1 + 8 - fse1 + j = 8 + j := by omega
      rw [hidx8]
      have hge : (toBE c.content.length).length ≤ 8 + j := by
        rw [toBE_length]; omega
      rw [List.getD_append_right _ _ _ _ hge, toBE_length]
      congr 1
      omega
  · intro i hi
    rw [hq]
    refine Eq.trans (wb_apply_out _ _ _ _ ?_) ?_
    · rw [toBE_length]; omega
    exact hP5pt i (Or.inl hi)
  · intro i hi1 hi2
    rw [hq]
    refine Eq.trans (wb_apply_out _ _ _ _ ?_) ?_
    · rw [toBE_length]; omega
    exact hP5pt i (Or.inr ⟨hi1, hi2⟩)

/-! List helpers for `insertAt` and `leafKeys`. -/

theorem insertAt_length (l : List Nat) (i x : Nat) (h : i ≤ l.length) :
    (insertAt l i x).length = l.length + 1 := by
  simp only [insertAt, List.length_append, List.length_take,
    List.length_singleton, List.length_drop]
  omega

theorem insertAt_getD_lt (l : List Nat) (i x j : Nat) (hi : i ≤ l.length)
    (hj : j < i) : (insertAt l i x).getD j 0 = l.getD j 0 := by
  have ht : (l.take i).length = i := by rw [List.length_take]; omega
  have h1 : j < (l.take i ++ [x]).length := by
    rw [List.length_append, ht, List.length_singleton]; omega
  have h2 : j < (l.take i).length := by rw [ht]; omega
  rw [insertAt, List.getD_append _ _ _ _ h1, List.getD_append _ _ _ _ h2,
    List.getD_eq_getElem _ _ h2, List.getD_eq_getElem _ _ (show j < l.length by omega)]
  exact List.getElem_take l

theorem insertAt_getD_eq (l : List Nat) (i x : Nat) (hi : i ≤ l.length) :
    (insertAt l i x).getD i 0 = x := by
  have ht : (l.take i).length = i := by rw [List.length_take]; omega
  have h1 : i < (l.take i ++ [x]).length := by
    rw [List.length_append, ht, List.length_singleton]; omega
  have h2 : (l.take i).length ≤ i := by omega
  rw [insertAt, List.getD_append _ _ _ _ h1, List.getD_append_right _ _ _ _ h2,
    ht, Nat.sub_self]
  rfl

theorem insertAt_getD_gt (l : List Nat) (i x j : Nat) (hi : i ≤ l.length)
    (hj1 : i < j) (hj2 : j ≤ l.length) :
    (insertAt l i x).getD j 0 = l.getD (j - 1) 0 := by
  have ht : (l.take i).length = i := by rw [List.length_take]; omega
  have h1 : (l.take i ++ [x]).length ≤ j := by
    rw [List.length_append, ht, List.length_singleton]; omega
  rw [insertAt, List.getD_append_right _ _ _ _ h1, List.length_append, ht,
    List.length_singleton]
  have hb : j - (i + 1) < (l.drop i).length := by rw [List.length_drop]; omega
  rw [List.getD_eq_getElem _ _ hb,
    List.getD_eq_getElem _ _ (show j - 1 < l.length by omega),
    List.getElem_drop]
  congr 1
  omega

theorem leafKeys_length (p : Page) : (leafKeys p).length = leafNumCells p := by
  rw [leafKeys, List.length_map, List.length_range]

theorem leafKeys_getD (p : Page) (j : Nat) (hj : j < leafNumCells p) :
    (leafKeys p).getD j 0 = leafKeyAt p j := by
  have hb : j < (leafKeys p).length := by rw [leafKeys_length]; exact hj
  rw [List.getD_eq_getElem _ _ hb]
  simp [leafKeys]

theorem list_ext_getD (l1 l2 : List Nat) (hlen : l1.length = l2.length)
    (h : ∀ j, j < l1.length → l1.getD j 0 = l2.getD j 0) : l1 = l2 := by
  apply List.ext_getElem hlen
  intro j h1 h2
  rw [← List.getD_eq_getElem l1 0 h1, ← List.getD_eq_getElem l2 0 h2]
  exact h j h1

/-- A successful `insert_leaf_cell` on a well-formed leaf page preserves
well-formedness and inserts the key at `find_cell_num`'s index. -/
theorem insert_leaf_ok_post (p : Page) (c : LeafCell)
    (hwf : LeafWF p)
    (hcb : ∀ b ∈ c.content, b < 256)
    (hund : 8 + c.content.length ≤ leafFreeEnd p)
    (hfit : leafFreeStart p + 17 < leafFreeEnd p - (8 + c.content.length)) :
    LeafInsertPost p c := by
  have hH : LEAF_HEADER_SIZE = 50 := rfl
  have hK : LEAF_KEY_CELL_SIZE = 17 := rfl
  have h8 : LEAF_CONTENT_LEN_SIZE = 8 := rfl
  have hP : PAGE_SIZE = 4096 := rfl
  have hidx_le : (mkLeafNode p).find_cell_num c.identifier ≤ leafNumCells p :=
    find_cell_num_le (mkLeafNode p) c.identifier
  have hfss_eq : leafFreeStart p = 50 + leafNumCells p * 17 := by
    have h := hwf.fss_eq
    rw [hH, hK] at h
    exact h
  have hfse_le : leafFreeEnd p ≤ 4096 := hwf.fse_le
  obtain ⟨hA, hB, hC, hD, hE1, hE2, hF, hG, hG2, hM, hM2, hlow, hgap⟩ :=
    leafInsert_reads p c (leafNumCells p) (leafFreeStart p) (leafFreeEnd p)
      ((mkLeafNode p).find_cell_num c.identifier)
      (leafFreeEnd p - (8 + c.content.length))
      rfl rfl rfl rfl hfss_eq hfse_le hidx_le hund rfl hfit
  refine ⟨?_, ?_, hA, hB, hC, hlow, hgap⟩
  · constructor
    · exact leafInsert_bytes_lt p c hwf.bytes_lt hcb
    · rw [hH, hK, hB, hA, hfss_eq]
      ring
    · rw [hB, hC]
      omega
    · rw [hC, hP]
      omega
    · intro i hi
      rw [hA] at hi
      rw [hC]
      rcases Nat.lt_trichotomy i ((mkLeafNode p).find_cell_num c.identifier)
        with h | h | h
      · rw [(hD i h).2]
        have := hwf.ptr_lo i (by omega)
        omega
      · subst h
        rw [hE2]
      · rw [(hF i h (by omega)).2]
        have := hwf.ptr_lo (i - 1) (by omega)
        omega
    · intro i hi
      rw [hA] at hi
      rcases Nat.lt_trichotomy i ((mkLeafNode p).find_cell_num c.identifier)
        with h | h | h
      · have hple := hwf.ptr_lo i (by omega)
        have hphi := hwf.ptr_hi i (by omega)
        rw [leafContentLenAt, (hD i h).2, hG _ hple]
        exact hphi
      · subst h
        rw [leafContentLenAt, hE2, hM, h8, hP]
        omega
      · have hple := hwf.ptr_lo (i - 1) (by omega)
        have hphi := hwf.ptr_hi (i - 1) (by omega)
        rw [leafContentLenAt, (hF i h (by omega)).2, hG _ hple]
        exact hphi
  · refine list_ext_getD _ _ ?_ ?_
    · rw [leafKeys_length, hA,
        insertAt_length _ _ _ (by rw [leafKeys_length]; exact hidx_le),
        leafKeys_length]
    · intro j hjl
      rw [leafKeys_length, hA] at hjl
      rw [leafKeys_getD _ _ (by rw [hA]; exact hjl)]
      rcases Nat.lt_trichotomy j ((mkLeafNode p).find_cell_num c.identifier)
        with h | h | h
      · rw [(hD j h).1,
          insertAt_getD_lt _ _ _ _ (by rw [leafKeys_length]; exact hidx_le) h,
          leafKeys_getD _ _ (by omega)]
      · subst h
        rw [hE1,
          insertAt_getD_eq _ _ _ (by rw [leafKeys_length]; exact hidx_le)]
      · rw [(hF j h (by omega)).1,
          insertAt_getD_gt _ _ _ _ (by rw [leafKeys_length]; exact hidx_le) h
            (by rw [leafKeys_length]; omega),
          leafKeys_getD _ _ (by omega)]

/-- A successful `insert_leaf_cell` of an absent key on a sorted
well-formed leaf keeps the keys sorted, and `find_cell_num` is the lower
bound of the new key. -/
theorem insert_leaf_ok_sorted (p : Page) (c : LeafCell)
    (hwf : LeafWF p) (hsort : leafSorted p)
    (habs : ∀ i, i < leafNumCells p → leafKeyAt p i ≠ c.identifier)
    (hund : 8 + c.content.length ≤ leafFreeEnd p)
    (hfit : leafFreeStart p + 17 < leafFreeEnd p - (8 + c.content.length))
    (hid : c.identifier < U64) :
    leafSorted (leafInsertResultP p c) ∧
    (∀ j, j < (mkLeafNode p).find_cell_num c.identifier →
      leafKeyAt p j < c.identifier) ∧
    (∀ j, (mkLeafNode p).find_cell_num c.identifier ≤ j →
      j < leafNumCells p → c.identifier < leafKeyAt p j) := by
  have hH : LEAF_HEADER_SIZE = 50 := rfl
  have hK : LEAF_KEY_CELL_SIZE = 17 := rfl
  have hckey : ∀ t, cellKeyB (mkLeafNode p) t = leafKeyAt p t := by
    intro t
    rw [cellKeyB_leaf (mkLeafNode p) rfl, activeP_mk_leaf]
  have habs2 := find_cell_num_leaf_absent (mkLeafNode p) c.identifier rfl
    (fun i j hij hj => by rw [hckey, hckey]; exact hsort i j hij hj)
    (fun i hi => by rw [hckey]; exact habs i hi)
  have hbelow : ∀ j, j < (mkLeafNode p).find_cell_num c.identifier →
      leafKeyAt p j < c.identifier := by
    intro j hj
    have h := habs2.1 j hj
    rwa [hckey] at h
  have habove : ∀ j, (mkLeafNode p).find_cell_num c.identifier ≤ j →
      j < leafNumCells p → c.identifier < leafKeyAt p j := by
    intro j h1 h2
    have h := habs2.2 j h1 h2
    rwa [hckey] at h
  have hidx_le : (mkLeafNode p).find_cell_num c.identifier ≤ leafNumCells p :=
    find_cell_num_le (mkLeafNode p) c.identifier
  have hfss_eq : leafFreeStart p = 50 + leafNumCells p * 17 := by
    have h := hwf.fss_eq
    rw [hH, hK] at h
    exact h
  obtain ⟨hA, hB, hC, hD, hE1, hE2, hF, hG, hG2, hM, hM2, hlow, hgap⟩ :=
    leafInsert_reads p c (leafNumCells p) (leafFreeStart p) (leafFreeEnd p)
      ((mkLeafNode p).find_cell_num c.identifier)
      (leafFreeEnd p - (8 + c.content.length))
      rfl rfl rfl rfl hfss_eq hwf.fse_le hidx_le hund rfl hfit
  refine ⟨?_, hbelow, habove⟩
  intro i j hij hj
  rw [hA] at hj
  have hidkey : leafKeyAt (leafInsertResultP p c)
      ((mkLeafNode p).find_cell_num c.identifier) = c.identifier := by
    rw [hE1, Nat.mod_eq_of_lt hid]
  rcases Nat.lt_trichotomy j ((mkLeafNode p).find_cell_num c.identifier)
    with hj2 | hj2 | hj2
  · rw [(hD i (by omega)).1, (hD j hj2).1]
    exact hsort i j hij (by omega)
  · rw [← hj2] at hidkey
    rw [hidkey, (hD i (by omega)).1]
    exact hbelow i (by omega)
  · rw [(hF j hj2 (by omega)).1]
    rcases Nat.lt_trichotomy i ((mkLeafNode p).find_cell_num c.identifier)
      with hi2 | hi2 | hi2
    · rw [(hD i hi2).1]
      exact hsort i (j - 1) (by omega) (by omega)
    · rw [← hi2] at hidkey
      rw [hidkey]
      exact habove (j - 1) (by omega) (by omega)
    · rw [(hF i hi2 (by omega)).1]
      exact hsort (i - 1) (j - 1) (by omega) (by omega)

/-- C10: `insert_leaf_cell` subtracts the encoded blob size (8-byte length
prefix plus content) from free-space-end before any size check, so the
`u64` subtraction deviates from the true difference — wraps — exactly when
the blob exceeds the current free-space-end; when it does not wrap, the
call either takes the `HasOverflow` branch leaving the node unchanged, or
returns `Ok` with every one of its page writes inside `PAGE_SIZE`.  The
well-formedness hypothesis expresses that the node's active bytes are a
real leaf page. -/
theorem C10_leaf_insert_underflow (n : Node) (c : LeafCell)
    (hleaf : n.ntype = PageType.Leaf)
    (hwf : LeafWF (activeP n))
    (hblob : LEAF_CONTENT_LEN_SIZE + c.content.length < U64) :
    (leafInsertUnderflows n c →
      sub64 (n.read_u64_data LEAF_FREE_SPACE_END_OFFSET true)
          (toBE c.content.length ++ c.content).length
        ≠ n.read_u64_data LEAF_FREE_SPACE_END_OFFSET true
            - (LEAF_CONTENT_LEN_SIZE + c.content.length)) ∧
    (¬ leafInsertUnderflows n c →
      sub64 (n.read_u64_data LEAF_FREE_SPACE_END_OFFSET true)
          (toBE c.content.length ++ c.content).length
        = n.read_u64_data LEAF_FREE_SPACE_END_OFFSET true
            - (LEAF_CONTENT_LEN_SIZE + c.content.length) ∧
      ((∃ e, n.insert_leaf_cell c = (Except.error e, n)) ∨
        ((n.insert_leaf_cell c).1 = Except.ok () ∧
          ∀ r ∈ leafInsertWriteRanges n c, r.1 + r.2 ≤ PAGE_SIZE))) := by
  have h4096 : (4096 : Nat) < U64 := by norm_num [U64]
  have h8 : LEAF_CONTENT_LEN_SIZE = 8 := rfl
  have hP : PAGE_SIZE = 4096 := rfl
  have hK : LEAF_KEY_CELL_SIZE = 17 := rfl
  have hH : LEAF_HEADER_SIZE = 50 := rfl
  have hlen : (toBE c.content.length ++ c.content).length
      = LEAF_CONTENT_LEN_SIZE + c.content.length := blob_length c
  have hread : n.read_u64_data LEAF_FREE_SPACE_END_OFFSET true
      = leafFreeEnd (activeP n) := by
    rw [read_u64_true]
    rfl
  have hfse_le : leafFreeEnd (activeP n) ≤ 4096 := hwf.fse_le
  constructor
  · intro hu
    simp only [leafInsertUnderflows, leafCell_get_content, hread, h8] at hu
    rw [hread, hlen, h8]
    rw [h8] at hblob
    rw [sub64, Nat.mod_eq_of_lt hblob]
    have hz : leafFreeEnd (activeP n) - (8 + c.content.length) = 0 := by omega
    rw [hz]
    have h1 : leafFreeEnd (activeP n) + U64 - (8 + c.content.length)
        = U64 - ((8 + c.content.length) - leafFreeEnd (activeP n)) := by omega
    rw [h1, Nat.mod_eq_of_lt (by omega)]
    omega
  · intro hnu
    simp only [leafInsertUnderflows, leafCell_get_content, hread, h8] at hnu
    rw [Nat.not_lt] at hnu
    have hsub : sub64 (leafFreeEnd (activeP n))
        (toBE c.content.length ++ c.content).length
        = leafFreeEnd (activeP n) - (8 + c.content.length) := by
      rw [hlen, h8, sub64_of_le hnu (by omega)]
    constructor
    · rw [hread, hsub, h8]
    · by_cases hov : leafFreeStart (activeP n) + LEAF_KEY_CELL_SIZE ≥
          sub64 (leafFreeEnd (activeP n)) (toBE c.content.length ++ c.content).length
      · left
        exact ⟨_, insert_leaf_cell_overflow_eq n c hleaf hov⟩
      · right
        rw [hsub, hK] at hov
        constructor
        · rw [insert_leaf_cell_ok_eq n c hleaf (by rw [hsub, hK]; exact hov)]
        · intro r hr
          have hidx : n.find_cell_num c.identifier ≤ leafNumCells (activeP n) := by
            have h := find_cell_num_le n c.identifier
            rwa [num_cells_leaf n hleaf] at h
          have hfss_eq : leafFreeStart (activeP n)
              = 50 + leafNumCells (activeP n) * 17 := by
            have h := hwf.fss_eq
            rw [hH, hK] at h
            exact h
          have hkp : leafSlotPos (n.find_cell_num c.identifier)
              = 50 + n.find_cell_num c.identifier * 17 := rfl
          simp only [leafInsertWriteRanges, leafCell_get_key,
            leafCell_get_content, read_u64_true, calc_pos_leaf n hleaf] at hr
          rw [← leafFreeStart_def, ← leafFreeEnd_def] at hr
          have hsub2 : sub64 (leafFreeEnd (activeP n))
              (LEAF_CONTENT_LEN_SIZE + c.content.length)
              = leafFreeEnd (activeP n) - (8 + c.content.length) := by
            rw [h8, sub64_of_le hnu (by omega)]
          rw [hsub2] at hr
          rcases List.mem_append.mp hr with h | h
          · by_cases hmv : leafSlotPos (n.find_cell_num c.identifier)
                < leafFreeStart (activeP n)
            · rw [if_pos hmv] at h
              simp only [List.mem_singleton] at h
              subst h
              show leafSlotPos (n.find_cell_num c.identifier) + LEAF_KEY_CELL_SIZE
                  + (leafFreeStart (activeP n)
                    - leafSlotPos (n.find_cell_num c.identifier)) ≤ PAGE_SIZE
              rw [hkp, hK, hP]
              omega
            · rw [if_neg hmv] at h
              simp at h
          · simp only [List.mem_cons, List.not_mem_nil, or_false] at h
            rcases h with h | h | h | h | h
            · subst h
              show leafSlotPos (n.find_cell_num c.identifier)
                  + LEAF_KEY_CELL_SIZE ≤ PAGE_SIZE
              rw [hkp, hK, hP]
              omega
            · subst h
              show leafFreeEnd (activeP n) - (8 + c.content.length)
                  + (LEAF_CONTENT_LEN_SIZE + c.content.length) ≤ PAGE_SIZE
              rw [h8, hP]
              omega
            · subst h
              decide
            · subst h
              decide
            · subst h
              decide

/-- The fresh leaf page spelled as its write sequence. -/
theorem build_page_leaf_eq (flag : Bool) :
    build_page PageType.Leaf flag
      = wb (wb (wb (wb (wb (wb (wb (wb (wb (fun _ => 0) 8 [11]) 9 [1]) 8 [10])
          9 [bool_to_u8 flag]) 0 (toBE 65210)) 34 (toBE 50)) 42 (toBE 4096))
          18 (toBE 18446744073709551615)) 10 (toBE 18446744073709551615) := rfl

/-- All bytes of a fresh leaf page are below 256. -/
theorem build_page_leaf_bytes_lt (flag : Bool) :
    ∀ i, i < PAGE_SIZE → build_page PageType.Leaf flag i < 256 := by
  rw [build_page_leaf_eq]
  refine wb_bytes_lt _ _ _ (toBE_all_lt _) ?_
  refine wb_bytes_lt _ _ _ (toBE_all_lt _) ?_
  refine wb_bytes_lt _ _ _ (toBE_all_lt _) ?_
  refine wb_bytes_lt _ _ _ (toBE_all_lt _) ?_
  refine wb_bytes_lt _ _ _ (toBE_all_lt _) ?_
  refine wb_bytes_lt _ _ _ ?_ ?_
  · intro x hx
    simp only [List.mem_singleton] at hx
    subst hx
    cases flag <;> decide
  refine wb_bytes_lt _ _ _ ?_ ?_
  · intro x hx
    simp only [List.mem_singleton] at hx
    subst hx
    decide
  refine wb_bytes_lt _ _ _ ?_ ?_
  · intro x hx
    simp only [List.mem_singleton] at hx
    subst hx
    decide
  refine wb_bytes_lt _ _ _ ?_ ?_
  · intro x hx
    simp only [List.mem_singleton] at hx
    subst hx
    decide
  intro i _
  show (0 : Nat) < 256
  norm_num

/-- Bytes at or past offset 50 of a fresh leaf page are zero. -/
theorem build_page_leaf_zero (flag : Bool) :
    ∀ i, 50 ≤ i → build_page PageType.Leaf flag i = 0 := by
  intro i hi
  rw [build_page_leaf_eq]
  refine Eq.trans (wb_apply_out _ _ _ _ ?_) ?_
  · right; rw [toBE_length]; omega
  refine Eq.trans (wb_apply_out _ _ _ _ ?_) ?_
  · right; rw [toBE_length]; omega
  refine Eq.trans (wb_apply_out _ _ _ _ ?_) ?_
  · right; rw [toBE_length]; omega
  refine Eq.trans (wb_apply_out _ _ _ _ ?_) ?_
  · right; rw [toBE_length]; omega
  refine Eq.trans (wb_apply_out _ _ _ _ ?_) ?_
  · right; rw [toBE_length]; omega
  refine Eq.trans (wb_apply_out _ _ _ _ ?_) ?_
  · right; rw [List.length_singleton]; omega
  refine Eq.trans (wb_apply_out _ _ _ _ ?_) ?_
  · right; rw [List.length_singleton]; omega
  refine Eq.trans (wb_apply_out _ _ _ _ ?_) ?_
  · right; rw [List.length_singleton]; omega
  refine Eq.trans (wb_apply_out _ _ _ _ ?_) ?_
  · right; rw [List.length_singleton]; omega
  rfl

/-- All bytes of the two-cell witness page are below 256. -/
theorem twoCellLeafPage_bytes_lt :
    ∀ i, i < PAGE_SIZE → twoCellLeafPage i < 256 := by
  simp only [twoCellLeafPage]
  refine wb_bytes_lt _ _ _ ?_ ?_
  · intro y hy
    rcases List.mem_append.mp hy with h | h
    · exact toBE_all_lt _ _ h
    · simp only [List.mem_singleton] at h
      subst h
      norm_num
  refine wb_bytes_lt _ _ _ ?_ ?_
  · intro y hy
    rcases List.mem_append.mp hy with h | h
    · exact toBE_all_lt _ _ h
    · simp only [List.mem_singleton] at h
      subst h
      norm_num
  refine wb_bytes_lt _ _ _ ?_ ?_
  · intro y hy
    rcases List.mem_append.mp hy with h | h
    · rcases List.mem_append.mp h with h2 | h2
      · simp only [List.mem_singleton] at h2
        subst h2
        decide
      · exact toBE_all_lt _ _ h2
    · exact toBE_all_lt _ _ h
  refine wb_bytes_lt _ _ _ ?_ ?_
  · intro y hy
    rcases List.mem_append.mp hy with h | h
    · rcases List.mem_append.mp h with h2 | h2
      · simp only [List.mem_singleton] at h2
        subst h2
        decide
      · exact toBE_all_lt _ _ h2
    · exact toBE_all_lt _ _ h
  refine wb_bytes_lt _ _ _ (toBE_all_lt _) ?_
  refine wb_bytes_lt _ _ _ (toBE_all_lt _) ?_
  refine wb_bytes_lt _ _ _ (toBE_all_lt _) ?_
  exact build_page_leaf_bytes_lt true

set_option maxRecDepth 10000 in
/-- Witness for C10: on the two-cell leaf page, inserting key 5 with a
one-byte value does not underflow, returns `Ok`, and all write ranges stay
inside the page. -/
theorem C10_witness :
    ¬ leafInsertUnderflows twoCellLeafNode (LeafCell.new 5 [30] false) ∧
    ((twoCellLeafNode.insert_leaf_cell (LeafCell.new 5 [30] false)).1
        = Except.ok () ∧
      ∀ r ∈ leafInsertWriteRanges twoCellLeafNode (LeafCell.new 5 [30] false),
        r.1 + r.2 ≤ PAGE_SIZE) := by
  have hwf : LeafWF (activeP twoCellLeafNode) :=
    ⟨twoCellLeafPage_bytes_lt, by decide, by decide, by decide,
      by decide, by decide⟩
  have hnu : ¬ leafInsertUnderflows twoCellLeafNode (LeafCell.new 5 [30] false) := by
    unfold leafInsertUnderflows
    decide
  have h := (C10_leaf_insert_underflow twoCellLeafNode
    (LeafCell.new 5 [30] false) rfl hwf (by decide)).2 hnu
  rcases h.2 with herr | hok
  · obtain ⟨e, he⟩ := herr
    have hok2 : (twoCellLeafNode.insert_leaf_cell
        (LeafCell.new 5 [30] false)).1 = Except.ok () := by decide
    rw [he] at hok2
    simp at hok2
  · exact ⟨hnu, hok⟩

/-! The split machinery: extraction, the redistribution loop, and the
top-level `split`. -/

theorem mkb_read_u64_false (pg b : Page) (ty : PageType) (s : Nat) :
    Node.read_u64_data (Node.mk pg (some b) ty) s false = rU64 pg s := rfl

theorem mkb_read_var_false (pg b : Page) (ty : PageType) (s z : Nat) :
    Node.read_variable_data (Node.mk pg (some b) ty) s z false = rB pg s z := rfl

theorem mkb_key_false (pg b : Page) (pos : Nat) :
    Node.get_cell_key (Node.mk pg (some b) PageType.Leaf) pos false
      = rU64 pg (1 + pos) := rfl

theorem mkb_ptr_false (pg b : Page) (pos : Nat) :
    Node.get_cell_key_pointer (Node.mk pg (some b) PageType.Leaf) pos false
      = rU64 pg (9 + pos) := rfl

/-- The `split_leaf_node` loop extracts exactly the combined cells,
independently of the shadow buffer. -/
theorem splitExtract_eq (p bs : Page) (c : LeafCell) (ncn i : Nat) :
    Node.splitExtract (Node.mk p (some bs) PageType.Leaf) c ncn i
      = combinedCell p c ncn i := by
  simp only [Node.splitExtract, combinedCell]
  by_cases h : i = ncn
  · simp only [if_pos h]
    rw [LeafCell.from_bytes, leafCell_get_key, leafCell_get_content,
      List.take_left' (toBE_length _), List.drop_left' (toBE_length _),
      fromBE_toBE]
  · simp only [if_neg h, mkb_key_false, mkb_ptr_false, mkb_read_u64_false,
      mkb_read_var_false, mk_calc_leaf]
    rw [Nat.add_comm 1 (leafSlotPos (if i > ncn then i - 1 else i)),
      Nat.add_comm 9 (leafSlotPos (if i > ncn then i - 1 else i))]
    rw [LeafCell.from_bytes,
      List.take_left' (toBE_length _), List.drop_left' (toBE_length _),
      fromBE_toBE]
    rfl

theorem combKeysN_length (p : Page) (c : LeafCell) (ncn : Nat) :
    ∀ (m a : Nat), (combKeysN p c ncn a m).length = m := by
  intro m
  induction m with
  | zero => intro a; rfl
  | succ m ih =>
    intro a
    rw [combKeysN, List.length_cons, ih]

theorem combKeysN_getD (p : Page) (c : LeafCell) (ncn : Nat) :
    ∀ (m a t : Nat), t < m →
      (combKeysN p c ncn a m).getD t 0 = combKey p c ncn (a + t) := by
  intro m
  induction m with
  | zero => intro a t ht; omega
  | succ m ih =>
    intro a t ht
    cases t with
    | zero => rfl
    | succ t =>
      rw [combKeysN]
      have h1 : (combKey p c ncn a :: combKeysN p c ncn (a + 1) m).getD (t + 1) 0
          = (combKeysN p c ncn (a + 1) m).getD t 0 := rfl
      rw [h1, ih (a + 1) t (by omega)]
      congr 1
      omega

theorem combKey_lt_U64 (p : Page) (c : LeafCell) (ncn i : Nat) :
    combKey p c ncn i < U64 := by
  have hU : 0 < U64 := by norm_num [U64]
  rw [combKey, combinedCell]
  by_cases h : i = ncn
  · rw [if_pos h]
    exact Nat.mod_lt _ hU
  · rw [if_neg h]
    exact Nat.mod_lt _ hU

/-- The per-half capacity bound is monotone in the suffix taken. -/
theorem segCap_mono (p : Page) (c : LeafCell) (ncn : Nat) (a0 b : Nat) :
    ∀ d, a0 + d ≤ b →
      17 * (b - (a0 + d)) + combBlobSumN p c ncn (a0 + d) (b - (a0 + d))
        ≤ 17 * (b - a0) + combBlobSumN p c ncn a0 (b - a0) := by
  intro d
  induction d with
  | zero => intro _; exact le_refl _
  | succ d ih =>
    intro hd
    refine le_trans ?_ (ih (by omega))
    have hdec : b - (a0 + d) = (b - (a0 + d + 1)) + 1 := by omega
    rw [hdec, combBlobSumN]
    have he : a0 + d + 1 = a0 + (d + 1) := by omega
    rw [← he]
    omega

/-- Inserting a cell smaller than every stored key into a well-formed
sorted buffered leaf: the insert lands at slot 0 and prepends the key. -/
theorem insert_front (pg b : Page) (c' : LeafCell)
    (hwf : LeafWF b) (hsort : leafSorted b)
    (hlt : ∀ i, i < leafNumCells b → c'.identifier < leafKeyAt b i)
    (hid : c'.identifier < U64)
    (hcb : ∀ x ∈ c'.content, x < 256)
    (hund : 8 + c'.content.length ≤ leafFreeEnd b)
    (hfit : leafFreeStart b + 17 < leafFreeEnd b - (8 + c'.content.length)) :
    (Node.mk pg (some b) PageType.Leaf).insert_leaf_cell c'
        = (Except.ok (),
            Node.mk pg (some (leafInsertResultP b c')) PageType.Leaf) ∧
    LeafWF (leafInsertResultP b c') ∧
    leafSorted (leafInsertResultP b c') ∧
    leafKeys (leafInsertResultP b c') = c'.identifier :: leafKeys b ∧
    leafFreeEnd (leafInsertResultP b c')
      = leafFreeEnd b - (8 + c'.content.length) ∧
    leafNumCells (leafInsertResultP b c') = leafNumCells b + 1 ∧
    (∀ i, i < 26 → leafInsertResultP b c' i = b i) := by
  have habs : ∀ i, i < leafNumCells b → leafKeyAt b i ≠ c'.identifier := by
    intro i hi
    have h := hlt i hi
    omega
  have hpost := insert_leaf_ok_post b c' hwf hcb hund hfit
  obtain ⟨hsorted2, hbelow, _⟩ :=
    insert_leaf_ok_sorted b c' hwf hsort habs hund hfit hid
  have hidx0 : (mkLeafNode b).find_cell_num c'.identifier = 0 := by
    by_contra hne
    have h0 : 0 < (mkLeafNode b).find_cell_num c'.identifier :=
      Nat.pos_of_ne_zero hne
    have hle := find_cell_num_le (mkLeafNode b) c'.identifier
    have hnum : (mkLeafNode b).num_cells = leafNumCells b := rfl
    rw [hnum] at hle
    have h1 := hbelow 0 h0
    have h2 := hlt 0 (by omega)
    omega
  refine ⟨?_, hpost.wf, hsorted2, ?_, hpost.fse, hpost.count, hpost.low⟩
  · have h8 : LEAF_CONTENT_LEN_SIZE = 8 := rfl
    have hK : LEAF_KEY_CELL_SIZE = 17 := rfl
    have h4096 : (4096 : Nat) < U64 := by norm_num [U64]
    have hfseU : leafFreeEnd b < U64 := by
      have := hwf.fse_le
      have hP : PAGE_SIZE = 4096 := rfl
      rw [hP] at this
      omega
    have hsub : sub64 (leafFreeEnd b) (toBE c'.content.length ++ c'.content).length
        = leafFreeEnd b - (8 + c'.content.length) := by
      rw [blob_length, h8, sub64_of_le hund hfseU]
    have hnf : ¬ (leafFreeStart b + LEAF_KEY_CELL_SIZE
        ≥ sub64 (leafFreeEnd b) (toBE c'.content.length ++ c'.content).length) := by
      rw [hsub, hK]
      omega
    have heq := insert_leaf_cell_ok_eq (Node.mk pg (some b) PageType.Leaf) c'
      rfl hnf
    rw [heq, activeP_mk_some, mkb_setA]
  · rw [hpost.keys, hidx0, Nat.mod_eq_of_lt hid]
    rfl

/-- The `split_leaf_node` redistribution loop: starting from two reset
leaves it distributes combined cells `k-1 .. 0` (the top `cells - L` into
the right node, the rest into the left node), succeeding and producing
well-formed sorted leaves holding exactly the two key segments. -/
theorem splitLoop_ok (p : Page) (c : LeafCell) (ncn L cells : Nat)
    (hLc : L ≤ cells)
    (hsorted : ∀ i j, i < j → j < cells →
      combKey p c ncn i < combKey p c ncn j)
    (hbytes : ∀ i, i < cells → ∀ x ∈ (combinedCell p c ncn i).content, x < 256)
    (hcapL : 50 + 17 * L + combBlobSumN p c ncn 0 L < 4096)
    (hcapR : 50 + 17 * (cells - L) + combBlobSumN p c ncn L (cells - L)
      < 4096) :
    ∀ k, k ≤ cells → ∀ (bsL pgR bsR : Page),
      LeafWF bsL → leafSorted bsL →
      leafKeys bsL = combKeysN p c ncn (min k L) (L - min k L) →
      leafFreeEnd bsL = 4096 - combBlobSumN p c ncn (min k L) (L - min k L) →
      LeafWF bsR → leafSorted bsR →
      leafKeys bsR = combKeysN p c ncn (max k L) (cells - max k L) →
      leafFreeEnd bsR = 4096 - combBlobSumN p c ncn (max k L) (cells - max k L) →
      ∃ BL BR,
        Node.splitLoop c ncn L k (Node.mk p (some bsL) PageType.Leaf)
            (Node.mk pgR (some bsR) PageType.Leaf)
          = (Except.ok (), Node.mk p (some BL) PageType.Leaf,
              Node.mk pgR (some BR) PageType.Leaf) ∧
        LeafWF BL ∧ leafSorted BL ∧
        leafKeys BL = combKeysN p c ncn 0 L ∧
        LeafWF BR ∧ leafSorted BR ∧
        leafKeys BR = combKeysN p c ncn L (cells - L) ∧
        (∀ i, i < 26 → BL i = bsL i) ∧
        (∀ i, i < 26 → BR i = bsR i) := by
  intro k
  induction k with
  | zero =>
    intro _ bsL pgR bsR hwfL hsL hkL hfL hwfR hsR hkR hfR
    have hmin : min 0 L = 0 := by omega
    have hmax : max 0 L = L := by omega
    rw [hmin] at hkL
    rw [hmax] at hkR
    refine ⟨bsL, bsR, rfl, hwfL, hsL, ?_, hwfR, hsR, ?_,
      fun _ _ => rfl, fun _ _ => rfl⟩
    · rw [hkL]
      congr 1
    · exact hkR
  | succ k ih =>
    intro hk1 bsL pgR bsR hwfL hsL hkL hfL hwfR hsR hkR hfR
    have hkc : k < cells := by omega
    have hidk : combKey p c ncn k < U64 := combKey_lt_U64 p c ncn k
    have hH : LEAF_HEADER_SIZE = 50 := rfl
    have hK : LEAF_KEY_CELL_SIZE = 17 := rfl
    have hcl : (combinedCell p c ncn k).content.length = combLen p c ncn k := rfl
    by_cases hge : k ≥ L
    · have hmax1 : max (k + 1) L = k + 1 := by omega
      have hmax0 : max k L = k := by omega
      have hmin1 : min (k + 1) L = L := by omega
      have hmin0 : min k L = L := by omega
      rw [hmax1] at hkR hfR
      have hcntR : leafNumCells bsR = cells - (k + 1) := by
        have h1 := leafKeys_length bsR
        rw [hkR, combKeysN_length] at h1
        omega
      have hlt : ∀ i, i < leafNumCells bsR →
          (combinedCell p c ncn k).identifier < leafKeyAt bsR i := by
        intro i hi
        have h1 := leafKeys_getD bsR i hi
        rw [hkR, combKeysN_getD p c ncn _ _ _ (by omega)] at h1
        rw [← h1]
        exact hsorted k (k + 1 + i) (by omega) (by omega)
      have hcap_k : 50 + 17 * (cells - k)
          + combBlobSumN p c ncn k (cells - k) < 4096 := by
        have hm := segCap_mono p c ncn L cells (k - L) (by omega)
        have he : L + (k - L) = k := by omega
        rw [he] at hm
        omega
      have hdec : cells - k = (cells - (k + 1)) + 1 := by omega
      have hdecomp : combBlobSumN p c ncn k (cells - k)
          = (8 + combLen p c ncn k)
            + combBlobSumN p c ncn (k + 1) (cells - (k + 1)) := by
        rw [hdec]
        rfl
      have hund : 8 + (combinedCell p c ncn k).content.length
          ≤ leafFreeEnd bsR := by
        rw [hcl, hfR]
        omega
      have hfssR : leafFreeStart bsR = 50 + (cells - (k + 1)) * 17 := by
        have h := hwfR.fss_eq
        rw [hH, hK, hcntR] at h
        exact h
      have hfit : leafFreeStart bsR + 17
          < leafFreeEnd bsR - (8 + (combinedCell p c ncn k).content.length) := by
        rw [hcl, hfssR, hfR]
        omega
      obtain ⟨heq, hwf2, hs2, hk2, hf2, _, hlow2⟩ :=
        insert_front pgR bsR (combinedCell p c ncn k) hwfR hsR hlt hidk
          (hbytes k hkc) hund hfit
      have hkR2 : leafKeys (leafInsertResultP bsR (combinedCell p c ncn k))
          = combKeysN p c ncn (max k L) (cells - max k L) := by
        rw [hmax0, hdec, combKeysN, hk2, hkR]
        rfl
      have hfR2 : leafFreeEnd (leafInsertResultP bsR (combinedCell p c ncn k))
          = 4096 - combBlobSumN p c ncn (max k L) (cells - max k L) := by
        rw [hmax0, hf2, hfR, hcl]
        omega
      rw [hmin1] at hkL hfL
      have hres := ih (by omega) bsL pgR
        (leafInsertResultP bsR (combinedCell p c ncn k)) hwfL hsL
        (by rw [hmin0]; exact hkL) (by rw [hmin0]; exact hfL)
        hwf2 hs2 hkR2 hfR2
      obtain ⟨BL, BR, hloop, hp1, hp2, hp3, hp4, hp5, hp6, hlowL, hlowR⟩ := hres
      refine ⟨BL, BR, ?_, hp1, hp2, hp3, hp4, hp5, hp6, hlowL, ?_⟩
      · have hstep : Node.splitLoop c ncn L (k + 1)
            (Node.mk p (some bsL) PageType.Leaf)
            (Node.mk pgR (some bsR) PageType.Leaf)
            = Node.splitLoop c ncn L k (Node.mk p (some bsL) PageType.Leaf)
              (Node.mk pgR
                (some (leafInsertResultP bsR (combinedCell p c ncn k)))
                PageType.Leaf) := by
          simp only [Node.splitLoop]
          rw [splitExtract_eq, if_pos hge, heq]
        rw [hstep, hloop]
      · intro i hi
        rw [hlowR i hi, hlow2 i hi]
    · have hmax1 : max (k + 1) L = L := by omega
      have hmax0 : max k L = L := by omega
      have hmin1 : min (k + 1) L = k + 1 := by omega
      have hmin0 : min k L = k := by omega
      rw [hmin1] at hkL hfL
      have hcntL : leafNumCells bsL = L - (k + 1) := by
        have h1 := leafKeys_length bsL
        rw [hkL, combKeysN_length] at h1
        omega
      have hlt : ∀ i, i < leafNumCells bsL →
          (combinedCell p c ncn k).identifier < leafKeyAt bsL i := by
        intro i hi
        have h1 := leafKeys_getD bsL i hi
        rw [hkL, combKeysN_getD p c ncn _ _ _ (by omega)] at h1
        rw [← h1]
        exact hsorted k (k + 1 + i) (by omega) (by omega)
      have hcap_k : 50 + 17 * (L - k) + combBlobSumN p c ncn k (L - k)
          < 4096 := by
        have hm := segCap_mono p c ncn 0 L k (by omega)
        have he : 0 + k = k := by omega
        rw [he, Nat.sub_zero] at hm
        omega
      have hdec : L - k = (L - (k + 1)) + 1 := by omega
      have hdecomp : combBlobSumN p c ncn k (L - k)
          = (8 + combLen p c ncn k)
            + combBlobSumN p c ncn (k + 1) (L - (k + 1)) := by
        rw [hdec]
        rfl
      have hund : 8 + (combinedCell p c ncn k).content.length
          ≤ leafFreeEnd bsL := by
        rw [hcl, hfL]
        omega
      have hfssL : leafFreeStart bsL = 50 + (L - (k + 1)) * 17 := by
        have h := hwfL.fss_eq
        rw [hH, hK, hcntL] at h
        exact h
      have hfit : leafFreeStart bsL + 17
          < leafFreeEnd bsL - (8 + (combinedCell p c ncn k).content.length) := by
        rw [hcl, hfssL, hfL]
        omega
      obtain ⟨heq, hwf2, hs2, hk2, hf2, _, hlow2⟩ :=
        insert_front p bsL (combinedCell p c ncn k) hwfL hsL hlt hidk
          (hbytes k hkc) hund hfit
      have hkL2 : leafKeys (leafInsertResultP bsL (combinedCell p c ncn k))
          = combKeysN p c ncn (min k L) (L - min k L) := by
        rw [hmin0, hdec, combKeysN, hk2, hkL]
        rfl
      have hfL2 : leafFreeEnd (leafInsertResultP bsL (combinedCell p c ncn k))
          = 4096 - combBlobSumN p c ncn (min k L) (L - min k L) := by
        rw [hmin0, hf2, hfL, hcl]
        omega
      rw [hmax1] at hkR hfR
      have hres := ih (by omega)
        (leafInsertResultP bsL (combinedCell p c ncn k)) pgR bsR
        hwf2 hs2 hkL2 hfL2 hwfR hsR
        (by rw [hmax0]; exact hkR) (by rw [hmax0]; exact hfR)
      obtain ⟨BL, BR, hloop, hp1, hp2, hp3, hp4, hp5, hp6, hlowL, hlowR⟩ := hres
      refine ⟨BL, BR, ?_, hp1, hp2, hp3, hp4, hp5, hp6, ?_, hlowR⟩
      · have hstep : Node.splitLoop c ncn L (k + 1)
            (Node.mk p (some bsL) PageType.Leaf)
            (Node.mk pgR (some bsR) PageType.Leaf)
            = Node.splitLoop c ncn L k
              (Node.mk p
                (some (leafInsertResultP bsL (combinedCell p c ncn k)))
                PageType.Leaf)
              (Node.mk pgR (some bsR) PageType.Leaf) := by
          simp only [Node.splitLoop]
          rw [splitExtract_eq, if_neg hge, heq]
        rw [hstep, hloop]
      · intro i hi
        rw [hlowL i hi, hlow2 i hi]

/-! Transferring leaf views between pages that agree on the `PAGE_SIZE`
window: the shadow-buffer snapshot (`pageCopy`) and the flush-back
(`writePageBytes`). -/

theorem rB_congr (b b' : Page) (hpt : ∀ i, i < PAGE_SIZE → b' i = b i)
    (a n : Nat) (hn : a + n ≤ PAGE_SIZE) : rB b' a n = rB b a n := by
  unfold rB
  refine List.map_congr_left ?_
  intro j hj
  rw [List.mem_range] at hj
  exact hpt (a + j) (by omega)

theorem rU64_congr (b b' : Page) (hpt : ∀ i, i < PAGE_SIZE → b' i = b i)
    (a : Nat) (ha : a + 8 ≤ PAGE_SIZE) : rU64 b' a = rU64 b a := by
  rw [rU64, rU64, rB_congr b b' hpt a 8 ha]

theorem pageCopy_pt (p : Page) : ∀ i, i < PAGE_SIZE → pageCopy p i = p i :=
  fun _ hi => if_pos hi

theorem writePageBytes_pt (d s : Page) :
    ∀ i, i < PAGE_SIZE → writePageBytes d s i = s i :=
  fun _ hi => if_pos hi

/-- Pages agreeing on the `PAGE_SIZE` window have the same leaf view. -/
theorem leafWF_congr (b b' : Page)
    (hpt : ∀ i, i < PAGE_SIZE → b' i = b i) (hwf : LeafWF b) :
    LeafWF b' ∧ leafNumCells b' = leafNumCells b ∧
    leafFreeStart b' = leafFreeStart b ∧ leafFreeEnd b' = leafFreeEnd b ∧
    leafKeys b' = leafKeys b ∧ (leafSorted b → leafSorted b') := by
  have hP : PAGE_SIZE = 4096 := rfl
  have hH : LEAF_HEADER_SIZE = 50 := rfl
  have hK : LEAF_KEY_CELL_SIZE = 17 := rfl
  have h8 : LEAF_CONTENT_LEN_SIZE = 8 := rfl
  have hnum : leafNumCells b' = leafNumCells b :=
    rU64_congr b b' hpt LEAF_NUM_KEYS_OFFSET (by decide)
  have hfss : leafFreeStart b' = leafFreeStart b :=
    rU64_congr b b' hpt LEAF_FREE_SPACE_START_OFFSET (by decide)
  have hfse : leafFreeEnd b' = leafFreeEnd b :=
    rU64_congr b b' hpt LEAF_FREE_SPACE_END_OFFSET (by decide)
  have hcnt17 : 50 + leafNumCells b * 17 ≤ 4096 := by
    have h1 := hwf.fss_eq
    have h2 := hwf.fs_le
    have h3 := hwf.fse_le
    rw [hH, hK] at h1
    rw [hP] at h3
    omega
  have hkey : ∀ i, i < leafNumCells b → leafKeyAt b' i = leafKeyAt b i := by
    intro i hi
    refine rU64_congr b b' hpt _ ?_
    have hs : leafSlotPos i = 50 + i * 17 := rfl
    have h1 : LEAF_KEY_INDENTIFIER_OFFSET = 1 := rfl
    rw [hs, h1, hP]
    omega
  have hptr : ∀ i, i < leafNumCells b → leafPtrAt b' i = leafPtrAt b i := by
    intro i hi
    refine rU64_congr b b' hpt _ ?_
    have hs : leafSlotPos i = 50 + i * 17 := rfl
    have h9 : LEAF_KEY_POINTER_OFFSET = 9 := rfl
    rw [hs, h9, hP]
    omega
  have hcl : ∀ i, i < leafNumCells b →
      leafContentLenAt b' i = leafContentLenAt b i := by
    intro i hi
    rw [leafContentLenAt, leafContentLenAt, hptr i hi]
    refine rU64_congr b b' hpt _ ?_
    have h := hwf.ptr_hi i hi
    rw [h8] at h
    omega
  refine ⟨⟨?_, ?_, ?_, ?_, ?_, ?_⟩, hnum, hfss, hfse, ?_, ?_⟩
  · intro i hi
    rw [hpt i hi]
    exact hwf.bytes_lt i hi
  · rw [hfss, hnum]
    exact hwf.fss_eq
  · rw [hfss, hfse]
    exact hwf.fs_le
  · rw [hfse]
    exact hwf.fse_le
  · intro i hi
    rw [hnum] at hi
    rw [hfse, hptr i hi]
    exact hwf.ptr_lo i hi
  · intro i hi
    rw [hnum] at hi
    rw [hptr i hi, hcl i hi]
    exact hwf.ptr_hi i hi
  · refine list_ext_getD _ _ ?_ ?_
    · rw [leafKeys_length, leafKeys_length, hnum]
    · intro j hj
      rw [leafKeys_length, hnum] at hj
      rw [leafKeys_getD _ _ (by rw [hnum]; exact hj), leafKeys_getD _ _ hj,
        hkey j hj]
  · intro hs i j hij hj
    rw [hnum] at hj
    rw [hkey i (by omega), hkey j hj]
    exact hs i j hij hj

/-- Rewriting the cell-count field with an encoded value: effect on the
leaf view. -/
theorem count_write_view (b : Page) (v : Nat) (hv : v < U64) :
    leafNumCells (wb b LEAF_NUM_KEYS_OFFSET (toBE v)) = v ∧
    leafFreeStart (wb b LEAF_NUM_KEYS_OFFSET (toBE v)) = leafFreeStart b ∧
    leafFreeEnd (wb b LEAF_NUM_KEYS_OFFSET (toBE v)) = leafFreeEnd b ∧
    (∀ i, leafKeyAt (wb b LEAF_NUM_KEYS_OFFSET (toBE v)) i = leafKeyAt b i) ∧
    (∀ i, leafPtrAt (wb b LEAF_NUM_KEYS_OFFSET (toBE v)) i = leafPtrAt b i) ∧
    (∀ a, 34 ≤ a → rU64 (wb b LEAF_NUM_KEYS_OFFSET (toBE v)) a = rU64 b a) ∧
    (∀ i, i < 26 → wb b LEAF_NUM_KEYS_OFFSET (toBE v) i = b i) := by
  have h26 : LEAF_NUM_KEYS_OFFSET = 26 := rfl
  refine ⟨rU64_wb_toBE_of_lt _ _ hv, ?_, ?_, ?_, ?_, ?_, ?_⟩
  · exact rU64_wb_disjoint _ _ _ _ (Or.inr (by rw [toBE_length]; decide))
  · exact rU64_wb_disjoint _ _ _ _ (Or.inr (by rw [toBE_length]; decide))
  · intro i
    refine rU64_wb_disjoint _ _ _ _ (Or.inr ?_)
    rw [toBE_length, h26]
    have hs : leafSlotPos i = 50 + i * 17 := rfl
    have h1 : LEAF_KEY_INDENTIFIER_OFFSET = 1 := rfl
    rw [hs, h1]
    omega
  · intro i
    refine rU64_wb_disjoint _ _ _ _ (Or.inr ?_)
    rw [toBE_length, h26]
    have hs : leafSlotPos i = 50 + i * 17 := rfl
    have h9 : LEAF_KEY_POINTER_OFFSET = 9 := rfl
    rw [hs, h9]
    omega
  · intro a ha
    refine rU64_wb_disjoint _ _ _ _ (Or.inr ?_)
    rw [toBE_length, h26]
    omega
  · intro i hi
    refine wb_apply_out _ _ _ _ (Or.inl ?_)
    rw [h26]
    omega

/-- Content bytes of a well-formed leaf's cell are real page bytes. -/
theorem leafContentAt_bytes_lt (p : Page) (hwf : LeafWF p) (j : Nat)
    (hj : j < leafNumCells p) : ∀ x ∈ leafContentAt p j, x < 256 := by
  intro x hx
  rw [leafContentAt] at hx
  simp only [rB, List.mem_map, List.mem_range] at hx
  obtain ⟨t, ht, rfl⟩ := hx
  refine hwf.bytes_lt _ ?_
  have h := hwf.ptr_hi j hj
  have h8 : LEAF_CONTENT_LEN_SIZE = 8 := rfl
  have hP : PAGE_SIZE = 4096 := rfl
  rw [h8, hP] at h ⊢
  omega

/-- The binary-search loop only reads live slots, so it is invariant under
changing bytes outside the `PAGE_SIZE` window. -/
theorem leafSearch_congr (b b' : Page)
    (hpt : ∀ i, i < PAGE_SIZE → b' i = b i)
    (hbound : 50 + leafNumCells b * 17 ≤ 4096) (key : Nat) :
    ∀ fuel a bnd, a ≤ bnd → bnd ≤ leafNumCells b →
      (mkLeafNode b').leafSearchLoop key fuel a bnd
        = (mkLeafNode b).leafSearchLoop key fuel a bnd := by
  intro fuel
  induction fuel with
  | zero => intro a bnd _ _; rfl
  | succ f ih =>
    intro a bnd hab hb
    simp only [Node.leafSearchLoop]
    by_cases h0 : a = bnd
    · rw [if_pos h0, if_pos h0]
    · rw [if_neg h0, if_neg h0]
      have hidx : (a + bnd) / 2 < leafNumCells b := by omega
      have hkey : (mkLeafNode b').get_cell_key
          ((mkLeafNode b').calculate_cell_position ((a + bnd) / 2)) true
          = (mkLeafNode b).get_cell_key
            ((mkLeafNode b).calculate_cell_position ((a + bnd) / 2)) true := by
        show cellKeyB (mkLeafNode b') ((a + bnd) / 2)
            = cellKeyB (mkLeafNode b) ((a + bnd) / 2)
        rw [cellKeyB_leaf _ rfl, cellKeyB_leaf _ rfl, activeP_mk_leaf,
          activeP_mk_leaf]
        refine rU64_congr b b' hpt _ ?_
        have hs : leafSlotPos ((a + bnd) / 2) = 50 + ((a + bnd) / 2) * 17 := rfl
        have h1 : LEAF_KEY_INDENTIFIER_OFFSET = 1 := rfl
        have hP : PAGE_SIZE = 4096 := rfl
        rw [hs, h1, hP]
        omega
      rw [hkey]
      by_cases h1 : key = (mkLeafNode b).get_cell_key
          ((mkLeafNode b).calculate_cell_position ((a + bnd) / 2)) true
      · rw [if_pos h1, if_pos h1]
      · rw [if_neg h1, if_neg h1]
        by_cases h2 : key < (mkLeafNode b).get_cell_key
            ((mkLeafNode b).calculate_cell_position ((a + bnd) / 2)) true
        · rw [if_pos h2, if_pos h2]
          exact ih a ((a + bnd) / 2) (by omega) (by omega)
        · rw [if_neg h2, if_neg h2]
          exact ih ((a + bnd) / 2 + 1) bnd (by omega) hb

/-- `find_cell_num` is invariant under changing bytes outside the
`PAGE_SIZE` window. -/
theorem find_cell_num_pg_congr (b b' : Page)
    (hpt : ∀ i, i < PAGE_SIZE → b' i = b i)
    (hbound : 50 + leafNumCells b * 17 ≤ 4096) (key : Nat) :
    (mkLeafNode b').find_cell_num key = (mkLeafNode b).find_cell_num key := by
  have hnum : leafNumCells b' = leafNumCells b :=
    rU64_congr b b' hpt LEAF_NUM_KEYS_OFFSET (by decide)
  show (mkLeafNode b').leafSearchLoop key ((mkLeafNode b').num_cells + 1) 0
      ((mkLeafNode b').num_cells)
    = (mkLeafNode b).leafSearchLoop key ((mkLeafNode b).num_cells + 1) 0
      ((mkLeafNode b).num_cells)
  have hnc : (mkLeafNode b').num_cells = (mkLeafNode b).num_cells := by
    show leafNumCells b' = leafNumCells b
    exact hnum
  rw [hnc]
  exact leafSearch_congr b b' hpt hbound key _ 0 (leafNumCells b)
    (by omega) (le_refl _)

theorem set_buffer_mk (pg : Page) (bf : Option Page) (ty : PageType) :
    Node.set_buffer (Node.mk pg bf ty) = Node.mk pg (some (pageCopy pg)) ty :=
  rfl

theorem flush_mkb (pg b : Page) (ty : PageType) :
    Node.flush_buffer (Node.mk pg (some b) ty)
      = Node.mk (writePageBytes pg b) none ty := rfl

theorem next_sibling_sentinel (PL : Page)
    (h : rU64 PL LEAF_NEXT_SIBLING_POINTER_OFFSET
      = LEAF_NEXT_SIBLING_POINTER_DEFAULT) :
    Node.next_sibling (Node.mk PL none PageType.Leaf) = none := by
  simp [Node.next_sibling, Node.read_u64_data, h]

theorem combKeysN_append (p : Page) (c : LeafCell) (ncn : Nat) :
    ∀ (m1 a m2 : Nat), combKeysN p c ncn a (m1 + m2)
      = combKeysN p c ncn a m1 ++ combKeysN p c ncn (a + m1) m2 := by
  intro m1
  induction m1 with
  | zero =>
    intro a m2
    simp [combKeysN]
  | succ m1 ih =>
    intro a m2
    have he : m1 + 1 + m2 = (m1 + m2) + 1 := by omega
    rw [he]
    simp only [combKeysN]
    rw [ih (a + 1) m2, List.cons_append]
    have he2 : a + 1 + m1 = a + (m1 + 1) := by omega
    rw [he2]

/-- Every member of a combined-key window is a combined key at some index
inside the window. -/
theorem combKeysN_mem (p : Page) (c : LeafCell) (ncn : Nat) :
    ∀ (m a x : Nat), x ∈ combKeysN p c ncn a m →
      ∃ t, t < m ∧ x = combKey p c ncn (a + t) := by
  intro m
  induction m with
  | zero =>
    intro a x hx
    exact absurd hx (List.not_mem_nil x)
  | succ m ih =>
    intro a x hx
    rw [combKeysN] at hx
    rcases List.mem_cons.mp hx with h | h
    · exact ⟨0, by omega, by rw [Nat.add_zero]; exact h⟩
    · obtain ⟨t, ht, he⟩ := ih (a + 1) x h
      refine ⟨t + 1, by omega, ?_⟩
      have h2 : a + (t + 1) = a + 1 + t := by omega
      rw [h2]
      exact he

/-- The combined key sequence of a sorted leaf plus one absent key is
strictly increasing. -/
theorem combKey_strict (p : Page) (c : LeafCell) (ncn : Nat)
    (hwf : LeafWF p) (hsort : leafSorted p) (hid : c.identifier < U64)
    (habs : ∀ i, i < leafNumCells p → leafKeyAt p i ≠ c.identifier)
    (hncn : ncn = (mkLeafNode p).find_cell_num c.identifier) :
    ∀ i j, i < j → j < leafNumCells p + 1 →
      combKey p c ncn i < combKey p c ncn j := by
  have hncn_le : ncn ≤ leafNumCells p := by
    rw [hncn]
    exact find_cell_num_le (mkLeafNode p) c.identifier
  have hkU : ∀ j, j < leafNumCells p → leafKeyAt p j < U64 := by
    intro j hj
    refine rU64_lt p _ ?_
    intro t ht
    refine hwf.bytes_lt _ ?_
    have h1 := hwf.fss_eq
    have h2 := hwf.fs_le
    have h3 := hwf.fse_le
    have hH : LEAF_HEADER_SIZE = 50 := rfl
    have hK : LEAF_KEY_CELL_SIZE = 17 := rfl
    have hP : PAGE_SIZE = 4096 := rfl
    rw [hH, hK] at h1
    rw [hP] at h3
    have hs : leafSlotPos j = 50 + j * 17 := rfl
    have h1o : LEAF_KEY_INDENTIFIER_OFFSET = 1 := rfl
    rw [hs, h1o, hP]
    omega
  have hckey : ∀ t, cellKeyB (mkLeafNode p) t = leafKeyAt p t := by
    intro t
    rw [cellKeyB_leaf (mkLeafNode p) rfl, activeP_mk_leaf]
  have habs2 := find_cell_num_leaf_absent (mkLeafNode p) c.identifier rfl
    (fun i j hij hj => by rw [hckey, hckey]; exact hsort i j hij hj)
    (fun i hi => by rw [hckey]; exact habs i hi)
  rw [← hncn] at habs2
  have hbelow : ∀ t, t < ncn → leafKeyAt p t < c.identifier := by
    intro t ht
    have h := habs2.1 t ht
    rwa [hckey] at h
  have habove : ∀ t, ncn ≤ t → t < leafNumCells p →
      c.identifier < leafKeyAt p t := by
    intro t h1 h2
    have h := habs2.2 t h1 h2
    rwa [hckey] at h
  have hcomb_val : ∀ i, i < leafNumCells p + 1 → combKey p c ncn i
      = (if i = ncn then c.identifier
         else leafKeyAt p (if i > ncn then i - 1 else i)) := by
    intro i hi
    rw [combKey, combinedCell]
    by_cases h : i = ncn
    · rw [if_pos h, if_pos h]
      exact Nat.mod_eq_of_lt hid
    · rw [if_neg h, if_neg h]
      show leafKeyAt p (if i > ncn then i - 1 else i) % U64
          = leafKeyAt p (if i > ncn then i - 1 else i)
      refine Nat.mod_eq_of_lt (hkU _ ?_)
      by_cases hg : i > ncn
      · rw [if_pos hg]; omega
      · rw [if_neg hg]; omega
  intro i j hij hj
  rw [hcomb_val i (by omega), hcomb_val j hj]
  by_cases hi2 : i = ncn
  · rw [if_pos hi2]
    by_cases hj2 : j = ncn
    · exfalso; omega
    · rw [if_neg hj2]
      have hgt : j > ncn := by omega
      rw [if_pos hgt]
      exact habove (j - 1) (by omega) (by omega)
  · rw [if_neg hi2]
    by_cases hj2 : j = ncn
    · rw [if_pos hj2]
      rw [if_neg (show ¬ i > ncn by omega)]
      exact hbelow i (by omega)
    · rw [if_neg hj2]
      by_cases hgi : i > ncn
      · rw [if_pos hgi, if_pos (show j > ncn by omega)]
        exact hsort (i - 1) (j - 1) (by omega) (by omega)
      · rw [if_neg hgi]
        by_cases hgj : j > ncn
        · rw [if_pos hgj]
          exact hsort i (j - 1) (by omega) (by omega)
        · rw [if_neg hgj]
          exact hsort i j hij (by omega)

/-- The full combined key sequence of a leaf plus one incoming cell is
exactly the page's key list with the new key inserted at the insertion
index. -/
theorem combKeysN_full (p : Page) (c : LeafCell) (ncn : Nat)
    (hwf : LeafWF p) (hid : c.identifier < U64)
    (hncn_le : ncn ≤ leafNumCells p) :
    combKeysN p c ncn 0 (leafNumCells p + 1)
      = insertAt (leafKeys p) ncn c.identifier := by
  have hkl : (leafKeys p).length = leafNumCells p := leafKeys_length p
  have hncn_le2 : ncn ≤ (leafKeys p).length := by omega
  have hkU : ∀ j, j < leafNumCells p → leafKeyAt p j < U64 := by
    intro j hj
    refine rU64_lt p _ ?_
    intro t ht
    refine hwf.bytes_lt _ ?_
    have h1 := hwf.fss_eq
    have h2 := hwf.fs_le
    have h3 := hwf.fse_le
    have hH : LEAF_HEADER_SIZE = 50 := rfl
    have hK : LEAF_KEY_CELL_SIZE = 17 := rfl
    have hP : PAGE_SIZE = 4096 := rfl
    rw [hH, hK] at h1
    rw [hP] at h3
    have hs : leafSlotPos j = 50 + j * 17 := rfl
    have h1o : LEAF_KEY_INDENTIFIER_OFFSET = 1 := rfl
    rw [hs, h1o, hP]
    omega
  refine list_ext_getD _ _ ?_ ?_
  · rw [combKeysN_length, insertAt_length _ _ _ hncn_le2, hkl]
  · intro j hj
    rw [combKeysN_length] at hj
    rw [combKeysN_getD p c ncn _ 0 j hj, Nat.zero_add, combKey, combinedCell]
    rcases Nat.lt_trichotomy j ncn with hlt | heq | hgt
    · rw [if_neg (by omega), insertAt_getD_lt _ _ _ _ hncn_le2 hlt,
        leafKeys_getD _ _ (by omega)]
      show leafKeyAt p (if j > ncn then j - 1 else j) % U64 = leafKeyAt p j
      rw [if_neg (by omega)]
      exact Nat.mod_eq_of_lt (hkU _ (by omega))
    · rw [if_pos heq, heq, insertAt_getD_eq _ _ _ hncn_le2]
      exact Nat.mod_eq_of_lt hid
    · rw [if_neg (by omega), insertAt_getD_gt _ _ _ _ hncn_le2 hgt (by omega),
        leafKeys_getD _ _ (by omega)]
      show leafKeyAt p (if j > ncn then j - 1 else j) % U64 = leafKeyAt p (j - 1)
      rw [if_pos hgt]
      exact Nat.mod_eq_of_lt (hkU _ (by omega))

/-- One split-loop iteration whose index belongs to the right node and
whose insertion succeeds. -/
theorem splitLoop_step_right_ok (cc : LeafCell) (ncn L k : Nat)
    (sN nN nN2 : Node) (hk : k ≥ L)
    (hins : nN.insert_leaf_cell (sN.splitExtract cc ncn k)
      = (Except.ok (), nN2)) :
    Node.splitLoop cc ncn L (k + 1) sN nN
      = Node.splitLoop cc ncn L k sN nN2 := by
  simp only [Node.splitLoop, if_pos hk, hins]

/-- One split-loop iteration whose index belongs to the left node and
whose insertion fails, aborting the loop. -/
theorem splitLoop_step_left_err (cc : LeafCell) (ncn L k : Nat)
    (sN nN sN2 : Node) (e : NodeResult) (hk : ¬ k ≥ L)
    (hins : sN.insert_leaf_cell (sN.splitExtract cc ncn k)
      = (Except.error e, sN2)) :
    Node.splitLoop cc ncn L (k + 1) sN nN
      = (Except.error e, sN2, nN) := by
  simp only [Node.splitLoop, if_neg hk, hins]

/-- Successful leaf split: under the fresh-sibling and per-half capacity
side conditions, `Node::split` on a well-formed sorted leaf with an absent
key flushes both buffers and redistributes the combined cells, the left
page keeping the `L` smallest keys and the right page the rest. -/
theorem split_leaf_ok (p q : Page) (c : LeafCell) (ncn L R cells : Nat)
    (hncn : ncn = (mkLeafNode p).find_cell_num c.identifier)
    (hcells : cells = leafNumCells p + 1)
    (hR : R = cells / 2)
    (hL : L = cells - R)
    (hwf : LeafWF p) (hsort : leafSorted p)
    (hkind : p PAGE_TYPE_OFFSET = 10)
    (hsib : rU64 p LEAF_NEXT_SIBLING_POINTER_OFFSET
      = LEAF_NEXT_SIBLING_POINTER_DEFAULT)
    (hid : c.identifier < U64)
    (habs : ∀ i, i < leafNumCells p → leafKeyAt p i ≠ c.identifier)
    (hcb : ∀ x ∈ c.content, x < 256)
    (hqwf : LeafWF q) (hq0 : leafNumCells q = 0) (hqe : leafFreeEnd q = 4096)
    (hcapL : 50 + 17 * L + combBlobSumN p c ncn 0 L < 4096)
    (hcapR : 50 + 17 * (cells - L) + combBlobSumN p c ncn L (cells - L)
      < 4096) :
    ∃ PL PR,
      Node.split (mkLeafNode p) (mkLeafNode q) c
        = some (Except.ok (), Node.mk PL none PageType.Leaf,
            Node.mk PR none PageType.Leaf) ∧
      LeafWF PL ∧ leafSorted PL ∧ leafKeys PL = combKeysN p c ncn 0 L ∧
      leafNumCells PL = L ∧
      LeafWF PR ∧ leafSorted PR ∧
      leafKeys PR = combKeysN p c ncn L (cells - L) ∧
      leafNumCells PR = cells - L := by
  have h4096 : (4096 : Nat) < U64 := by norm_num [U64]
  have hH : LEAF_HEADER_SIZE = 50 := rfl
  have hK : LEAF_KEY_CELL_SIZE = 17 := rfl
  have hP : PAGE_SIZE = 4096 := rfl
  have h1off : LEAF_KEY_INDENTIFIER_OFFSET = 1 := rfl
  have hcnt17 : 50 + leafNumCells p * 17 ≤ 4096 := by
    have h1 := hwf.fss_eq
    have h2 := hwf.fs_le
    have h3 := hwf.fse_le
    rw [hH, hK] at h1
    rw [hP] at h3
    omega
  have hncn_le : ncn ≤ leafNumCells p := by
    rw [hncn]
    exact find_cell_num_le (mkLeafNode p) c.identifier
  have hkU : ∀ j, j < leafNumCells p → leafKeyAt p j < U64 := by
    intro j hj
    refine rU64_lt p _ ?_
    intro t ht
    refine hwf.bytes_lt _ ?_
    have hs : leafSlotPos j = 50 + j * 17 := rfl
    rw [hs, h1off, hP]
    omega
  have hckey : ∀ t, cellKeyB (mkLeafNode p) t = leafKeyAt p t := by
    intro t
    rw [cellKeyB_leaf (mkLeafNode p) rfl, activeP_mk_leaf]
  have habs2 := find_cell_num_leaf_absent (mkLeafNode p) c.identifier rfl
    (fun i j hij hj => by rw [hckey, hckey]; exact hsort i j hij hj)
    (fun i hi => by rw [hckey]; exact habs i hi)
  rw [← hncn] at habs2
  have hbelow : ∀ t, t < ncn → leafKeyAt p t < c.identifier := by
    intro t ht
    have h := habs2.1 t ht
    rwa [hckey] at h
  have habove : ∀ t, ncn ≤ t → t < leafNumCells p →
      c.identifier < leafKeyAt p t := by
    intro t h1 h2
    have h := habs2.2 t h1 h2
    rwa [hckey] at h
  have hcomb_val : ∀ i, i < cells → combKey p c ncn i
      = (if i = ncn then c.identifier
         else leafKeyAt p (if i > ncn then i - 1 else i)) := by
    intro i hi
    rw [combKey, combinedCell]
    by_cases h : i = ncn
    · rw [if_pos h, if_pos h]
      exact Nat.mod_eq_of_lt hid
    · rw [if_neg h, if_neg h]
      show leafKeyAt p (if i > ncn then i - 1 else i) % U64
          = leafKeyAt p (if i > ncn then i - 1 else i)
      refine Nat.mod_eq_of_lt (hkU _ ?_)
      by_cases hg : i > ncn
      · rw [if_pos hg]; omega
      · rw [if_neg hg]; omega
  have hcomb_sorted : ∀ i j, i < j → j < cells →
      combKey p c ncn i < combKey p c ncn j := by
    intro i j hij hj
    rw [hcomb_val i (by omega), hcomb_val j hj]
    by_cases hi2 : i = ncn
    · rw [if_pos hi2]
      by_cases hj2 : j = ncn
      · exfalso; omega
      · rw [if_neg hj2]
        have hgt : j > ncn := by omega
        rw [if_pos hgt]
        exact habove (j - 1) (by omega) (by omega)
    · rw [if_neg hi2]
      by_cases hj2 : j = ncn
      · rw [if_pos hj2]
        rw [if_neg (show ¬ i > ncn by omega)]
        exact hbelow i (by omega)
      · rw [if_neg hj2]
        by_cases hgi : i > ncn
        · rw [if_pos hgi, if_pos (show j > ncn by omega)]
          exact hsort (i - 1) (j - 1) (by omega) (by omega)
        · rw [if_neg hgi]
          by_cases hgj : j > ncn
          · rw [if_pos hgj]
            exact hsort i (j - 1) (by omega) (by omega)
          · rw [if_neg hgj]
            exact hsort i j hij (by omega)
  have hcomb_content : ∀ i, (combinedCell p c ncn i).content
      = (if i = ncn then c.content
         else leafContentAt p (if i > ncn then i - 1 else i)) := by
    intro i
    rw [combinedCell]
    by_cases h : i = ncn
    · rw [if_pos h, if_pos h]
    · rw [if_neg h, if_neg h]
  have hbytesC : ∀ i, i < cells →
      ∀ x ∈ (combinedCell p c ncn i).content, x < 256 := by
    intro i hi x hx
    rw [hcomb_content] at hx
    by_cases h : i = ncn
    · rw [if_pos h] at hx
      exact hcb x hx
    · rw [if_neg h] at hx
      have hjlt : (if i > ncn then i - 1 else i) < leafNumCells p := by
        by_cases hg : i > ncn
        · rw [if_pos hg]; omega
        · rw [if_neg hg]; omega
      exact leafContentAt_bytes_lt p hwf _ hjlt x hx
  -- node-level preliminary facts
  have hnt : (Node.mk p (some (pageCopy p)) PageType.Leaf).node_type
      = some PageType.Leaf := by
    rw [Node.node_type, mkb_read_var_false]
    have h01 : (0 : Nat) < PAGE_TYPE_SIZE := by decide
    rw [rB_getD _ _ _ _ h01]
    have he : PAGE_TYPE_OFFSET + 0 = PAGE_TYPE_OFFSET := rfl
    rw [he, hkind]
    rfl
  have hc1 : (Node.mk p (some (pageCopy p)) PageType.Leaf).num_cells
      = leafNumCells p := by
    rw [mkb_num_cells_leaf]
    exact rU64_congr p (pageCopy p) (pageCopy_pt p) LEAF_NUM_KEYS_OFFSET
      (by decide)
  have hfind : (Node.mk p (some (pageCopy p)) PageType.Leaf).find_cell_num
      c.identifier = ncn := by
    rw [mkb_find_leaf, hncn]
    exact find_cell_num_pg_congr p (pageCopy p) (pageCopy_pt p) hcnt17
      c.identifier
  -- initial left reset buffer
  have hmin : min cells L = L := by omega
  have hmax : max cells L = cells := by omega
  have hL0count : leafNumCells (wb (wb (wb (pageCopy p)
      LEAF_FREE_SPACE_START_OFFSET (toBE LEAF_HEADER_SIZE))
      LEAF_FREE_SPACE_END_OFFSET (toBE PAGE_SIZE))
      LEAF_NUM_KEYS_OFFSET (toBE 0)) = 0 :=
    rU64_wb_toBE_of_lt _ _ (by norm_num [U64])
  have hL0fss : leafFreeStart (wb (wb (wb (pageCopy p)
      LEAF_FREE_SPACE_START_OFFSET (toBE LEAF_HEADER_SIZE))
      LEAF_FREE_SPACE_END_OFFSET (toBE PAGE_SIZE))
      LEAF_NUM_KEYS_OFFSET (toBE 0)) = 50 := by
    show rU64 _ LEAF_FREE_SPACE_START_OFFSET = 50
    refine Eq.trans (rU64_wb_disjoint _ _ _ _ (Or.inr ?_)) ?_
    · rw [toBE_length]; decide
    refine Eq.trans (rU64_wb_disjoint _ _ _ _ (Or.inl ?_)) ?_
    · decide
    exact rU64_wb_toBE_of_lt _ _ (by decide)
  have hL0fse : leafFreeEnd (wb (wb (wb (pageCopy p)
      LEAF_FREE_SPACE_START_OFFSET (toBE LEAF_HEADER_SIZE))
      LEAF_FREE_SPACE_END_OFFSET (toBE PAGE_SIZE))
      LEAF_NUM_KEYS_OFFSET (toBE 0)) = 4096 := by
    show rU64 _ LEAF_FREE_SPACE_END_OFFSET = 4096
    refine Eq.trans (rU64_wb_disjoint _ _ _ _ (Or.inr ?_)) ?_
    · rw [toBE_length]; decide
    exact rU64_wb_toBE_of_lt _ _ (by decide)
  have hL0wf : LeafWF (wb (wb (wb (pageCopy p)
      LEAF_FREE_SPACE_START_OFFSET (toBE LEAF_HEADER_SIZE))
      LEAF_FREE_SPACE_END_OFFSET (toBE PAGE_SIZE))
      LEAF_NUM_KEYS_OFFSET (toBE 0)) := by
    constructor
    · refine wb_bytes_lt _ _ _ (toBE_all_lt _) ?_
      refine wb_bytes_lt _ _ _ (toBE_all_lt _) ?_
      refine wb_bytes_lt _ _ _ (toBE_all_lt _) ?_
      intro i hi
      rw [pageCopy_pt p i hi]
      exact hwf.bytes_lt i hi
    · rw [hL0fss, hL0count]
      decide
    · rw [hL0fss, hL0fse]
      decide
    · rw [hL0fse]
      decide
    · intro i hi
      rw [hL0count] at hi
      omega
    · intro i hi
      rw [hL0count] at hi
      omega
  have hL0sort : leafSorted (wb (wb (wb (pageCopy p)
      LEAF_FREE_SPACE_START_OFFSET (toBE LEAF_HEADER_SIZE))
      LEAF_FREE_SPACE_END_OFFSET (toBE PAGE_SIZE))
      LEAF_NUM_KEYS_OFFSET (toBE 0)) := by
    intro i j hij hj
    rw [hL0count] at hj
    omega
  have hL0keys : leafKeys (wb (wb (wb (pageCopy p)
      LEAF_FREE_SPACE_START_OFFSET (toBE LEAF_HEADER_SIZE))
      LEAF_FREE_SPACE_END_OFFSET (toBE PAGE_SIZE))
      LEAF_NUM_KEYS_OFFSET (toBE 0)) = [] := by
    rw [leafKeys, hL0count]
    rfl
  -- initial right buffer
  obtain ⟨hqwf2, hqn2, _, hqe2, hqk2, hqsort2⟩ :=
    leafWF_congr q (pageCopy q) (pageCopy_pt q) hqwf
  have hqkeys : leafKeys q = [] := by
    rw [leafKeys, hq0]
    rfl
  have hqsorted : leafSorted q := by
    intro i j hij hj
    rw [hq0] at hj
    omega
  -- the loop
  have hLc : L ≤ cells := by omega
  obtain ⟨BL, BR, hloopeq, hBLwf, hBLsort, hBLkeys, hBRwf, hBRsort, hBRkeys,
      hlowL, hlowR⟩ :=
    splitLoop_ok p c ncn L cells hLc hcomb_sorted hbytesC hcapL hcapR
      cells (le_refl _)
      (wb (wb (wb (pageCopy p) LEAF_FREE_SPACE_START_OFFSET
        (toBE LEAF_HEADER_SIZE)) LEAF_FREE_SPACE_END_OFFSET (toBE PAGE_SIZE))
        LEAF_NUM_KEYS_OFFSET (toBE 0))
      q (pageCopy q)
      hL0wf hL0sort
      (by rw [hL0keys, hmin, Nat.sub_self]; rfl)
      (by rw [hL0fse, hmin, Nat.sub_self]; rfl)
      hqwf2 (hqsort2 hqsorted)
      (by rw [hqk2, hqkeys, hmax, Nat.sub_self]; rfl)
      (by rw [hqe2, hqe, hmax, Nat.sub_self]; rfl)
  have hBLcnt : leafNumCells BL = L := by
    have h := leafKeys_length BL
    rw [hBLkeys, combKeysN_length] at h
    omega
  have hBRcnt : leafNumCells BR = cells - L := by
    have h := leafKeys_length BR
    rw [hBRkeys, combKeysN_length] at h
    omega
  have hLU : L < U64 := by omega
  have hRU : R < U64 := by omega
  obtain ⟨hc2cnt, hc2fss, hc2fse, hc2key, hc2ptr, hc2hi, hc2low⟩ :=
    count_write_view BL L hLU
  obtain ⟨hd2cnt, hd2fss, hd2fse, hd2key, hd2ptr, hd2hi, hd2low⟩ :=
    count_write_view BR R hRU
  have hBL2wf : LeafWF (wb BL LEAF_NUM_KEYS_OFFSET (toBE L)) := by
    constructor
    · exact wb_bytes_lt _ _ _ (toBE_all_lt _) hBLwf.bytes_lt
    · rw [hc2fss, hc2cnt, hBLwf.fss_eq, hBLcnt]
    · rw [hc2fss, hc2fse]
      exact hBLwf.fs_le
    · rw [hc2fse]
      exact hBLwf.fse_le
    · intro i hi
      rw [hc2cnt] at hi
      rw [hc2fse, hc2ptr]
      exact hBLwf.ptr_lo i (by rw [hBLcnt]; exact hi)
    · intro i hi
      rw [hc2cnt] at hi
      have hi2 : i < leafNumCells BL := by rw [hBLcnt]; exact hi
      have hcl2 : leafContentLenAt (wb BL LEAF_NUM_KEYS_OFFSET (toBE L)) i
          = leafContentLenAt BL i := by
        rw [leafContentLenAt, leafContentLenAt, hc2ptr]
        refine hc2hi _ ?_
        have h1 := hBLwf.ptr_lo i hi2
        have h2 := hBLwf.fs_le
        have h3 := hBLwf.fss_eq
        rw [hH, hK] at h3
        omega
      rw [hc2ptr, hcl2]
      exact hBLwf.ptr_hi i hi2
  have hBR2wf : LeafWF (wb BR LEAF_NUM_KEYS_OFFSET (toBE R)) := by
    have hRL : R = cells - L := by omega
    constructor
    · exact wb_bytes_lt _ _ _ (toBE_all_lt _) hBRwf.bytes_lt
    · rw [hd2fss, hd2cnt, hBRwf.fss_eq, hBRcnt, hRL]
    · rw [hd2fss, hd2fse]
      exact hBRwf.fs_le
    · rw [hd2fse]
      exact hBRwf.fse_le
    · intro i hi
      rw [hd2cnt] at hi
      rw [hd2fse, hd2ptr]
      exact hBRwf.ptr_lo i (by rw [hBRcnt]; omega)
    · intro i hi
      rw [hd2cnt] at hi
      have hi2 : i < leafNumCells BR := by rw [hBRcnt]; omega
      have hcl2 : leafContentLenAt (wb BR LEAF_NUM_KEYS_OFFSET (toBE R)) i
          = leafContentLenAt BR i := by
        rw [leafContentLenAt, leafContentLenAt, hd2ptr]
        refine hd2hi _ ?_
        have h1 := hBRwf.ptr_lo i hi2
        have h2 := hBRwf.fs_le
        have h3 := hBRwf.fss_eq
        rw [hH, hK] at h3
        omega
      rw [hd2ptr, hcl2]
      exact hBRwf.ptr_hi i hi2
  have hBL2keys : leafKeys (wb BL LEAF_NUM_KEYS_OFFSET (toBE L))
      = leafKeys BL := by
    refine list_ext_getD _ _ ?_ ?_
    · rw [leafKeys_length, leafKeys_length, hc2cnt, hBLcnt]
    · intro j hj
      rw [leafKeys_length, hc2cnt] at hj
      rw [leafKeys_getD _ _ (by rw [hc2cnt]; exact hj),
        leafKeys_getD _ _ (by rw [hBLcnt]; exact hj), hc2key]
  have hBR2keys : leafKeys (wb BR LEAF_NUM_KEYS_OFFSET (toBE R))
      = leafKeys BR := by
    refine list_ext_getD _ _ ?_ ?_
    · rw [leafKeys_length, leafKeys_length, hd2cnt, hBRcnt]
      omega
    · intro j hj
      rw [leafKeys_length, hd2cnt] at hj
      rw [leafKeys_getD _ _ (by rw [hd2cnt]; exact hj),
        leafKeys_getD _ _ (by rw [hBRcnt]; omega), hd2key]
  have hBL2sort : leafSorted (wb BL LEAF_NUM_KEYS_OFFSET (toBE L)) := by
    intro i j hij hj
    rw [hc2cnt] at hj
    rw [hc2key, hc2key]
    exact hBLsort i j hij (by rw [hBLcnt]; exact hj)
  have hBR2sort : leafSorted (wb BR LEAF_NUM_KEYS_OFFSET (toBE R)) := by
    intro i j hij hj
    rw [hd2cnt] at hj
    rw [hd2key, hd2key]
    exact hBRsort i j hij (by rw [hBRcnt]; omega)
  -- split_leaf_node equation
  have hsln : (Node.mk p (some (pageCopy p)) PageType.Leaf).split_leaf_node
      (Node.mk q (some (pageCopy q)) PageType.Leaf) c
      = (Except.ok (),
          Node.mk p (some (wb BL LEAF_NUM_KEYS_OFFSET (toBE L)))
            PageType.Leaf,
          Node.mk q (some (wb BR LEAF_NUM_KEYS_OFFSET (toBE R)))
            PageType.Leaf) := by
    simp only [Node.split_leaf_node, leafCell_get_key, mkb_write, hc1, hfind]
    rw [← hcells, ← hR, ← hL, hloopeq]
    rfl
  -- flush and sibling
  have hPLsib : rU64 (writePageBytes p (wb BL LEAF_NUM_KEYS_OFFSET (toBE L)))
      LEAF_NEXT_SIBLING_POINTER_OFFSET = LEAF_NEXT_SIBLING_POINTER_DEFAULT := by
    have e1 : rU64 (writePageBytes p (wb BL LEAF_NUM_KEYS_OFFSET (toBE L)))
        LEAF_NEXT_SIBLING_POINTER_OFFSET
        = rU64 (wb BL LEAF_NUM_KEYS_OFFSET (toBE L))
          LEAF_NEXT_SIBLING_POINTER_OFFSET :=
      rU64_congr _ _ (writePageBytes_pt _ _) _ (by decide)
    have e2 : rU64 (wb BL LEAF_NUM_KEYS_OFFSET (toBE L))
        LEAF_NEXT_SIBLING_POINTER_OFFSET
        = rU64 BL LEAF_NEXT_SIBLING_POINTER_OFFSET :=
      rU64_wb_disjoint _ _ _ _ (Or.inl (by decide))
    have e3 : rU64 BL LEAF_NEXT_SIBLING_POINTER_OFFSET
        = rU64 (wb (wb (wb (pageCopy p) LEAF_FREE_SPACE_START_OFFSET
            (toBE LEAF_HEADER_SIZE)) LEAF_FREE_SPACE_END_OFFSET
            (toBE PAGE_SIZE)) LEAF_NUM_KEYS_OFFSET (toBE 0))
          LEAF_NEXT_SIBLING_POINTER_OFFSET := by
      rw [rU64, rU64]
      refine congrArg fromBE ?_
      unfold rB
      refine List.map_congr_left ?_
      intro t ht
      rw [List.mem_range] at ht
      refine hlowL _ ?_
      have h18 : LEAF_NEXT_SIBLING_POINTER_OFFSET = 18 := rfl
      rw [h18]
      omega
    have e4 : rU64 (wb (wb (wb (pageCopy p) LEAF_FREE_SPACE_START_OFFSET
        (toBE LEAF_HEADER_SIZE)) LEAF_FREE_SPACE_END_OFFSET (toBE PAGE_SIZE))
        LEAF_NUM_KEYS_OFFSET (toBE 0)) LEAF_NEXT_SIBLING_POINTER_OFFSET
        = rU64 p LEAF_NEXT_SIBLING_POINTER_OFFSET := by
      refine Eq.trans (rU64_wb_disjoint _ _ _ _ (Or.inl (by decide))) ?_
      refine Eq.trans (rU64_wb_disjoint _ _ _ _ (Or.inl (by decide))) ?_
      refine Eq.trans (rU64_wb_disjoint _ _ _ _ (Or.inl (by decide))) ?_
      exact rU64_congr p (pageCopy p) (pageCopy_pt p) _ (by decide)
    rw [e1, e2, e3, e4, hsib]
  have hns := next_sibling_sentinel
    (writePageBytes p (wb BL LEAF_NUM_KEYS_OFFSET (toBE L))) hPLsib
  -- final page views
  obtain ⟨hPLwf, hPLn, _, _, hPLkeys, hPLsortf⟩ :=
    leafWF_congr (wb BL LEAF_NUM_KEYS_OFFSET (toBE L))
      (writePageBytes p (wb BL LEAF_NUM_KEYS_OFFSET (toBE L)))
      (writePageBytes_pt _ _) hBL2wf
  obtain ⟨hPRwf, hPRn, _, _, hPRkeys, hPRsortf⟩ :=
    leafWF_congr (wb BR LEAF_NUM_KEYS_OFFSET (toBE R))
      (writePageBytes q (wb BR LEAF_NUM_KEYS_OFFSET (toBE R)))
      (writePageBytes_pt _ _) hBR2wf
  refine ⟨writePageBytes p (wb BL LEAF_NUM_KEYS_OFFSET (toBE L)),
    writePageBytes q (wb BR LEAF_NUM_KEYS_OFFSET (toBE R)),
    ?_, hPLwf, hPLsortf hBL2sort, ?_, ?_, hPRwf, hPRsortf hBR2sort, ?_, ?_⟩
  · simp only [Node.split, mkLeafNode, set_buffer_mk, hnt, hsln, flush_mkb,
      hns]
  · rw [hPLkeys, hBL2keys, hBLkeys]
  · rw [hPLn, hc2cnt]
  · rw [hPRkeys, hBR2keys, hBRkeys]
  · rw [hPRn, hd2cnt]
    omega

/-- The working invariant `LeafWF` implies the claimed predicate `LeafP`. -/
theorem leafWF_leafP (p : Page) (hwf : LeafWF p) : LeafP p := by
  constructor
  · exact hwf.fs_le
  · rw [hwf.fss_eq]
    have hH : LEAF_HEADER_SIZE = 50 := rfl
    have hK : LEAF_KEY_CELL_SIZE = 17 := rfl
    rw [hH, hK]
    have h1 : 50 + leafNumCells p * 17 - 50 = leafNumCells p * 17 := by omega
    rw [h1, Nat.mul_div_cancel _ (by norm_num : 0 < 17)]
  · intro i hi
    refine ⟨hwf.ptr_lo i hi, ?_⟩
    have h := hwf.ptr_hi i hi
    have hC : LEAF_CONTENT_LEN_SIZE = 8 := rfl
    rw [hC] at h
    omega

/-- A buffered leaf node over a page whose kind byte is `0x0A` reads its
node type as `Leaf`. -/
theorem node_type_leaf_of_kind (pg b : Page)
    (hkind : pg PAGE_TYPE_OFFSET = 10) :
    (Node.mk pg (some b) PageType.Leaf).node_type = some PageType.Leaf := by
  rw [Node.node_type, mkb_read_var_false]
  have h01 : (0 : Nat) < PAGE_TYPE_SIZE := by decide
  rw [rB_getD _ _ _ _ h01]
  have he : PAGE_TYPE_OFFSET + 0 = PAGE_TYPE_OFFSET := rfl
  rw [he, hkind]
  rfl

/-- One split-loop iteration whose index belongs to the right node and
whose insertion fails, aborting the loop. -/
theorem splitLoop_step_right_err (cc : LeafCell) (ncn L k : Nat)
    (sN nN nN2 : Node) (e : NodeResult) (hk : k ≥ L)
    (hins : nN.insert_leaf_cell (sN.splitExtract cc ncn k)
      = (Except.error e, nN2)) :
    Node.splitLoop cc ncn L (k + 1) sN nN = (Except.error e, sN, nN2) := by
  simp only [Node.splitLoop, if_pos hk, hins]

/-- One split-loop iteration whose index belongs to the left node and
whose insertion succeeds. -/
theorem splitLoop_step_left_ok (cc : LeafCell) (ncn L k : Nat)
    (sN nN sN2 : Node) (hk : ¬ k ≥ L)
    (hins : sN.insert_leaf_cell (sN.splitExtract cc ncn k)
      = (Except.ok (), sN2)) :
    Node.splitLoop cc ncn L (k + 1) sN nN
      = Node.splitLoop cc ncn L k sN2 nN := by
  simp only [Node.splitLoop, if_neg hk, hins]

/-- `insert_leaf_cell` on a buffered leaf node keeps the page and only
rewrites the shadow buffer. -/
theorem insert_leaf_cell_mkb_shape (pg b : Page) (c : LeafCell) :
    ∃ r b2, Node.insert_leaf_cell (Node.mk pg (some b) PageType.Leaf) c
      = (r, Node.mk pg (some b2) PageType.Leaf) := by
  by_cases hg : leafFreeStart (activeP (Node.mk pg (some b) PageType.Leaf))
      + LEAF_KEY_CELL_SIZE
      ≥ sub64 (leafFreeEnd (activeP (Node.mk pg (some b) PageType.Leaf)))
        (toBE c.content.length ++ c.content).length
  · exact ⟨Except.error (NodeResult.HasOverflow []), b,
      insert_leaf_cell_overflow_eq _ _ rfl hg⟩
  · refine ⟨Except.ok (), leafInsertResultP b c, ?_⟩
    rw [insert_leaf_cell_ok_eq _ _ rfl hg, activeP_mk_some, mkb_setA]

/-- The split loop keeps both pages and node kinds, rewriting only the
shadow buffers. -/
theorem splitLoop_mkb_pages (cc : LeafCell) (ncn L : Nat) :
    ∀ (k : Nat) (pg1 b1 pg2 b2 : Page), ∃ r c1 c2,
      Node.splitLoop cc ncn L k (Node.mk pg1 (some b1) PageType.Leaf)
        (Node.mk pg2 (some b2) PageType.Leaf)
      = (r, Node.mk pg1 (some c1) PageType.Leaf,
          Node.mk pg2 (some c2) PageType.Leaf) := by
  intro k
  induction k with
  | zero =>
    intro pg1 b1 pg2 b2
    exact ⟨Except.ok (), b1, b2, rfl⟩
  | succ k ih =>
    intro pg1 b1 pg2 b2
    by_cases hk : k ≥ L
    · obtain ⟨r, c2, heq⟩ := insert_leaf_cell_mkb_shape pg2 b2
        ((Node.mk pg1 (some b1) PageType.Leaf).splitExtract cc ncn k)
      cases r with
      | error e =>
        exact ⟨Except.error e, b1, c2,
          splitLoop_step_right_err cc ncn L k _ _ _ e hk heq⟩
      | ok u =>
        cases u
        obtain ⟨r2, c1, c2b, heq2⟩ := ih pg1 b1 pg2 c2
        refine ⟨r2, c1, c2b, ?_⟩
        rw [splitLoop_step_right_ok cc ncn L k _ _ _ hk heq]
        exact heq2
    · obtain ⟨r, c1, heq⟩ := insert_leaf_cell_mkb_shape pg1 b1
        ((Node.mk pg1 (some b1) PageType.Leaf).splitExtract cc ncn k)
      cases r with
      | error e =>
        exact ⟨Except.error e, c1, b2,
          splitLoop_step_left_err cc ncn L k _ _ _ e hk heq⟩
      | ok u =>
        cases u
        obtain ⟨r2, c1b, c2, heq2⟩ := ih pg1 c1 pg2 b2
        refine ⟨r2, c1b, c2, ?_⟩
        rw [splitLoop_step_left_ok cc ncn L k _ _ _ hk heq]
        exact heq2

/-- A `split` call on leaf-kind nodes that returns an error drops both
shadow buffers: both returned nodes carry the unchanged original pages. -/
theorem split_error_pages (p q : Page) (c : LeafCell) (e : NodeResult)
    (s nn : Node) (hkind : p PAGE_TYPE_OFFSET = 10)
    (heq : Node.split (mkLeafNode p) (mkLeafNode q) c
      = some (Except.error e, s, nn)) :
    s = Node.mk p none PageType.Leaf ∧ nn = Node.mk q none PageType.Leaf := by
  have hnt := node_type_leaf_of_kind p (pageCopy p) hkind
  obtain ⟨r, B1, B2, hloopeq⟩ := splitLoop_mkb_pages c
    ((Node.mk p (some (pageCopy p)) PageType.Leaf).find_cell_num
      (Cell.get_key c))
    (((Node.mk p (some (pageCopy p)) PageType.Leaf).num_cells + 1)
      - ((Node.mk p (some (pageCopy p)) PageType.Leaf).num_cells + 1) / 2)
    ((Node.mk p (some (pageCopy p)) PageType.Leaf).num_cells + 1)
    p (wb (wb (wb (pageCopy p) LEAF_FREE_SPACE_START_OFFSET
        (toBE LEAF_HEADER_SIZE)) LEAF_FREE_SPACE_END_OFFSET (toBE PAGE_SIZE))
      LEAF_NUM_KEYS_OFFSET (toBE 0))
    q (pageCopy q)
  cases r with
  | error e2 =>
    have hsln : (Node.mk p (some (pageCopy p)) PageType.Leaf).split_leaf_node
        (Node.mk q (some (pageCopy q)) PageType.Leaf) c
        = (Except.error e2, Node.mk p (some B1) PageType.Leaf,
           Node.mk q (some B2) PageType.Leaf) := by
      simp only [Node.split_leaf_node, mkb_write]
      rw [hloopeq]
    have hs : Node.split (mkLeafNode p) (mkLeafNode q) c
        = some (Except.error e2, Node.mk p none PageType.Leaf,
            Node.mk q none PageType.Leaf) := by
      simp only [Node.split, mkLeafNode, set_buffer_mk, hnt, hsln]
    rw [hs] at heq
    simp only [Option.some.injEq, Prod.mk.injEq] at heq
    exact ⟨heq.2.1.symm, heq.2.2.symm⟩
  | ok u =>
    cases u
    have hsln2 : (Node.mk p (some (pageCopy p))
        PageType.Leaf).split_leaf_node
        (Node.mk q (some (pageCopy q)) PageType.Leaf) c
        = (Except.ok (),
           Node.mk p (some (wb B1 LEAF_NUM_KEYS_OFFSET (toBE
             (((Node.mk p (some (pageCopy p)) PageType.Leaf).num_cells + 1)
               - ((Node.mk p (some (pageCopy p))
                   PageType.Leaf).num_cells + 1) / 2)))) PageType.Leaf,
           Node.mk q (some (wb B2 LEAF_NUM_KEYS_OFFSET (toBE
             (((Node.mk p (some (pageCopy p))
                 PageType.Leaf).num_cells + 1) / 2)))) PageType.Leaf) := by
      simp only [Node.split_leaf_node, mkb_write]
      rw [hloopeq]
      rfl
    have hs : ∀ x, Node.split (mkLeafNode p) (mkLeafNode q) c = some x →
        x.1 = Except.ok () := by
      intro x hx
      simp only [Node.split, mkLeafNode, set_buffer_mk, hnt, hsln2,
        flush_mkb] at hx
      split at hx
      · simp only [Option.some.injEq] at hx
        rw [← hx]
      · simp only [Option.some.injEq] at hx
        rw [← hx]
    have h1 := hs _ heq
    simp at h1

/-- `Exec` bind on a success value. -/
theorem exec_bind_ok {α β : Type} (a : α) (f : α → Exec β) :
    Bind.bind (Exec.ok a) f = f a := rfl

/-- `Node::load` on a page with the leaf kind byte. -/
theorem node_load_leaf (p : Page) (hkind : p PAGE_TYPE_OFFSET = 10) :
    Node.load p = Except.ok (Node.mk p none PageType.Leaf) := by
  rw [Node.load, hkind]
  rfl

/-- An unbuffered node over a page with the leaf kind byte reads its node
type as `Leaf`. -/
theorem node_type_leaf_of_kind_none (pg : Page)
    (hkind : pg PAGE_TYPE_OFFSET = 10) :
    (Node.mk pg none PageType.Leaf).node_type = some PageType.Leaf := by
  rw [Node.node_type]
  have hv : Node.read_variable_data (Node.mk pg none PageType.Leaf)
      PAGE_TYPE_OFFSET PAGE_TYPE_SIZE false = rB pg PAGE_TYPE_OFFSET
      PAGE_TYPE_SIZE := rfl
  rw [hv]
  have h01 : (0 : Nat) < PAGE_TYPE_SIZE := by decide
  rw [rB_getD _ _ _ _ h01]
  have he : PAGE_TYPE_OFFSET + 0 = PAGE_TYPE_OFFSET := rfl
  rw [he, hkind]
  rfl

/-- Unbuffered key read on a plain leaf node. -/
theorem mk_key_false (pg : Page) (pos : Nat) :
    Node.get_cell_key (Node.mk pg none PageType.Leaf) pos false
      = rU64 pg (1 + pos) := rfl

/-- A big-endian read of all-zero bytes is zero. -/
theorem fromBE_zero : ∀ (l : List Nat), (∀ x ∈ l, x = 0) → fromBE l = 0 := by
  intro l
  induction l with
  | nil => intro _; rfl
  | cons a l ih =>
    intro h
    have ha : a = 0 := h a (List.mem_cons_self a l)
    have h2 : ∀ x ∈ l, x = 0 := fun x hx => h x (List.mem_cons_of_mem a hx)
    show (a :: l).foldl (fun a b => a * 256 + b) 0 = 0
    rw [List.foldl_cons, ha]
    have hz : 0 * 256 + 0 = 0 := by norm_num
    rw [hz]
    exact ih h2

/-- A `u64` read over eight zero bytes is zero. -/
theorem rU64_zero (p : Page) (s : Nat) (h : ∀ j, j < 8 → p (s + j) = 0) :
    rU64 p s = 0 := by
  rw [rU64]
  refine fromBE_zero _ ?_
  intro x hx
  rw [rB] at hx
  obtain ⟨j, hj, he⟩ := List.mem_map.mp hx
  rw [List.mem_range] at hj
  rw [← he]
  exact h j hj

/-- Cache hit for page 0 in a single-entry pager cache. -/
theorem pager_get_page_hit (pg : Pager) (p : Page)
    (hcache : pg.cache = [(0, p)]) :
    pg.get_page 0 = Exec.ok (some (p, pg)) := by
  simp only [Pager.get_page]
  rw [if_neg (by omega : ¬ 0 * PAGE_SIZE > pg.file_len)]
  rw [hcache]
  rfl

/-- Table-level cache hit for page 0. -/
theorem table_get_page_hit (t : Table) (p : Page)
    (hcache : t.pager.cache = [(0, p)]) :
    t.get_page 0 = Exec.ok (some (p, t)) := by
  simp only [Table.get_page]
  rw [pager_get_page_hit t.pager p hcache]
  rfl

/-- `root_page` on a single-root-leaf table returns the cached root. -/
theorem root_page_hit (t : Table) (p : Page)
    (hcache : t.pager.cache = [(0, p)]) (hroot : t.root = 0) :
    t.root_page = Exec.ok (p, t) := by
  simp only [Table.root_page, hroot]
  rw [table_get_page_hit t p hcache]
  rfl

/-- `flush_contents` changes only the backing file. -/
theorem flush_contents_fields (t : Table) :
    t.flush_contents.pager.cache = t.pager.cache
    ∧ t.flush_contents.root = t.root
    ∧ t.flush_contents.pager.root_page = t.pager.root_page := by
  refine ⟨rfl, rfl, rfl⟩

/-- `Cursor::new` on a single-root-leaf table. -/
theorem cursor_new_rootleaf (t : Table) (p : Page)
    (hcache : t.pager.cache = [(0, p)]) (hroot : t.root = 0)
    (hkind : p PAGE_TYPE_OFFSET = 10) :
    Cursor.new t = Exec.ok
      ({ cell_num := 0, node := Node.mk p none PageType.Leaf, nodePage := 0,
         cstate := if leafNumCells p = 0 then CursorState.AtEnd
           else CursorState.AtStart,
         page_breadcrumb := [(0, 0)] }, t) := by
  simp only [Cursor.new]
  rw [root_page_hit t p hcache hroot]
  simp only [exec_bind_ok]
  rw [node_load_leaf p hkind, hroot]
  rfl

/-- `check_has_space` succeeds on a leaf with more than 34 free bytes. -/
theorem check_has_space_leaf_ok (p : Page) (hwf : LeafWF p) (key : Nat)
    (hfree : 34 < leafFreeEnd p - leafFreeStart p) :
    (Node.mk p none PageType.Leaf).check_has_space key = Except.ok () := by
  rw [Node.check_has_space]
  simp only
  have h1 : Node.read_u64_data (Node.mk p none PageType.Leaf)
      LEAF_FREE_SPACE_END_OFFSET true = leafFreeEnd p := rfl
  have h2 : Node.read_u64_data (Node.mk p none PageType.Leaf)
      LEAF_FREE_SPACE_START_OFFSET true = leafFreeStart p := rfl
  rw [h1, h2]
  have hU : leafFreeEnd p < U64 := by
    have h := hwf.fse_le
    have hP : PAGE_SIZE = 4096 := rfl
    rw [hP] at h
    have h3 : (4096 : Nat) < U64 := by norm_num [U64]
    omega
  rw [sub64_of_le hwf.fs_le hU]
  rw [if_neg ?_]
  have hK : LEAF_KEY_CELL_SIZE = 17 := rfl
  rw [hK]
  push_neg
  omega

/-- `check_key_exists` is false on a sorted zero-gap leaf for a fresh
nonzero key. -/
theorem check_key_exists_false (p : Page) (hwf : LeafWF p)
    (key : Nat) (hk0 : key ≠ 0)
    (habs : ∀ i, i < leafNumCells p → leafKeyAt p i ≠ key)
    (hgap : ∀ i, leafFreeStart p ≤ i → i < leafFreeEnd p → p i = 0)
    (hfree : 34 < leafFreeEnd p - leafFreeStart p) :
    (Node.mk p none PageType.Leaf).check_key_exists key = false := by
  rw [Node.check_key_exists]
  simp only [mk_calc_leaf, mk_key_false]
  refine decide_eq_false ?_
  have hle : (Node.mk p none PageType.Leaf).find_cell_num key
      ≤ leafNumCells p :=
    find_cell_num_le (Node.mk p none PageType.Leaf) key
  have hH : LEAF_HEADER_SIZE = 50 := rfl
  have hK : LEAF_KEY_CELL_SIZE = 17 := rfl
  rcases Nat.lt_or_ge ((Node.mk p none PageType.Leaf).find_cell_num key)
      (leafNumCells p) with hlt | hge
  · have he : rU64 p
        (1 + leafSlotPos ((Node.mk p none PageType.Leaf).find_cell_num key))
        = leafKeyAt p ((Node.mk p none PageType.Leaf).find_cell_num key) := by
      rw [leafKeyAt]
      congr 1
      have h1o : LEAF_KEY_INDENTIFIER_OFFSET = 1 := rfl
      rw [h1o]
      omega
    rw [he]
    exact habs _ hlt
  · have heq : (Node.mk p none PageType.Leaf).find_cell_num key
        = leafNumCells p := by omega
    rw [heq]
    have hz : rU64 p (1 + leafSlotPos (leafNumCells p)) = 0 := by
      refine rU64_zero p _ ?_
      intro j hj
      have hs : leafSlotPos (leafNumCells p)
          = LEAF_HEADER_SIZE + leafNumCells p * LEAF_KEY_CELL_SIZE := rfl
      rw [hs]
      refine hgap _ ?_ ?_
      · rw [hwf.fss_eq]
        omega
      · have hf2 := hfree
        rw [hwf.fss_eq] at hf2
        omega
    rw [hz]
    exact fun h => hk0 h.symm

/-- The fully successful path of `insert_cell` on a plain leaf node. -/
theorem insert_cell_leaf_path (p : Page) (c : LeafCell)
    (hdup : (Node.mk p none PageType.Leaf).check_key_exists c.identifier
      = false)
    (hsp : (Node.mk p none PageType.Leaf).check_has_space c.identifier
      = Except.ok ())
    (hg : ¬ (leafFreeStart p + LEAF_KEY_CELL_SIZE
      ≥ sub64 (leafFreeEnd p) (toBE c.content.length ++ c.content).length)) :
    (Node.mk p none PageType.Leaf).insert_cell c
      = (Except.ok (), Node.mk (leafInsertResultP p c) none PageType.Leaf)
    := by
  simp only [Node.insert_cell, leafCell_get_key]
  rw [hdup, if_neg Bool.false_ne_true, hsp]
  show (Node.mk p none PageType.Leaf).insert_leaf_cell c = _
  rw [insert_leaf_cell_ok_eq (Node.mk p none PageType.Leaf) c rfl hg,
    activeP_mk_none, mk_setA]

/-- One fuel step of `Cursor::insert` on a leaf whose `insert_cell`
succeeds. -/
theorem cursor_insert_leaf_step (fuel : Nat) (t : Table) (c : CursorSt)
    (id : Nat) (content : List Nat) (node2 : Node)
    (hnt : c.node.node_type = some PageType.Leaf)
    (hins : c.node.insert_cell (LeafCell.new id content false)
      = (Except.ok (), node2)) :
    Cursor.insert (fuel + 1) t c id content
      = Exec.ok (syncNode t { c with node := node2 },
          { c with node := node2 }, Except.ok ()) := by
  simp only [Cursor.insert, hnt, hins]

/-- One REPL insert statement on a single-root-leaf database state whose
checks pass: the new cell lands in the root leaf. -/
theorem replStep_insert_ok (t : Table) (p : Page) (id : Nat)
    (content : List Nat) (hst : RootLeafSt t p)
    (hdup : (Node.mk p none PageType.Leaf).check_key_exists id = false)
    (hsp : (Node.mk p none PageType.Leaf).check_has_space id = Except.ok ())
    (hg : ¬ (leafFreeStart p + LEAF_KEY_CELL_SIZE
      ≥ sub64 (leafFreeEnd p) (toBE content.length ++ content).length)) :
    ∃ t2, replStep t (Stmt.insert id content) = Exec.ok (t2, [])
      ∧ t2.pager.cache
          = [(0, leafInsertResultP p (LeafCell.new id content false))]
      ∧ t2.root = 0 ∧ t2.pager.root_page = 0 := by
  have hc1 : t.flush_contents.pager.cache = [(0, p)] := by
    rw [(flush_contents_fields t).1, hst.cache]
  have hr1 : t.flush_contents.root = 0 := by
    rw [(flush_contents_fields t).2.1, hst.root0]
  have hmain : replStep t (Stmt.insert id content)
      = Exec.ok (syncNode t.flush_contents
          { cell_num := 0,
            node := Node.mk
              (leafInsertResultP p (LeafCell.new id content false))
              none PageType.Leaf,
            nodePage := 0,
            cstate := if leafNumCells p = 0 then CursorState.AtEnd
              else CursorState.AtStart,
            page_breadcrumb := [(0, 0)] }, []) := by
    simp only [replStep]
    rw [cursor_new_rootleaf t.flush_contents p hc1 hr1 hst.kind]
    simp only [exec_bind_ok]
    have hf : REPL_FUEL = 999 + 1 := rfl
    rw [hf]
    rw [cursor_insert_leaf_step 999 t.flush_contents _ id content
      (Node.mk (leafInsertResultP p (LeafCell.new id content false))
        none PageType.Leaf)
      (node_type_leaf_of_kind_none p hst.kind)
      (insert_cell_leaf_path p (LeafCell.new id content false) hdup hsp hg)]
    simp only [exec_bind_ok]
  refine ⟨_, hmain, ?_, ?_, ?_⟩
  · show cacheInsert t.flush_contents.pager.cache 0
      (leafInsertResultP p (LeafCell.new id content false)) = _
    rw [hc1]
    rfl
  · exact hr1
  · show t.pager.root_page = 0
    exact hst.proot

/-- `Cursor::advance` strictly inside the leaf. -/
theorem advance_within (t : Table) (p : Page) (i : Nat)
    (bc : List (Nat × Nat)) (h : i + 1 < leafNumCells p) :
    Cursor.advance t ⟨i, Node.mk p none PageType.Leaf, 0,
        CursorState.InProgress, bc⟩
      = Exec.ok (t, ⟨i + 1, Node.mk p none PageType.Leaf, 0,
          CursorState.InProgress, bc⟩) := by
  simp only [Cursor.advance]
  have hnum : (Node.mk p none PageType.Leaf).num_cells = leafNumCells p := rfl
  rw [hnum, if_neg (by omega : ¬ leafNumCells p ≤ i + 1)]

/-- `Cursor::advance` past the last cell of an unlinked leaf. -/
theorem advance_last (t : Table) (p : Page) (i : Nat) (bc : List (Nat × Nat))
    (h : leafNumCells p ≤ i + 1)
    (hsib : rU64 p LEAF_NEXT_SIBLING_POINTER_OFFSET
      = LEAF_NEXT_SIBLING_POINTER_DEFAULT) :
    Cursor.advance t ⟨i, Node.mk p none PageType.Leaf, 0,
        CursorState.InProgress, bc⟩
      = Exec.ok (t, ⟨i + 1, Node.mk p none PageType.Leaf, 0,
          CursorState.AtEnd, bc⟩) := by
  simp only [Cursor.advance]
  have hnum : (Node.mk p none PageType.Leaf).num_cells = leafNumCells p := rfl
  rw [hnum, if_pos h, next_sibling_sentinel p hsib]

/-- The scan loop stops on an `AtEnd` cursor. -/
theorem scanLoop_atEnd (fuel : Nat) (t : Table) (c : CursorSt)
    (acc : List (Nat × List Nat)) (h : c.cstate = CursorState.AtEnd) :
    Cursor.scanLoop (fuel + 1) t c acc = Exec.ok (t, c, acc) := by
  simp only [Cursor.scanLoop]
  rw [h, if_pos rfl]

/-- Element access in a mapped range. -/
theorem range_map_getD (n t : Nat) (f : Nat → Nat) (ht : t < n) :
    ((List.range n).map f).getD t 0 = f t := by
  have hb : t < ((List.range n).map f).length := by
    rw [List.length_map, List.length_range]
    exact ht
  rw [List.getD_eq_getElem _ _ hb]
  simp

/-- The scan loop on an unlinked leaf emits the keys of the remaining
cells in slot order. -/
theorem scanLoop_leaf_run (t : Table) (p : Page)
    (hsib : rU64 p LEAF_NEXT_SIBLING_POINTER_OFFSET
      = LEAF_NEXT_SIBLING_POINTER_DEFAULT) :
    ∀ (m fuel i : Nat) (st : CursorState) (bc : List (Nat × Nat))
      (acc : List (Nat × List Nat)),
      st ≠ CursorState.AtEnd → i + m = leafNumCells p → 1 ≤ m →
      m + 2 ≤ fuel →
      ∃ c2 pairs,
        Cursor.scanLoop fuel t
          ⟨i, Node.mk p none PageType.Leaf, 0, st, bc⟩ acc
          = Exec.ok (t, c2, acc ++ pairs)
        ∧ pairs.map Prod.fst
            = (List.range m).map (fun j => leafKeyAt p (i + j)) := by
  intro m
  induction m with
  | zero =>
    intro fuel i st bc acc hst h1 h2 h3
    omega
  | succ m ih =>
    intro fuel i st bc acc hst h1 h2 hfuel
    obtain ⟨fuel2, rfl⟩ : ∃ f2, fuel = f2 + 1 := ⟨fuel - 1, by omega⟩
    have hkey : (Node.mk p none PageType.Leaf).get_cell_key
        ((Node.mk p none PageType.Leaf).calculate_cell_position i) false
        = leafKeyAt p i := by
      rw [mk_calc_leaf, mk_key_false, leafKeyAt]
      congr 1
      have h1o : LEAF_KEY_INDENTIFIER_OFFSET = 1 := rfl
      rw [h1o]
      omega
    simp only [Cursor.scanLoop]
    rw [if_neg hst]
    rcases Nat.lt_or_ge (i + 1) (leafNumCells p) with hlt | hge
    · rw [advance_within t p i bc hlt]
      simp only [exec_bind_ok]
      obtain ⟨c2, pairs, heq, hmap⟩ := ih fuel2 (i + 1)
        CursorState.InProgress bc
        (acc ++ [((Node.mk p none PageType.Leaf).get_cell_key
            ((Node.mk p none PageType.Leaf).calculate_cell_position i) false,
          (Node.mk p none PageType.Leaf).read_cell_bytes i)])
        (by intro h; exact CursorState.noConfusion h)
        (by omega) (by omega) (by omega)
      refine ⟨c2, ((Node.mk p none PageType.Leaf).get_cell_key
          ((Node.mk p none PageType.Leaf).calculate_cell_position i) false,
        (Node.mk p none PageType.Leaf).read_cell_bytes i) :: pairs, ?_, ?_⟩
      · rw [heq, List.append_assoc]
        rfl
      · rw [List.map_cons, hmap]
        have hky : ∀ a b : Nat, a = b → leafKeyAt p a = leafKeyAt p b :=
          fun a b h => by rw [h]
        refine list_ext_getD _ _ ?_ ?_
        · rw [List.length_cons, List.length_map, List.length_range,
            List.length_map, List.length_range]
        · intro tIdx hlen
          rw [List.length_cons, List.length_map, List.length_range] at hlen
          rw [range_map_getD (m + 1) tIdx _ (by omega)]
          cases tIdx with
          | zero =>
            rw [hkey]
            rfl
          | succ tIdx =>
            have hgd : ∀ (a : Nat) (l : List Nat),
                (a :: l).getD (tIdx + 1) 0 = l.getD tIdx 0 := fun a l => rfl
            rw [hgd, range_map_getD m tIdx _ (by omega)]
            exact hky _ _ (by omega)
    · have hm0 : m = 0 := by omega
      subst hm0
      rw [advance_last t p i bc (by omega) hsib]
      simp only [exec_bind_ok]
      obtain ⟨fuel3, rfl⟩ : ∃ f3, fuel2 = f3 + 1 := ⟨fuel2 - 1, by omega⟩
      rw [scanLoop_atEnd fuel3 t _ _ rfl]
      refine ⟨_, [((Node.mk p none PageType.Leaf).get_cell_key
          ((Node.mk p none PageType.Leaf).calculate_cell_position i) false,
        (Node.mk p none PageType.Leaf).read_cell_bytes i)], rfl, ?_⟩
      have hr1 : List.range 1 = [0] := rfl
      rw [hr1]
      simp only [List.map_cons, List.map_nil]
      rw [hkey, Nat.add_zero]

/-- The select descent stops immediately on a leaf. -/
theorem descendLoop_leaf (fuel : Nat) (t : Table) (c : CursorSt)
    (hnt : c.node.node_type = some PageType.Leaf) :
    Cursor.descendLoop (fuel + 1) t c = Exec.ok (t, c) := by
  simp only [Cursor.descendLoop, hnt]

/-- One REPL select statement on a single-root-leaf database state: the
emitted keys are exactly the leaf's keys in slot order, and the table is
merely flushed. -/
theorem replStep_select_run (t : Table) (p : Page) (hst : RootLeafSt t p) :
    ∃ pairs, replStep t Stmt.select = Exec.ok (t.flush_contents, pairs)
      ∧ pairs.map Prod.fst = leafKeys p := by
  have hc1 : t.flush_contents.pager.cache = [(0, p)] := by
    rw [(flush_contents_fields t).1, hst.cache]
  have hr1 : t.flush_contents.root = 0 := by
    rw [(flush_contents_fields t).2.1, hst.root0]
  have hcnt : leafNumCells p ≤ 238 := by
    have h1 := hst.wf.fss_eq
    have h2 := hst.wf.fs_le
    have h3 := hst.wf.fse_le
    have hH : LEAF_HEADER_SIZE = 50 := rfl
    have hK : LEAF_KEY_CELL_SIZE = 17 := rfl
    have hP : PAGE_SIZE = 4096 := rfl
    rw [hH, hK] at h1
    rw [hP] at h3
    omega
  by_cases hc0 : leafNumCells p = 0
  · refine ⟨[], ?_, ?_⟩
    · simp only [replStep]
      rw [cursor_new_rootleaf t.flush_contents p hc1 hr1 hst.kind]
      simp only [exec_bind_ok]
      have hf : REPL_FUEL = 999 + 1 := rfl
      rw [hf]
      simp only [Cursor.select]
      rw [if_pos hc0]
      rw [descendLoop_leaf 999 t.flush_contents _
        (node_type_leaf_of_kind_none p hst.kind)]
      simp only [exec_bind_ok]
      rw [scanLoop_atEnd 999 t.flush_contents _ _ rfl]
      simp only [exec_bind_ok]
    · rw [leafKeys, hc0]
      rfl
  · obtain ⟨c2, pairs, heq, hmap⟩ :=
      scanLoop_leaf_run t.flush_contents p hst.sib (leafNumCells p) 1000 0
        CursorState.AtStart [(0, 0)] []
        (by intro h; exact CursorState.noConfusion h)
        (by omega) (by omega) (by omega)
    refine ⟨pairs, ?_, ?_⟩
    · simp only [replStep]
      rw [cursor_new_rootleaf t.flush_contents p hc1 hr1 hst.kind]
      simp only [exec_bind_ok]
      have hf : REPL_FUEL = 999 + 1 := rfl
      rw [hf]
      simp only [Cursor.select]
      rw [if_neg hc0]
      rw [descendLoop_leaf 999 t.flush_contents _
        (node_type_leaf_of_kind_none p hst.kind)]
      simp only [exec_bind_ok]
      have h1000 : (999 : Nat) + 1 = 1000 := rfl
      rw [h1000, heq]
      rfl
    · rw [hmap, leafKeys]
      refine List.map_congr_left ?_
      intro j hj
      rw [Nat.zero_add]

/-- `u64` reads agree on pages that agree pointwise on the window. -/
theorem rU64_eq_of_pointwise (p q : Page) (s : Nat)
    (h : ∀ j, j < 8 → q (s + j) = p (s + j)) : rU64 q s = rU64 p s := by
  rw [rU64, rU64]
  refine congrArg fromBE ?_
  unfold rB
  refine List.map_congr_left ?_
  intro j hj
  rw [List.mem_range] at hj
  exact h j hj

/-- Inserting at any position is a permutation of consing. -/
theorem insertAt_perm (l : List Nat) (i x : Nat) :
    (insertAt l i x).Perm (x :: l) := by
  rw [insertAt]
  have h1 : l.take i ++ [x] ++ l.drop i = l.take i ++ x :: l.drop i := by
    rw [List.append_assoc]
    rfl
  rw [h1]
  refine (List.perm_middle).trans ?_
  rw [List.take_append_drop]

/-- Membership in a leaf's key list. -/
theorem leafKeys_mem (p : Page) (k : Nat) :
    k ∈ leafKeys p ↔ ∃ i, i < leafNumCells p ∧ leafKeyAt p i = k := by
  rw [leafKeys]
  constructor
  · intro h
    obtain ⟨i, hi, he⟩ := List.mem_map.mp h
    rw [List.mem_range] at hi
    exact ⟨i, hi, he⟩
  · intro ⟨i, hi, he⟩
    refine List.mem_map.mpr ⟨i, ?_, he⟩
    rw [List.mem_range]
    exact hi

/-- One REPL insert preserves the single-root-leaf state; the leaf gains
the key at its insertion index and the free space shrinks by the record
cost. -/
theorem rootLeafSt_insert (t : Table) (p : Page) (hst : RootLeafSt t p)
    (id : Nat) (content : List Nat) (hk0 : id ≠ 0) (hkU : id < U64)
    (hcb : ∀ x ∈ content, x < 256)
    (habs : ∀ i, i < leafNumCells p → leafKeyAt p i ≠ id)
    (hcost : 34 + (25 + content.length)
      < leafFreeEnd p - leafFreeStart p) :
    ∃ t2, replStep t (Stmt.insert id content) = Exec.ok (t2, [])
      ∧ RootLeafSt t2 (leafInsertResultP p (LeafCell.new id content false))
      ∧ leafKeys (leafInsertResultP p (LeafCell.new id content false))
          = insertAt (leafKeys p) ((mkLeafNode p).find_cell_num id) id
      ∧ leafFreeEnd (leafInsertResultP p (LeafCell.new id content false))
          - leafFreeStart (leafInsertResultP p (LeafCell.new id content false))
          = (leafFreeEnd p - leafFreeStart p) - (25 + content.length) := by
  have hfree34 : 34 < leafFreeEnd p - leafFreeStart p := by omega
  have hU : leafFreeEnd p < U64 := by
    have h := hst.wf.fse_le
    have hP : PAGE_SIZE = 4096 := rfl
    rw [hP] at h
    have h3 : (4096 : Nat) < U64 := by norm_num [U64]
    omega
  have hund : 8 + content.length ≤ leafFreeEnd p := by omega
  have hlen : (toBE content.length ++ content).length
      = 8 + content.length := by
    rw [List.length_append, toBE_length]
  have hg : ¬ (leafFreeStart p + LEAF_KEY_CELL_SIZE
      ≥ sub64 (leafFreeEnd p) (toBE content.length ++ content).length) := by
    rw [hlen, sub64_of_le hund hU]
    have hK : LEAF_KEY_CELL_SIZE = 17 := rfl
    rw [hK]
    omega
  have hfit : leafFreeStart p + 17
      < leafFreeEnd p - (8 + content.length) := by omega
  have hdup := check_key_exists_false p hst.wf id hk0 habs hst.gap hfree34
  have hsp := check_has_space_leaf_ok p hst.wf id hfree34
  obtain ⟨t2, heq, hcache2, hroot2, hproot2⟩ :=
    replStep_insert_ok t p id content hst hdup hsp hg
  have post := insert_leaf_ok_post p (LeafCell.new id content false)
    hst.wf hcb hund hfit
  have hsorted2 := (insert_leaf_ok_sorted p (LeafCell.new id content false)
    hst.wf hst.sorted habs hund hfit hkU).1
  have hkind2 : leafInsertResultP p (LeafCell.new id content false)
      PAGE_TYPE_OFFSET = 10 := by
    rw [post.low PAGE_TYPE_OFFSET (by decide)]
    exact hst.kind
  have hsib2 : rU64 (leafInsertResultP p (LeafCell.new id content false))
      LEAF_NEXT_SIBLING_POINTER_OFFSET
      = LEAF_NEXT_SIBLING_POINTER_DEFAULT := by
    have h18 : LEAF_NEXT_SIBLING_POINTER_OFFSET = 18 := rfl
    rw [h18]
    refine Eq.trans (rU64_eq_of_pointwise p _ 18 ?_) ?_
    · intro j hj
      exact post.low (18 + j) (by omega)
    · rw [← h18]
      exact hst.sib
  have hgap2 : ∀ i,
      leafFreeStart (leafInsertResultP p (LeafCell.new id content false)) ≤ i
      → i < leafFreeEnd (leafInsertResultP p (LeafCell.new id content false))
      → leafInsertResultP p (LeafCell.new id content false) i = 0 := by
    intro i hi1 hi2
    rw [post.fss] at hi1
    rw [post.fse] at hi2
    rw [post.gap i hi1 hi2]
    refine hst.gap i (by omega) (by omega)
  have hkeys2 : leafKeys (leafInsertResultP p (LeafCell.new id content false))
      = insertAt (leafKeys p) ((mkLeafNode p).find_cell_num id) id := by
    rw [post.keys]
    congr 1
    exact Nat.mod_eq_of_lt hkU
  refine ⟨t2, heq,
    ⟨hcache2, hroot2, hproot2, post.wf, hsorted2, hkind2, hsib2, hgap2⟩,
    hkeys2, ?_⟩
  have hcl : (LeafCell.new id content false).content.length
      = content.length := rfl
  rw [post.fss, post.fse, hcl]
  omega

/-- Running a below-capacity insert sequence and then a select on a
single-root-leaf database: the scan emits exactly the leaf's keys, which
are sorted and a permutation of the inserted keys plus the initial keys. -/
theorem runRepl_inserts_scan (l : List (Nat × List Nat)) :
    ∀ (t : Table) (p : Page), RootLeafSt t p →
      (∀ r ∈ l, r.1 ≠ 0 ∧ r.1 < U64 ∧ (∀ x ∈ r.2, x < 256)) →
      (∀ r ∈ l, ∀ i, i < leafNumCells p → leafKeyAt p i ≠ r.1) →
      (l.map Prod.fst).Pairwise (· ≠ ·) →
      34 + totalCost l < leafFreeEnd p - leafFreeStart p →
      ∃ t2 p2 pairs,
        runRepl t (l.map (fun r => Stmt.insert r.1 r.2) ++ [Stmt.select])
          = Exec.ok (t2, pairs)
        ∧ pairs.map Prod.fst = leafKeys p2
        ∧ leafSorted p2 ∧ LeafWF p2
        ∧ (leafKeys p2).Perm (l.map Prod.fst ++ leafKeys p) := by
  induction l with
  | nil =>
    intro t p hst hkeys habs hdist hbudget
    obtain ⟨pairs, heq, hmap⟩ := replStep_select_run t p hst
    refine ⟨t.flush_contents, p, pairs, ?_, hmap, hst.sorted, hst.wf, ?_⟩
    · show runRepl t [Stmt.select] = _
      simp only [runRepl]
      rw [heq]
      simp only [exec_bind_ok]
      rw [List.append_nil]
    · exact List.Perm.refl _
  | cons r rest ih =>
    intro t p hst hkeys habs hdist hbudget
    rw [List.map_cons] at hdist
    have hr := hkeys r (List.mem_cons_self r rest)
    have htc : totalCost (r :: rest) = (25 + r.2.length) + totalCost rest := by
      show ((r :: rest).map recordCost).sum = _
      rw [List.map_cons, List.sum_cons]
      have hrc : recordCost r = 25 + r.2.length := rfl
      rw [hrc]
      rfl
    rw [htc] at hbudget
    obtain ⟨t2, heq, hst2, hkeys2, hfree2⟩ :=
      rootLeafSt_insert t p hst r.1 r.2 hr.1 hr.2.1 hr.2.2
        (fun i hi => habs r (List.mem_cons_self r rest) i hi)
        (by omega)
    have habs2 : ∀ r2 ∈ rest, ∀ i,
        i < leafNumCells (leafInsertResultP p (LeafCell.new r.1 r.2 false)) →
        leafKeyAt (leafInsertResultP p (LeafCell.new r.1 r.2 false)) i
          ≠ r2.1 := by
      intro r2 hr2 i hi hEq
      have hmem : r2.1 ∈ leafKeys
          (leafInsertResultP p (LeafCell.new r.1 r.2 false)) :=
        (leafKeys_mem _ r2.1).mpr ⟨i, hi, hEq⟩
      rw [hkeys2] at hmem
      have hmem2 := (insertAt_perm (leafKeys p) _ r.1).mem_iff.mp hmem
      rcases List.mem_cons.mp hmem2 with h | h
      · have hpw := (List.pairwise_cons.mp hdist).1
        exact hpw r2.1 (List.mem_map.mpr ⟨r2, hr2, rfl⟩) h.symm
      · obtain ⟨i0, hi0, he0⟩ := (leafKeys_mem p r2.1).mp h
        exact habs r2 (List.mem_cons_of_mem r hr2) i0 hi0 he0
    obtain ⟨t3, p3, pairs, heq3, hmap3, hsort3, hwf3, hperm3⟩ :=
      ih t2 (leafInsertResultP p (LeafCell.new r.1 r.2 false)) hst2
        (fun r2 hr2 => hkeys r2 (List.mem_cons_of_mem r hr2)) habs2
        (List.pairwise_cons.mp hdist).2
        (by rw [hfree2]; omega)
    refine ⟨t3, p3, pairs, ?_, hmap3, hsort3, hwf3, ?_⟩
    · show runRepl t (Stmt.insert r.1 r.2
        :: (rest.map (fun r => Stmt.insert r.1 r.2) ++ [Stmt.select])) = _
      simp only [runRepl]
      rw [heq]
      simp only [exec_bind_ok]
      rw [heq3]
      simp only [exec_bind_ok]
      rw [List.nil_append]
    · refine hperm3.trans ?_
      have h1 : (leafKeys
          (leafInsertResultP p (LeafCell.new r.1 r.2 false))).Perm
          (r.1 :: leafKeys p) := by
        rw [hkeys2]
        exact insertAt_perm _ _ _
      refine (List.Perm.append_left (rest.map Prod.fst) h1).trans ?_
      exact List.perm_middle

end Db
